import Mathlib

/-!
go-vite: the account-block verifier, the on-road pool, the quota
calculation, the mobile client, the branch tree and the sync chunks

A shallow embedding of `verifier/account_verifier.go`, of
`onroad/model/pool.go`, of `vm/quota/quota.go` and of three methods of
`mobile/viteclient.go`; `fork2` with its tree and the sync chunk, whose source
is not among the files at hand, are modelled from the specification.

* Pointers to blocks returned by the store become `Option`; a Go `error`
  becomes `Option String` (`none` is `nil`).
* `uint64` heights are natural numbers; every addition the source performs on
  them is reduced modulo `2 ^ 64`.
* The verifier mutates an `AccountBlockVerifyStat` in place; here every
  sub-verification takes the stat and returns the updated stat, assignment by
  assignment in source order.
* Logging and monitoring calls have no effect on results and are dropped.
-/

namespace GoVite

/-! ## Ledger data -/

/-- A 32-byte `types.Hash`, identified with the number its bytes spell; the
all-zero array `types.Hash{}` is `0`. Only equality of hashes is used. -/
abbrev Hash := Nat

/-- A `types.Address`; only equality of addresses is used. -/
abbrev Address := Nat

/-- The all-zero hash `types.Hash{}`. -/
def zeroHash : Hash := 0

/-- Width of the `uint64` type. -/
def u64 : Nat := 2 ^ 64

/-- Modelled from the spec: the `kind` attribute of an account block
(`ledger.BlockType*`, declared outside the verifier package). -/
inductive BlockType where
  | SendCall
  | SendCreate
  | Receive
  | ReceiveError
  deriving DecidableEq, Repr

/-- Modelled from the spec: the result of `Chain.AccountType`
(`ledger.AccountType*`, declared outside the verifier package); `Other` stands
for any code that is none of the three named ones. -/
inductive AccountTypeCode where
  | NotExist
  | General
  | Contract
  | Other
  deriving DecidableEq, Repr

/-- The fields of `ledger.AccountBlock` read by the verifier. -/
structure AccountBlock where
  BlockType : GoVite.BlockType
  Hash : GoVite.Hash
  Height : Nat
  PrevHash : GoVite.Hash
  AccountAddress : Address
  PublicKey : List Nat
  ToAddress : Address
  FromBlockHash : GoVite.Hash
  Amount : Option Int
  Fee : Option Int
  SnapshotHash : GoVite.Hash
  Timestamp : Option Int
  Nonce : List Nat
  Signature : List Nat
  /-- The field `TokenId`. -/
  TokenId : Nat := 0
  /-- The bytes of the backing array of `Nonce` between its length and its
  capacity: `Nonce[:8]` is defined exactly when the capacity reaches 8. -/
  NonceSpare : List Nat := []
  /-- The field `Data`. -/
  Data : List Nat := []
  /-- The field `QuotaUsed`, a `uint64`. -/
  QuotaUsed : Nat := 0
  /-- The field `Difficulty`, a `*big.Int`. -/
  Difficulty : Option Int := none
  deriving DecidableEq, Repr

/-- The fields of `ledger.SnapshotBlock` read by the verifier. -/
structure SnapshotBlock where
  Hash : GoVite.Hash
  PrevHash : GoVite.Hash
  Height : Nat
  Timestamp : Int
  deriving DecidableEq, Repr

/-- Modelled from the spec: `AccountBlock.IsReceiveBlock`, true for the kinds
`Receive` and `ReceiveError`. -/
def AccountBlock.IsReceiveBlock (ab : AccountBlock) : Bool :=
  ab.BlockType = .Receive || ab.BlockType = .ReceiveError

/-- Modelled from the spec: `AccountBlock.IsSendBlock`, true for the kinds
`SendCall` and `SendCreate`. -/
def AccountBlock.IsSendBlock (ab : AccountBlock) : Bool :=
  ab.BlockType = .SendCall || ab.BlockType = .SendCreate

/-! ## Collaborators of the verifier -/

/-- The `Chain` interface: each lookup returns the Go pair `(value, error)`. -/
structure Chain where
  AccountType : Address → AccountTypeCode × Option String
  GetAccountBlockByHash : Hash → Option AccountBlock × Option String
  GetLatestAccountBlock : Address → Option AccountBlock × Option String
  GetSnapshotBlockByHash : Hash → Option SnapshotBlock × Option String
  GetLatestSnapshotBlock : SnapshotBlock

/-- The `Consensus` interface: `VerifyAccountProducer` returns an error or `nil`. -/
structure Consensus where
  VerifyAccountProducer : AccountBlock → Option String

/-- Package-level functions of other packages called by the verifier. -/
structure Prims where
  PubkeyToAddress : List Nat → Address
  ComputeHash : AccountBlock → Hash
  /-- The function `crypto.VerifySig(pubkey, message, signdata)`, returning `(bool, error)`. -/
  VerifySig : List Nat → Hash → List Nat → Bool × Option String
  /-- The function `crypto.Hash256` applied to the address and the previous hash. -/
  Hash256 : Address → Hash → List Nat
  /-- The function `pow.CheckPowNonce(nil, nonce, data)`. -/
  CheckPowNonce : List Nat → List Nat → Bool

/-- The receiver `AccountVerifier` (its logger and signer play no part). -/
structure AccountVerifier where
  chain : Chain
  consensusReader : Consensus
  prims : Prims

/-! ## Verification results -/

/-- The three verdicts; `PENDING` is the zero value. -/
inductive VerifyResult where
  | PENDING
  | FAIL
  | SUCCESS
  deriving DecidableEq, Repr

/-- A pending task on an account block: `Addr` may be `nil`. -/
structure AccountPendingTask where
  Addr : Option Address
  Hash : GoVite.Hash
  deriving DecidableEq, Repr

/-- A pending task on a snapshot block. -/
structure SnapshotPendingTask where
  Hash : GoVite.Hash
  deriving DecidableEq, Repr

/-- The record `AccountBlockVerifyStat`. -/
structure AccountBlockVerifyStat where
  referredSnapshotResult : VerifyResult
  referredSelfResult : VerifyResult
  referredFromResult : VerifyResult
  accountTask : List AccountPendingTask
  snapshotTask : Option SnapshotPendingTask
  errMsg : String
  deriving DecidableEq, Repr

/-- The constant `TimeOutHeight = uint64(24 * 30 * 3600)`. -/
def TimeOutHeight : Nat := 24 * 30 * 3600

/-- The constant `MaxBigIntLen`. -/
def MaxBigIntLen : Nat := 256

/-- The zero-valued stat returned by `newVerifyStat`. -/
def newVerifyStat (_block : AccountBlock) : AccountBlockVerifyStat :=
  { referredSnapshotResult := .PENDING
    referredSelfResult := .PENDING
    referredFromResult := .PENDING
    accountTask := []
    snapshotTask := none
    errMsg := "" }

/-- The method `AccountBlockVerifyStat.ErrMsg`. -/
def AccountBlockVerifyStat.ErrMsg (result : AccountBlockVerifyStat) : String :=
  result.errMsg

/-- The method `AccountBlockVerifyStat.GetPendingTasks`. -/
def AccountBlockVerifyStat.GetPendingTasks (result : AccountBlockVerifyStat) :
    List AccountPendingTask × Option SnapshotPendingTask :=
  (result.accountTask, result.snapshotTask)

/-- The method `AccountBlockVerifyStat.VerifyResult`. -/
def AccountBlockVerifyStat.VerifyResult (result : AccountBlockVerifyStat) :
    GoVite.VerifyResult :=
  if result.referredSelfResult = .FAIL ∨
      result.referredFromResult = .FAIL ∨
      result.referredSnapshotResult = .FAIL then
    .FAIL
  else if result.referredSelfResult = .SUCCESS ∧
      result.referredFromResult = .SUCCESS ∧
      result.referredSnapshotResult = .SUCCESS then
    .SUCCESS
  else
    .PENDING

/-! ## The sub-verifications -/

/-- The method `VerifyTimeOut`: the sum `blockReferSb.Height + TimeOutHeight` is a
`uint64` sum. -/
def AccountVerifier.VerifyTimeOut (verifier : AccountVerifier)
    (blockReferSb : SnapshotBlock) : Bool :=
  let currentSb := verifier.chain.GetLatestSnapshotBlock
  if currentSb.Height > (blockReferSb.Height + TimeOutHeight) % u64 then
    false
  else
    true

/-- The method `VerifySnapshotBlockOfReferredBlock`. -/
def AccountVerifier.VerifySnapshotBlockOfReferredBlock (verifier : AccountVerifier)
    (thisBlock referredBlock : AccountBlock) : Bool :=
  let thisSnapshotBlock := (verifier.chain.GetSnapshotBlockByHash thisBlock.SnapshotHash).1
  let prevSnapshotBlock := (verifier.chain.GetSnapshotBlockByHash referredBlock.SnapshotHash).1
  match thisSnapshotBlock, prevSnapshotBlock with
  | some thisSb, some prevSb =>
    if prevSb.Height ≤ thisSb.Height then true else false
  | _, _ => false

/-- The method `VerifyHash`. `block.Hash.Bytes()` slices a 32-byte array and is
never `nil`, so the first disjunct of the source condition is `false`. -/
def AccountVerifier.VerifyHash (verifier : AccountVerifier) (block : AccountBlock) : Bool :=
  let computedHash := verifier.prims.ComputeHash block
  if false || !(decide (computedHash = block.Hash)) then
    false
  else
    false

/-- The method `verifyProducerLegality`; the `task` argument is not used by the
source body. -/
def AccountVerifier.verifyProducerLegality (verifier : AccountVerifier)
    (block : AccountBlock) (_task : List AccountPendingTask) :
    VerifyResult × Option String :=
  let code := (verifier.chain.AccountType block.AccountAddress).1
  if code = .Contract ∧ block.IsReceiveBlock = true ∧
      (verifier.consensusReader.VerifyAccountProducer block).isSome = true then
    (.FAIL, some "the block producer is illegal")
  else if code = .General ∧
      verifier.prims.PubkeyToAddress block.PublicKey ≠ block.AccountAddress then
    (.FAIL, some "PublicKey match AccountAddress failed")
  else
    (.SUCCESS, none)

/-- The method `verifySelfPrev`. The third component is the value of the local
slice variable `task` when the function returns: the source appends to its own
copy of the slice header and returns only `(VerifyResult, error)`, so the
caller never sees that component. -/
def AccountVerifier.verifySelfPrev (verifier : AccountVerifier)
    (block : AccountBlock) (task : List AccountPendingTask) :
    VerifyResult × Option String × List AccountPendingTask :=
  match verifier.chain.GetLatestAccountBlock block.AccountAddress with
  | (none, some _) => (.FAIL, some "GetLatestAccountBlock failed", task)
  | (none, none) =>
    if block.Height = 1 then
      if block.PrevHash ≠ zeroHash then
        (.FAIL, some "check Account's first Block's PrevHash failed", task)
      else
        (.SUCCESS, none, task)
    else
      (.PENDING, none, task ++ [⟨none, block.PrevHash⟩])
  | (some latestBlock, _) =>
    if verifier.VerifySnapshotBlockOfReferredBlock block latestBlock = false then
      (.FAIL, some "check referredBlock's snapshotBlock failed", task)
    else if block.PrevHash = latestBlock.Hash ∧
        block.Height = (latestBlock.Height + 1) % u64 then
      (.SUCCESS, none, task)
    else if block.PrevHash ≠ latestBlock.Hash ∧
        block.Height > (latestBlock.Height + 1) % u64 then
      (.PENDING, none, task ++ [⟨none, block.PrevHash⟩])
    else
      (.FAIL, some "PreHash or Height is invalid", task)

/-- The closure `isFail` of `verifySelf`: returns its verdict and the stat as it
leaves it. -/
def isFail (result : VerifyResult) (err : Option String)
    (stat : AccountBlockVerifyStat) : Bool × AccountBlockVerifyStat :=
  if result = .FAIL then
    let stat1 := { stat with referredSelfResult := .FAIL }
    match err with
    | some e => (true, { stat1 with errMsg := stat1.errMsg ++ e })
    | none => (true, stat1)
  else
    (false, stat)

/-- The method `verifySelf`. -/
def AccountVerifier.verifySelf (verifier : AccountVerifier) (block : AccountBlock)
    (verifyStatResult : AccountBlockVerifyStat) : AccountBlockVerifyStat :=
  let r1 := verifier.verifyProducerLegality block verifyStatResult.accountTask
  let f1 := isFail r1.1 r1.2 verifyStatResult
  if f1.1 = true then
    f1.2
  else
    let r2 := verifier.verifySelfPrev block f1.2.accountTask
    let f2 := isFail r2.1 r2.2.1 f1.2
    if f2.1 = true then
      f2.2
    else if r1.1 = .SUCCESS ∧ r2.1 = .SUCCESS then
      { f2.2 with referredSelfResult := .SUCCESS }
    else
      { f2.2 with
        accountTask := f2.2.accountTask ++ [⟨some block.AccountAddress, block.Hash⟩]
        referredSelfResult := .PENDING }

/-- The method `verifyFrom`. When the send is missing and the lookup reported
an error, the source first records `FAIL` and the error text and then falls
through to the append and the `PENDING` assignment. -/
def AccountVerifier.verifyFrom (verifier : AccountVerifier) (block : AccountBlock)
    (verifyStatResult : AccountBlockVerifyStat) : AccountBlockVerifyStat :=
  if block.IsReceiveBlock = true then
    match verifier.chain.GetAccountBlockByHash block.FromBlockHash with
    | (none, err) =>
      let stat1 :=
        match err with
        | some _ =>
          { verifyStatResult with
            referredFromResult := .FAIL
            errMsg := verifyStatResult.errMsg ++ "GetAccountBlockByHash failed." }
        | none => verifyStatResult
      { stat1 with
        accountTask := stat1.accountTask ++ [⟨none, block.FromBlockHash⟩]
        referredFromResult := .PENDING }
    | (some fromBlock, _) =>
      if verifier.VerifySnapshotBlockOfReferredBlock block fromBlock = true then
        { verifyStatResult with referredFromResult := .SUCCESS }
      else
        { verifyStatResult with referredFromResult := .FAIL }
  else
    { verifyStatResult with referredFromResult := .SUCCESS }

/-- The method `verifySnapshot`, assignment by assignment: inside the `else`
branch `SUCCESS` is assigned after the time-out test whatever its outcome, and
after the `if`/`else` the task and `PENDING` are assigned on every path. -/
def AccountVerifier.verifySnapshot (verifier : AccountVerifier) (block : AccountBlock)
    (verifyStatResult : AccountBlockVerifyStat) : AccountBlockVerifyStat :=
  let stat1 :=
    match (verifier.chain.GetSnapshotBlockByHash block.SnapshotHash).1 with
    | none =>
      { verifyStatResult with
        snapshotTask := some ⟨block.SnapshotHash⟩
        referredSnapshotResult := .PENDING }
    | some snapshotBlock =>
      let stat2 :=
        if verifier.VerifyTimeOut snapshotBlock = false then
          { verifyStatResult with
            errMsg := verifyStatResult.errMsg ++ "VerifyTimeOut"
            referredSnapshotResult := .FAIL }
        else
          verifyStatResult
      { stat2 with referredSnapshotResult := .SUCCESS }
  { stat1 with
    snapshotTask := some ⟨block.SnapshotHash⟩
    referredSnapshotResult := .PENDING }

/-- The method `VerifyReferred`. -/
def AccountVerifier.VerifyReferred (verifier : AccountVerifier) (block : AccountBlock) :
    VerifyResult × AccountBlockVerifyStat :=
  let stat0 := newVerifyStat block
  let stat1 := verifier.verifySelf block stat0
  let stat2 := verifier.verifyFrom block stat1
  let stat3 := verifier.verifySnapshot block stat2
  (stat3.VerifyResult, stat3)

/-! ## Data validity and the P2P gate -/

/-- The method `big.Int.BitLen`: the length in bits of the absolute value. -/
def BitLen (x : Int) : Nat := x.natAbs.size

/-- The constant `time.Hour`, in nanoseconds; instants are numbers of nanoseconds. -/
def timeHour : Int := 3600 * 1000000000

/-- The method `VerifySigature`. -/
def AccountVerifier.VerifySigature (verifier : AccountVerifier) (block : AccountBlock) : Bool :=
  match verifier.chain.AccountType block.AccountAddress with
  | (_, some _) => false
  | (code, none) =>
    if block.IsSendBlock = true ∧ (code = .NotExist ∨ code = .Contract) then
      if block.Signature.length = 0 ∨ block.PublicKey.length = 0 then
        true
      else
        false
    else if block.Signature.length = 0 ∨ block.PublicKey.length = 0 then
      false
    else
      let isVerified := (verifier.prims.VerifySig block.PublicKey block.Hash block.Signature).1
      if isVerified = false then false else true

/-- The method `VerifyNonce`; `none` is the run-time panic of the slice
expression `block.Nonce[:8]` when the capacity of the nonce is below 8. -/
def AccountVerifier.VerifyNonce (verifier : AccountVerifier) (block : AccountBlock) :
    Option Bool :=
  if block.Nonce.length ≠ 0 then
    if 8 ≤ block.Nonce.length + block.NonceSpare.length then
      let nonce := (block.Nonce ++ block.NonceSpare).take 8
      let hash256Data := verifier.prims.Hash256 block.AccountAddress block.PrevHash
      if verifier.prims.CheckPowNonce nonce hash256Data = false then some false else some true
    else
      none
  else
    some true

/-- The method `VerifyTimeNotYet`; `none` is the nil dereference of a block
without timestamp. -/
def AccountVerifier.VerifyTimeNotYet (verifier : AccountVerifier) (block : AccountBlock) :
    Option Bool :=
  let currentSb := verifier.chain.GetLatestSnapshotBlock
  match block.Timestamp with
  | none => none
  | some ts => if ts < currentSb.Timestamp + timeHour then some true else some false

/-- The method `verifySelfDataValidity`. The second component is the block as
the method leaves it (absent amount and fee are overwritten); the first is the
returned pair `(bool, error)`, or `none` when `VerifyNonce` panics. -/
def AccountVerifier.verifySelfDataValidity (verifier : AccountVerifier)
    (block : AccountBlock) : Option (Bool × Option String) × AccountBlock :=
  let block1 := if block.Amount = none then { block with Amount := some 0 } else block
  let block2 := if block1.Fee = none then { block1 with Fee := some 0 } else block1
  let amount := block2.Amount.getD 0
  let fee := block2.Fee.getD 0
  if amount < 0 ∨ BitLen amount > MaxBigIntLen then
    (some (false, some "block.Amount out of bounds"), block2)
  else if fee < 0 ∨ BitLen fee > MaxBigIntLen then
    (some (false, some "block.Fee out of bounds"), block2)
  else if block2.Timestamp = none then
    (some (false, some "block integrity miss"), block2)
  else if verifier.VerifyHash block2 = false then
    (some (false, some "VerifyHash failed"), block2)
  else
    match verifier.VerifyNonce block2 with
    | none => (none, block2)
    | some false => (some (false, some "VerifyNonce failed"), block2)
    | some true =>
      if verifier.VerifySigature block2 = false then
        (some (false, some "VerifySigature failed"), block2)
      else
        (some (true, none), block2)

/-- The method `VerifyforP2P`; `none` when one of the calls panics. -/
def AccountVerifier.VerifyforP2P (verifier : AccountVerifier) (block : AccountBlock) :
    Option Bool :=
  match verifier.VerifyTimeNotYet block with
  | none => none
  | some true => some true
  | some false =>
    match (verifier.verifySelfDataValidity block).1 with
    | none => none
    | some (isTrueRes, err) =>
      if isTrueRes = false ∨ err = none then some true else some false

/-! ## The on-road pool (`onroad/model/pool.go`)

Go maps and `sync.Map` are association lists read at the first entry of a key.
A run-time panic (nil dereference, failed type assertion) is the result `none`.
Of the expiry timers only those of the full cache are represented, each as a
target address and a flag telling whether it is still pending; deadlines are
not represented, and the firing of a pending timer is a step of its own. -/

/-- A `types.TokenTypeId`; only equality is used. -/
abbrev TokenTypeId := Nat

/-- A `types.Gid`; only equality is used. -/
abbrev Gid := Nat

/-- The lookup `m[k]` of a map. -/
def mapLoad {α : Type} : List (Nat × α) → Nat → Option α
  | [], _ => none
  | (k', x) :: rest, k => if k' = k then some x else mapLoad rest k

/-- The assignment `m[k] = x` of a map. -/
def mapStore {α : Type} : List (Nat × α) → Nat → α → List (Nat × α)
  | [], k, x => [(k, x)]
  | (k', y) :: rest, k, x =>
    if k' = k then (k, x) :: rest else (k', y) :: mapStore rest k x

/-- The statement `delete(m, k)`. -/
def mapDelete {α : Type} (m : List (Nat × α)) (k : Nat) : List (Nat × α) :=
  m.filter (fun e => decide (e.1 ≠ k))

/-- Modelled from the spec: the per-token entry `{ totalAmount, number }` of the
aggregate (type `TokenBalanceInfo`, declared in another file of the package):
`TotalAmount` is a `big.Int`, `Number` a `uint64`. -/
structure TokenBalanceInfo where
  TotalAmount : Int
  Number : Nat
  deriving DecidableEq, Repr

/-- Modelled from the spec: the per-address aggregate `CommonAccountInfo`
(declared in another file of the package): `TotalNumber` is a `uint64`, the map
holds a pointer to a `TokenBalanceInfo` per token. -/
structure CommonAccountInfo where
  TotalNumber : Nat
  TokenBalanceInfoMap : List (TokenTypeId × TokenBalanceInfo)
  deriving DecidableEq, Repr

/-- Modelled from the spec: an entry of the full cache (type
`onroadBlocksCache`, declared in another file of the package): an ordered list
of send blocks, a read cursor and a reference count. -/
structure onroadBlocksCache where
  blocks : List AccountBlock
  currentEle : Nat
  referenceCount : Int
  deriving DecidableEq, Repr

/-- The methods `addTx` and `rmTx` of `onroadBlocksCache`, defined in another
file of the package and taken as parameters. -/
structure CacheMethods where
  addTx : onroadBlocksCache → AccountBlock → onroadBlocksCache
  rmTx : onroadBlocksCache → AccountBlock → onroadBlocksCache

/-- A call of a store operation on a batch. -/
inductive StoreCall where
  | writeOnroadMeta (block : AccountBlock)
  | deleteOnroadMeta (block : AccountBlock)
  | WriteContractAddrToGid (gid : Gid) (addr : Address)
  | DeleteContractAddrFromGid (gid : Gid) (addr : Address)
  deriving DecidableEq, Repr

/-- The store access `dbAccess` (type `UAccess`, defined in another file of the
package), taken as parameters: the aggregate it loads and the error each
write operation returns (`none` is `nil`). -/
structure UAccess where
  GetCommonAccInfo : Address → Option CommonAccountInfo × Option String
  writeOnroadMeta : AccountBlock → Option String
  deleteOnroadMeta : AccountBlock → Option String
  WriteContractAddrToGid : Gid → Address → Option String
  /-- The method `DeleteContractAddrFromGid`; the pool ignores what it returns. -/
  DeleteContractAddrFromGid : Gid → Address → Option String
  /-- The lookup `dbAccess.Chain.GetAccountBlockByHash`. -/
  GetAccountBlockByHash : Hash → Option AccountBlock × Option String
  /-- The method `GetAllOnroadBlocks`. -/
  GetAllOnroadBlocks : Address → List AccountBlock × Option String

/-- A `vm_context.VmAccountBlock`: the block and the list
`VmContext.UnsavedCache().ContractGidList()` of `(gid, addr)` pairs. -/
structure VmAccountBlock where
  AccountBlock : GoVite.AccountBlock
  ContractGidList : List (Gid × Address)
  deriving DecidableEq, Repr

/-- The state of an `OnroadBlocksPool`: the store access and the two caches. -/
structure OnroadBlocksPool where
  dbAccess : UAccess
  fullCache : List (Address × onroadBlocksCache)
  simpleCache : List (Address × CommonAccountInfo)
  /-- The map `fullCacheDeadTimer`: the timer registered for an address, as its
  position in `timers`. -/
  fullCacheDeadTimer : List (Address × Nat) := []
  /-- The timers created by `time.AfterFunc(fullCacheExpireTime, ...)`, in order
  of creation: the address whose entry the timer deletes and whether the timer
  is pending (neither stopped nor fired). -/
  timers : List (Address × Bool) := []

/-- The method `addSimpleCache`. -/
def OnroadBlocksPool.addSimpleCache (p : OnroadBlocksPool) (addr : Address)
    (accountInfo : CommonAccountInfo) : OnroadBlocksPool :=
  { p with simpleCache := mapStore p.simpleCache addr accountInfo }

/-- The method `GetCommonAccountInfo`: the returned pair and the pool after
the call. -/
def OnroadBlocksPool.GetCommonAccountInfo (p : OnroadBlocksPool) (addr : Address) :
    (Option CommonAccountInfo × Option String) × OnroadBlocksPool :=
  match mapLoad p.simpleCache addr with
  | some c => ((some c, none), p)
  | none =>
    match p.dbAccess.GetCommonAccInfo addr with
    | (_, some e) => ((none, some e), p)
    | (some accountInfo, none) => ((some accountInfo, none), p.addSimpleCache addr accountInfo)
    | (none, none) => ((none, none), p)

/-- The inner loop of `WriteOnroad` over the gid list of a `SendCreate` block:
the returned error and the calls issued on the batch, in order, the failing
one included. -/
def writeGidList (db : UAccess) (batch : List StoreCall) :
    List (Gid × Address) → Option String × List StoreCall
  | [] => (none, batch)
  | (gid, addr) :: rest =>
    match db.WriteContractAddrToGid gid addr with
    | some err => (some err, batch ++ [.WriteContractAddrToGid gid addr])
    | none => writeGidList db (batch ++ [.WriteContractAddrToGid gid addr]) rest

/-- The method `WriteOnroad`: the returned error and the calls issued on the
batch, in order, the failing one included. The caches are not touched: the
call of `updateCache` is commented out in the source. -/
def OnroadBlocksPool.WriteOnroad (p : OnroadBlocksPool) (batch : List StoreCall) :
    List VmAccountBlock → Option String × List StoreCall
  | [] => (none, batch)
  | v :: rest =>
    if v.AccountBlock.IsSendBlock = true then
      match p.dbAccess.writeOnroadMeta v.AccountBlock with
      | some err => (some err, batch ++ [.writeOnroadMeta v.AccountBlock])
      | none =>
        if v.AccountBlock.BlockType = .SendCreate then
          match writeGidList p.dbAccess (batch ++ [.writeOnroadMeta v.AccountBlock])
              v.ContractGidList with
          | (some err, batch2) => (some err, batch2)
          | (none, batch2) => OnroadBlocksPool.WriteOnroad p batch2 rest
        else
          OnroadBlocksPool.WriteOnroad p (batch ++ [.writeOnroadMeta v.AccountBlock]) rest
    else
      match p.dbAccess.deleteOnroadMeta v.AccountBlock with
      | some err => (some err, batch ++ [.deleteOnroadMeta v.AccountBlock])
      | none =>
        OnroadBlocksPool.WriteOnroad p (batch ++ [.deleteOnroadMeta v.AccountBlock]) rest

/-- The method `updateFullCache`: `none` is the panic of the type assertion
`v.(*onroadBlocksCache)` on the nil interface returned by a missed `Load`. -/
def OnroadBlocksPool.updateFullCache (p : OnroadBlocksPool) (m : CacheMethods)
    (writeType : Bool) (block : AccountBlock) : Option (Option String × OnroadBlocksPool) :=
  match mapLoad p.fullCache block.ToAddress with
  | none => none
  | some fullCache =>
    if fullCache.blocks.length = 0 then
      some (none, p)
    else if writeType = true then
      some (none,
        { p with fullCache := mapStore p.fullCache block.ToAddress (m.addTx fullCache block) })
    else
      some (none,
        { p with fullCache := mapStore p.fullCache block.ToAddress (m.rmTx fullCache block) })

/-- The method `updateSimpleCache`: the returned error and the pool after the
call. `none` is a panic: an operation of `big.Int` on a nil amount, or the
statement `tokenBalanceInfo.Number -= 1` on the nil pointer of a missed map
lookup. Increments and decrements of `uint64` fields wrap. In the send branch
without entry the source only increments `TotalNumber` (the creation of the
entry is commented out); in the receive branch `Number -= 1` after `delete`
acts on the entry that has left the map. -/
def OnroadBlocksPool.updateSimpleCache (p : OnroadBlocksPool) (writeType : Bool)
    (block : AccountBlock) : Option (Option String × OnroadBlocksPool) :=
  match mapLoad p.simpleCache block.ToAddress with
  | none => some (none, p)
  | some simpleAccountInfo =>
    if writeType = true then
      match mapLoad simpleAccountInfo.TokenBalanceInfoMap block.TokenId with
      | some tokenBalanceInfo =>
        match block.Amount with
        | none => none
        | some amount =>
          let info1 : CommonAccountInfo :=
            { TotalNumber := (simpleAccountInfo.TotalNumber + 1) % u64
              TokenBalanceInfoMap :=
                mapStore simpleAccountInfo.TokenBalanceInfoMap block.TokenId
                  { TotalAmount := tokenBalanceInfo.TotalAmount + amount
                    Number := (tokenBalanceInfo.Number + 1) % u64 } }
          some (none, { p with simpleCache := mapStore p.simpleCache block.ToAddress info1 })
      | none =>
        let info1 : CommonAccountInfo :=
          { simpleAccountInfo with TotalNumber := (simpleAccountInfo.TotalNumber + 1) % u64 }
        some (none, { p with simpleCache := mapStore p.simpleCache block.ToAddress info1 })
    else
      match mapLoad simpleAccountInfo.TokenBalanceInfoMap block.TokenId with
      | some tokenBalanceInfo =>
        match block.Amount with
        | none => none
        | some amount =>
          if tokenBalanceInfo.TotalAmount < amount then
            some (some "conflict with the memory info, so can't update when writeType is false",
              p)
          else if tokenBalanceInfo.TotalAmount = amount then
            let info1 : CommonAccountInfo :=
              { TotalNumber := (simpleAccountInfo.TotalNumber + u64 - 1) % u64
                TokenBalanceInfoMap :=
                  mapDelete simpleAccountInfo.TokenBalanceInfoMap block.TokenId }
            some (none, { p with simpleCache := mapStore p.simpleCache block.ToAddress info1 })
          else
            let info1 : CommonAccountInfo :=
              { TotalNumber := (simpleAccountInfo.TotalNumber + u64 - 1) % u64
                TokenBalanceInfoMap :=
                  mapStore simpleAccountInfo.TokenBalanceInfoMap block.TokenId
                    { TotalAmount := tokenBalanceInfo.TotalAmount - amount
                      Number := (tokenBalanceInfo.Number + u64 - 1) % u64 } }
            some (none, { p with simpleCache := mapStore p.simpleCache block.ToAddress info1 })
      | none => none

/-- The method `updateCache`: both errors are only logged; `none` when one of
the two calls panics. -/
def OnroadBlocksPool.updateCache (p : OnroadBlocksPool) (m : CacheMethods)
    (writeType : Bool) (block : AccountBlock) : Option OnroadBlocksPool :=
  match p.updateFullCache m writeType block with
  | none => none
  | some (_, p1) =>
    match p1.updateSimpleCache writeType block with
    | none => none
    | some (_, p2) => some p2

/-- Modelled from the spec: the method `addReferenceCount` of
`onroadBlocksCache` (defined in another file of the package), which increments
the reference count. -/
def onroadBlocksCache.addReferenceCount (c : onroadBlocksCache) : onroadBlocksCache :=
  { c with referenceCount := c.referenceCount + 1 }

/-- Modelled from the spec: the method `subReferenceCount` of
`onroadBlocksCache` (defined in another file of the package), which decrements
the reference count and returns the new count. -/
def onroadBlocksCache.subReferenceCount (c : onroadBlocksCache) : onroadBlocksCache × Int :=
  ({ c with referenceCount := c.referenceCount - 1 }, c.referenceCount - 1)

/-- Modelled from the spec: the method `ResetCursor` of `onroadBlocksCache`
(defined in another file of the package), which rewinds the cursor to the
front. -/
def onroadBlocksCache.ResetCursor (c : onroadBlocksCache) : onroadBlocksCache :=
  { c with currentEle := 0 }

/-- The call `Stop()` on the timer at a position: it is no longer pending. -/
def stopTimer : List (Address × Bool) → Nat → List (Address × Bool)
  | [], _ => []
  | (addr, _) :: rest, 0 => (addr, false) :: rest
  | t :: rest, i + 1 => t :: stopTimer rest i

/-- The number of pending timers that delete the entry of an address. -/
def pendingTimers (timers : List (Address × Bool)) (addr : Address) : Nat :=
  (timers.filter (fun t => decide (t = (addr, true)))).length

/-- The method `DeleteFullCache`. -/
def OnroadBlocksPool.DeleteFullCache (p : OnroadBlocksPool) (address : Address) :
    OnroadBlocksPool :=
  { p with fullCache := mapDelete p.fullCache address }

/-- The method `AcquireAccountInfoCache`: the returned error and the pool after
the call. -/
def OnroadBlocksPool.AcquireAccountInfoCache (p : OnroadBlocksPool) (addr : Address) :
    Option String × OnroadBlocksPool :=
  let p1 : OnroadBlocksPool :=
    match mapLoad p.fullCacheDeadTimer addr with
    | some t => { p with timers := stopTimer p.timers t }
    | none => p
  match mapLoad p1.fullCache addr with
  | some c =>
    (none, { p1 with fullCache := mapStore p1.fullCache addr c.addReferenceCount })
  | none =>
    match p1.dbAccess.GetAllOnroadBlocks addr with
    | (_, some e) => (some e, p1)
    | (blocks, none) =>
      (none,
        { p1 with
          fullCache :=
            mapStore p1.fullCache addr
              { blocks := blocks, currentEle := 0, referenceCount := 1 } })

/-- The method `ReleaseAccountInfoCache`: the returned error and the pool after
the call. When the count drops to zero or below, a new timer is created
pending and registered for the address. -/
def OnroadBlocksPool.ReleaseAccountInfoCache (p : OnroadBlocksPool) (addr : Address) :
    Option String × OnroadBlocksPool :=
  match mapLoad p.fullCache addr with
  | none => (none, p)
  | some c =>
    if c.subReferenceCount.2 ≤ 0 then
      (none,
        { p with
          fullCache := mapStore p.fullCache addr c.subReferenceCount.1.ResetCursor
          fullCacheDeadTimer := mapStore p.fullCacheDeadTimer addr p.timers.length
          timers := p.timers ++ [(addr, true)] })
    else
      (none, { p with fullCache := mapStore p.fullCache addr c.subReferenceCount.1 })

/-- The firing of the timer at a position: when it is pending, its callback
`DeleteFullCache(addr)` runs and the timer is spent. -/
def OnroadBlocksPool.fireTimer (p : OnroadBlocksPool) (id : Nat) : OnroadBlocksPool :=
  match p.timers[id]? with
  | some (addr, true) => { p.DeleteFullCache addr with timers := stopTimer p.timers id }
  | _ => p

/-- The pool after `n` calls of `AcquireAccountInfoCache(addr)`. -/
def acquireTimes (addr : Address) (n : Nat) (p : OnroadBlocksPool) : OnroadBlocksPool :=
  (fun q : OnroadBlocksPool => (q.AcquireAccountInfoCache addr).2)^[n] p

/-- The pool after `n` calls of `ReleaseAccountInfoCache(addr)`. -/
def releaseTimes (addr : Address) (n : Nat) (p : OnroadBlocksPool) : OnroadBlocksPool :=
  (fun q : OnroadBlocksPool => (q.ReleaseAccountInfoCache addr).2)^[n] p

/-- The full cache holds for the address the loaded blocks with the cursor at
the front and the given reference count, and no timer is pending for it. -/
def heldWith (p : OnroadBlocksPool) (addr : Address) (blocks : List AccountBlock)
    (count : Int) : Prop :=
  mapLoad p.fullCache addr =
      some { blocks := blocks, currentEle := 0, referenceCount := count } ∧
    pendingTimers p.timers addr = 0

/-- The struct `signBlock`. -/
structure signBlock where
  block : AccountBlock
  ignore : Bool
  deriving DecidableEq, Repr

/-- The function `copyToSignLedger`; the sub-ledger map is read in the order of
the list. `handlerLedger` is declared without `make`, so it is the nil map: the
first execution of `handlerLedger[k] = append(handlerLedger[k], ...)` panics
(`none`). When no list holds a block the nil map is returned, which has no
key. -/
def copyToSignLedger :
    List (Address × List AccountBlock) → Option (List (Address × List signBlock))
  | [] => some []
  | (_, []) :: rest => copyToSignLedger rest
  | (_, _ :: _) :: _ => none

/-- The function `existInSubLedger`: the ledger holds pointers to the
`signBlock`s, so the assignment `v.ignore = true` is an update of the list
filed under `block.ToAddress`. -/
def existInSubLedger (block : AccountBlock) (ignoreLedger : List (Address × List signBlock)) :
    List (Address × List signBlock) :=
  if block.IsSendBlock = true then
    match mapLoad ignoreLedger block.ToAddress with
    | some bl =>
      mapStore ignoreLedger block.ToAddress
        (bl.map (fun v =>
          if v.block.FromBlockHash = block.Hash then { v with ignore := true } else v))
    | none => ignoreLedger
  else
    ignoreLedger

/-- The body of the inner loop of `DeleteOnroad` for the element `v`:
`none` is a panic, `some (some err, _, _)` is `return err`, and
`some (none, ledger, batch)` carries on with the sign ledger and the calls
issued on the batch. `GetGidFromCreateContractData` belongs to another package
and is a parameter. A nil send block returned without error is handed to
`writeOnroadMeta`, whose dereference of it is the panic of that branch. -/
def OnroadBlocksPool.deleteOnroadBody (p : OnroadBlocksPool)
    (GetGidFromCreateContractData : List Nat → Gid)
    (signLedger : List (Address × List signBlock)) (batch : List StoreCall) (v : signBlock) :
    Option (Option String × List (Address × List signBlock) × List StoreCall) :=
  if v.block.IsReceiveBlock = true then
    if v.ignore = true then
      some (none, signLedger, batch)
    else
      match p.dbAccess.GetAccountBlockByHash v.block.FromBlockHash with
      | (_, some err) => some (some err, signLedger, batch)
      | (none, none) => none
      | (some sendBlock, none) =>
        match p.dbAccess.writeOnroadMeta sendBlock with
        | some err => some (some err, signLedger, batch ++ [.writeOnroadMeta sendBlock])
        | none => some (none, signLedger, batch ++ [.writeOnroadMeta sendBlock])
  else
    match p.dbAccess.deleteOnroadMeta v.block with
    | some err =>
      some (some err, existInSubLedger v.block signLedger,
        batch ++ [.deleteOnroadMeta v.block])
    | none =>
      some (none, existInSubLedger v.block signLedger,
        batch ++ [.deleteOnroadMeta v.block,
          .DeleteContractAddrFromGid (GetGidFromCreateContractData v.block.Data)
            v.block.ToAddress])

/-- The inner loop `for i := len(blockList); i > 0; i--` of `DeleteOnroad` over
the list filed under `addr`, entered with the current value of `i`. Each turn
reads `blockList[i]`; `none` is the panic of an index out of range or of the
body. -/
def OnroadBlocksPool.deleteOnroadLoop (p : OnroadBlocksPool)
    (GetGidFromCreateContractData : List Nat → Gid) (addr : Address) :
    Nat → List (Address × List signBlock) → List StoreCall →
      Option (Option String × List (Address × List signBlock) × List StoreCall)
  | 0, signLedger, batch => some (none, signLedger, batch)
  | i + 1, signLedger, batch =>
    match (mapLoad signLedger addr).bind (fun blockList => blockList[i + 1]?) with
    | none => none
    | some v =>
      match p.deleteOnroadBody GetGidFromCreateContractData signLedger batch v with
      | none => none
      | some (some err, signLedger1, batch1) => some (some err, signLedger1, batch1)
      | some (none, signLedger1, batch1) =>
        OnroadBlocksPool.deleteOnroadLoop p GetGidFromCreateContractData addr i
          signLedger1 batch1

/-- The outer loop `for _, blockList := range signLedger` of `DeleteOnroad` over
the keys still to visit, in the order of the list. -/
def OnroadBlocksPool.deleteOnroadRange (p : OnroadBlocksPool)
    (GetGidFromCreateContractData : List Nat → Gid) :
    List Address → List (Address × List signBlock) → List StoreCall →
      Option (Option String × List (Address × List signBlock) × List StoreCall)
  | [], signLedger, batch => some (none, signLedger, batch)
  | addr :: rest, signLedger, batch =>
    match p.deleteOnroadLoop GetGidFromCreateContractData addr
        ((mapLoad signLedger addr).getD []).length signLedger batch with
    | none => none
    | some (some err, signLedger1, batch1) => some (some err, signLedger1, batch1)
    | some (none, signLedger1, batch1) =>
      OnroadBlocksPool.deleteOnroadRange p GetGidFromCreateContractData rest
        signLedger1 batch1

/-- The method `DeleteOnroad`: the returned error and the calls issued on the
batch, or `none` when it panics. -/
def OnroadBlocksPool.DeleteOnroad (p : OnroadBlocksPool)
    (GetGidFromCreateContractData : List Nat → Gid) (batch : List StoreCall)
    (subLedger : List (Address × List AccountBlock)) :
    Option (Option String × List StoreCall) :=
  match copyToSignLedger subLedger with
  | none => none
  | some signLedger =>
    (p.deleteOnroadRange GetGidFromCreateContractData (signLedger.map (fun e => e.1))
      signLedger batch).map (fun r => (r.1, r.2.2))

/-- The error a store call returns under a store access. -/
def UAccess.callError (db : UAccess) : StoreCall → Option String
  | .writeOnroadMeta block => db.writeOnroadMeta block
  | .deleteOnroadMeta block => db.deleteOnroadMeta block
  | .WriteContractAddrToGid gid addr => db.WriteContractAddrToGid gid addr
  | .DeleteContractAddrFromGid gid addr => db.DeleteContractAddrFromGid gid addr

/-- The store calls of one block in the words of the specification: for a send
one `writeOnroadMeta`, followed for a `SendCreate` by one
`WriteContractAddrToGid` per `(gid, addr)` pair in list order; for any other
block one `deleteOnroadMeta`. -/
def specCallsOfBlock (v : VmAccountBlock) : List StoreCall :=
  if v.AccountBlock.IsSendBlock = true then
    StoreCall.writeOnroadMeta v.AccountBlock ::
      (if v.AccountBlock.BlockType = .SendCreate then
        v.ContractGidList.map (fun e => StoreCall.WriteContractAddrToGid e.1 e.2)
      else [])
  else
    [StoreCall.deleteOnroadMeta v.AccountBlock]

/-- The store calls of a block list in the words of the specification: those
of each block, in block-list order. -/
def specWritePlan : List VmAccountBlock → List StoreCall
  | [] => []
  | v :: rest => specCallsOfBlock v ++ specWritePlan rest

/-- Issuing a plan of store calls in order, in the words of the
specification: the first call that fails ends the run with its error and no
further call is issued; the result is the error and the calls issued. -/
def specIssue (db : UAccess) : List StoreCall → Option String × List StoreCall
  | [] => (none, [])
  | c :: rest =>
    match db.callError c with
    | some err => (some err, [c])
    | none => ((specIssue db rest).1, c :: (specIssue db rest).2)

/-! ## The branch tree and `fork2` (packages `pool` and `pool/tree`)

The source of the tree and of `fork2` is not part of the files at hand, only
the tests `Test_Forkable` and `Test_Forkable2` that call them are; the
definitions of this section follow the specification. -/

/-- Modelled from the spec: a knot, an indexed position (height and hash) on a
branch used as a join point. -/
structure Knot where
  Height : Nat
  Hash : GoVite.Hash
  deriving DecidableEq, Repr

/-- Modelled from the spec: a block as the pool sees it, with height, hash and
previous hash. -/
structure CommonBlock where
  Height : Nat
  Hash : GoVite.Hash
  PrevHash : GoVite.Hash
  deriving DecidableEq, Repr

/-- Modelled from the spec: a branch, an append-only ordered sequence of blocks
above its tail, with a parent (`none` when the parent is the root, the
persisted disk chain) and a branch id. -/
structure Branch where
  ID : Nat
  tail : Knot
  blocks : List Knot
  parent : Option Nat
  deriving DecidableEq, Repr

/-- Modelled from the spec: the head of a branch, its last block, or its tail
when it has no block. -/
def Branch.HeadHH (b : Branch) : Knot :=
  b.blocks.getLast?.getD b.tail

/-- Modelled from the spec: the tail of a branch. -/
def Branch.TailHH (b : Branch) : Knot :=
  b.tail

/-- Modelled from the spec: the tree of branches over its root, the persisted
disk chain (its blocks in ascending order), with the id of the `main` branch. -/
structure BranchTree where
  root : List Knot
  branches : List Branch
  main : Nat
  deriving DecidableEq, Repr

/-- Modelled from the spec: the head of the disk chain. -/
def BranchTree.rootHead (t : BranchTree) : Knot :=
  t.root.getLast?.getD ⟨0, zeroHash⟩

/-- Modelled from the spec: `Init(poolId, diskChain)` creates `main` as an empty
branch rooted at the current disk-chain head. -/
def BranchTree.Init (diskChain : List Knot) : BranchTree :=
  { root := diskChain
    branches :=
      [{ ID := 0, tail := diskChain.getLast?.getD ⟨0, zeroHash⟩, blocks := [], parent := none }]
    main := 0 }

/-- Modelled from the spec: `Main()`. -/
def BranchTree.Main (t : BranchTree) : Option Branch :=
  t.branches.find? (fun b => decide (b.ID = t.main))

/-- Modelled from the spec: `Branches()`. -/
def BranchTree.Branches (t : BranchTree) : List Branch :=
  t.branches

/-- Modelled from the spec: `AddHead(branch, block)` requires
`block.prevHash = branch.head.hash ∧ block.height = branch.head.height + 1` and
appends; otherwise an error is returned and the tree is unchanged. -/
def BranchTree.AddHead (t : BranchTree) (branch : Nat) (block : CommonBlock) :
    Option String × BranchTree :=
  match t.branches.find? (fun b => decide (b.ID = branch)) with
  | none => (some "branch not found", t)
  | some b =>
    if block.PrevHash = b.HeadHH.Hash ∧ block.Height = (b.HeadHH.Height + 1) % u64 then
      (none,
        { t with
          branches := t.branches.map (fun x =>
            if x.ID = branch then { x with blocks := x.blocks ++ [⟨block.Height, block.Hash⟩] }
            else x) })
    else
      (some "add head fail", t)

/-- Modelled from the spec: `GetKnot(height, includeParent)` returns the block at
`height` either on the branch or, if `includeParent`, by walking parent
pointers to the root. The first argument bounds the number of parent pointers
followed. -/
def BranchTree.GetKnot (t : BranchTree) : Nat → Branch → Nat → Bool → Option Knot
  | fuel, b, height, includeParent =>
    match b.blocks.find? (fun k => decide (k.Height = height)) with
    | some k => some k
    | none =>
      if includeParent = true then
        match b.parent with
        | none => t.root.find? (fun k => decide (k.Height = height))
        | some pid =>
          match fuel with
          | 0 => none
          | fuel1 + 1 =>
            match t.branches.find? (fun x => decide (x.ID = pid)) with
            | some pb => BranchTree.GetKnot t fuel1 pb height true
            | none => none
      else
        none

/-- Modelled from the spec: a snippet, a contiguous block fragment not yet
linked to any branch; its tail is the position it is built on. -/
structure Snippet where
  tailHeight : Nat
  tailHash : GoVite.Hash
  headHeight : Nat
  headHash : GoVite.Hash
  deriving DecidableEq, Repr

/-- Modelled from the spec: the snippet of one block (`newSnippetChain`): its
tail is `(prevHash, height - 1)` of the block, its head the block itself. -/
def newSnippetChain (block : CommonBlock) : Snippet :=
  { tailHeight := (block.Height + u64 - 1) % u64
    tailHash := block.PrevHash
    headHeight := block.Height
    headHash := block.Hash }

/-- Modelled from the spec: the branch has a knot at the snippet's tail height
whose hash is the snippet's tail hash. -/
def BranchTree.hasTailKnot (t : BranchTree) (snippet : Snippet) (b : Branch) : Bool :=
  match t.GetKnot t.branches.length b snippet.tailHeight true with
  | some k => decide (k.Hash = snippet.tailHash)
  | none => false

/-- Modelled from the spec: the disk root has a block at the snippet's tail
height whose hash is the snippet's tail hash. -/
def BranchTree.rootHasTailKnot (t : BranchTree) (snippet : Snippet) : Bool :=
  match t.root.find? (fun k => decide (k.Height = snippet.tailHeight)) with
  | some k => decide (k.Hash = snippet.tailHash)
  | none => false

/-- Modelled from the spec: what `fork2` returns: a selected branch with the
flags `forky` and `insertable` and no error; or the error `NotFound`; when no
branch matches and the disk root does, the specification does not say what is
returned, and that outcome is kept apart. -/
inductive Fork2Result where
  | selected (forky insertable : Bool) (branch : Branch)
  | rootOnly
  | notFound
  deriving DecidableEq, Repr

/-- Modelled from the spec: `fork2(snippet, branches, diskRoot)`. The branches
are walked in the order of the list and the first one with a knot at the
snippet's tail is selected; `insertable` holds iff the snippet's tail equals
the head of the selected branch, `forky` iff a match was found and `insertable`
is false; without match on any branch and at the disk root the result is
`NotFound`. -/
def BranchTree.fork2 (t : BranchTree) (snippet : Snippet) (branches : List Branch) :
    Fork2Result :=
  match branches.find? (fun b => t.hasTailKnot snippet b) with
  | some b =>
    if (snippet.tailHash, snippet.tailHeight) = (b.HeadHH.Hash, b.HeadHH.Height) then
      .selected false true b
    else
      .selected true false b
  | none =>
    if t.rootHasTailKnot snippet = true then .rootOnly else .notFound

/-! ## Sync chunks (package `vite/net`)

The source of `newChunk` and `addSnapshotBlock` is not part of the files at
hand, only the tests `TestChunkRead` and `TestChunkRead2` are; the definitions
of this section follow the specification. -/

/-- Modelled from the spec: a chunk, with the height and hash of the last
accepted block (at creation those of its start), its end and the blocks
accepted so far. -/
structure Chunk where
  height : Nat
  hash : GoVite.Hash
  endHeight : Nat
  endHash : GoVite.Hash
  snapshotBlocks : List SnapshotBlock
  deriving DecidableEq, Repr

/-- Modelled from the spec: `newChunk(prevHash, prevHeight, endHash, endHeight, source)`. -/
def newChunk (prevHash : Hash) (prevHeight : Nat) (endHash : Hash) (endHeight : Nat) : Chunk :=
  { height := prevHeight, hash := prevHash, endHeight := endHeight, endHash := endHash,
    snapshotBlocks := [] }

/-- Modelled from the spec: the height the chunk expects next. -/
def Chunk.expectedNext (c : Chunk) : Nat :=
  (c.height + 1) % u64

/-- Modelled from the spec: `addSnapshotBlock(B)` requires
`B.height = expectedNext ∧ B.prevHash = lastHash`; otherwise it fails and the
chunk is unchanged. -/
def Chunk.addSnapshotBlock (c : Chunk) (block : SnapshotBlock) : Option String × Chunk :=
  if block.Height = c.expectedNext ∧ block.PrevHash = c.hash then
    (none,
      { c with
        height := block.Height, hash := block.Hash
        snapshotBlocks := c.snapshotBlocks ++ [block] })
  else
    (some "snapshot blocks not continuous", c)

/-- The loop of `TestChunkRead`: every block is added in turn; the result is
the list of the returned errors and the chunk at the end. -/
def Chunk.addAll (c : Chunk) : List SnapshotBlock → List (Option String) × Chunk
  | [] => ([], c)
  | block :: rest =>
    ((c.addSnapshotBlock block).1 :: ((c.addSnapshotBlock block).2.addAll rest).1,
      ((c.addSnapshotBlock block).2.addAll rest).2)

/-- A list of blocks chained from a position: each block has the next height
and refers to the hash before it. -/
def chainedFrom : Hash → Nat → List SnapshotBlock → Prop
  | _, _, [] => True
  | hash, height, block :: rest =>
    block.Height = (height + 1) % u64 ∧ block.PrevHash = hash ∧
      chainedFrom block.Hash block.Height rest

/-! ## Quota (`vm/quota/quota.go`)

Indices are Go `int`s and are kept as integers; quota values are `uint64`. The
recursion of `getIndexInBigIntList` is run with a bound on the number of calls. -/

/-- Outcome of a run of code that recurses: a returned value, a run-time panic,
or no answer within the given number of calls. -/
inductive Run (α : Type) where
  | ret (a : α)
  | crash
  | outOfFuel
  deriving DecidableEq, Repr

/-- The error values of package `util` that `quota.go` returns. -/
inductive QuotaErr where
  | ErrBlockQuotaLimitReached
  | ErrInvalidUnconfirmedQuota
  | ErrCalcPoWTwice
  deriving DecidableEq, Repr

/-- The struct `types.QuotaInfo` (declared outside these files) with the three
`uint64` fields that `calcQuotaTotal` reads. -/
structure QuotaInfo where
  BlockCount : Nat
  QuotaTotal : Nat
  QuotaUsedTotal : Nat
  deriving DecidableEq, Repr

/-- The interface `quotaDb`. -/
structure QuotaDb where
  GetQuotaUsedList : Address → List QuotaInfo
  GetUnconfirmedBlocks : Address → List AccountBlock

/-- The six results of `calcQuotaFunc` and of `calcQuotaTotal`. -/
structure QuotaResult where
  quotaTotal : Nat
  quotaPledge : Nat
  quotaAddition : Nat
  quotaUnconfirmed : Nat
  quotaAvg : Nat
  err : Option QuotaErr
  deriving DecidableEq, Repr

/-- The package variable `nodeConfig` together with the package constants
`quotaForSection` and `quotaLimitForBlock`, which are declared outside these
files. Of `sectionList` only the length is read. -/
structure NodeConfig where
  quotaForSection : Nat
  quotaLimitForBlock : Nat
  sectionList : List Rat
  difficultyList : List Int
  pledgeAmountList : List Int
  calcQuotaFunc : QuotaDb → Address → Option Int → Option Int → Run QuotaResult

/-- The conversion `int(x)` of a `uint64` on a 64-bit platform. -/
def toInt (x : Nat) : Int :=
  if x < 2 ^ 63 then (x : Int) else (x : Int) - (u64 : Int)

/-- The conversion `uint64(i)` of an `int`. -/
def toUint64 (i : Int) : Nat :=
  (i % (u64 : Int)).toNat

/-- The function `getIndexInBigIntList`, run for at most `fuel` calls. The
second component of the answer lists the indices at which `list` was read, in
the order of the reads. The sum `left + right + 1` is taken without wrap:
indices of a list in memory are far below `2 ^ 62`. -/
def getIndexInBigIntList : Nat → Int → List Int → Int → Int → Run (Int × List Int)
  | 0, _, _, _, _ => .outOfFuel
  | fuel + 1, x, list, left, right =>
    if left = right then
      .ret (left, [])
    else
      let mid := (left + right + 1).tdiv 2
      if mid < 0 then .crash
      else
        match list[mid.toNat]? with
        | none => .crash
        | some y =>
          if y = x then
            .ret (mid, [mid])
          else if y > x then
            match getIndexInBigIntList fuel x list left (mid - 1) with
            | .ret (i, reads) => .ret (i, mid :: reads)
            | .crash => .crash
            | .outOfFuel => .outOfFuel
          else
            match getIndexInBigIntList fuel x list mid right with
            | .ret (i, reads) => .ret (i, mid :: reads)
            | .crash => .crash
            | .outOfFuel => .outOfFuel

/-- The function `calcQuotaByIndex`. -/
def calcQuotaByIndex (nodeConfig : NodeConfig) (index : Int) : Nat :=
  if 0 ≤ index ∧ index < (nodeConfig.sectionList.length : Int) then
    (toUint64 index * nodeConfig.quotaForSection) % u64
  else
    0

/-- The function `getIndexByQuota`, which returns `(index, err)`. -/
def getIndexByQuota (nodeConfig : NodeConfig) (q : Nat) : Int × Option QuotaErr :=
  let index :=
    toInt ((((q + nodeConfig.quotaForSection) % u64 + u64 - 1) % u64) /
      nodeConfig.quotaForSection)
  if index ≥ (nodeConfig.sectionList.length : Int) ∨
      (toUint64 index * nodeConfig.quotaForSection) % u64 < q then
    (0, some .ErrBlockQuotaLimitReached)
  else
    (index, none)

/-- The function `calcPledgeQuota`, which returns `(quota, err)`. -/
def calcPledgeQuota (fuel : Nat) (nodeConfig : NodeConfig) (_ : QuotaDb)
    (pledgeAmount : Option Int) : Run (Nat × Option QuotaErr) :=
  match pledgeAmount with
  | none => .ret (0, none)
  | some amount =>
    if amount ≤ 0 then .ret (0, none)
    else
      match getIndexInBigIntList fuel amount nodeConfig.pledgeAmountList 0
          ((nodeConfig.sectionList.length : Int) - 1) with
      | .ret (i, _) => .ret (calcQuotaByIndex nodeConfig i, none)
      | .crash => .crash
      | .outOfFuel => .outOfFuel

/-- The function `calcPoWQuota`, which returns `(quota, err)`. -/
def calcPoWQuota (fuel : Nat) (nodeConfig : NodeConfig) (_ : QuotaDb)
    (difficulty : Option Int) : Run (Nat × Option QuotaErr) :=
  match difficulty with
  | none => .ret (0, none)
  | some d =>
    if d ≤ 0 then .ret (0, none)
    else
      match getIndexInBigIntList fuel d nodeConfig.difficultyList 0
          ((nodeConfig.sectionList.length : Int) - 1) with
      | .ret (i, _) => .ret (calcQuotaByIndex nodeConfig i, none)
      | .crash => .crash
      | .outOfFuel => .outOfFuel

/-- The function `CalcBlockQuota`, which returns `(quota, err)`. The predicate
`util.IsPoW` is declared outside these files and is a parameter. -/
def CalcBlockQuota (fuel : Nat) (nodeConfig : NodeConfig) (IsPoW : AccountBlock → Bool)
    (db : QuotaDb) (block : AccountBlock) : Run (Nat × Option QuotaErr) :=
  if IsPoW block = false then
    .ret (block.QuotaUsed, none)
  else
    match calcPoWQuota fuel nodeConfig db block.Difficulty with
    | .crash => .crash
    | .outOfFuel => .outOfFuel
    | .ret (_, some err) => .ret (0, some err)
    | .ret (powQuota, none) =>
      if block.QuotaUsed > powQuota then
        .ret ((block.QuotaUsed + u64 - powQuota) % u64, none)
      else
        .ret (0, none)

/-- The function `CalcQuotaForBlock`, which returns
`(quotaTotal, quotaAddition, err)`. -/
def CalcQuotaForBlock (nodeConfig : NodeConfig) (db : QuotaDb) (addr : Address)
    (pledgeAmount difficulty : Option Int) : Run (Nat × Nat × Option QuotaErr) :=
  match nodeConfig.calcQuotaFunc db addr pledgeAmount difficulty with
  | .crash => .crash
  | .outOfFuel => .outOfFuel
  | .ret r =>
    match r.err with
    | some err => .ret (0, 0, some err)
    | none =>
      if r.quotaTotal > nodeConfig.quotaLimitForBlock then
        if r.quotaAddition > nodeConfig.quotaLimitForBlock then
          .ret (nodeConfig.quotaLimitForBlock, nodeConfig.quotaLimitForBlock, none)
        else
          .ret (nodeConfig.quotaLimitForBlock, r.quotaAddition, none)
      else
        .ret (r.quotaTotal, r.quotaAddition, none)

/-- The first loop of `calcQuotaTotal`, over `quotaList[:len(quotaList)-1]`, on
the variables `(quotaTotal, quotaUsedTotal, blockCountTotal)`. -/
def calcQuotaTotalLoop (quotaPledge : Nat) : List QuotaInfo → Nat × Nat × Nat → Nat × Nat × Nat
  | [], st => st
  | q :: rest, (quotaTotal, quotaUsedTotal, blockCountTotal) =>
    let quotaTotal1 := (quotaTotal + quotaPledge) % u64
    let quotaUsedTotal1 := (quotaUsedTotal + q.QuotaUsedTotal) % u64
    let blockCountTotal1 := (blockCountTotal + q.BlockCount) % u64
    let quotaTotal2 :=
      if quotaTotal1 ≥ q.QuotaTotal then (quotaTotal1 + u64 - q.QuotaTotal) % u64 else 0
    calcQuotaTotalLoop quotaPledge rest (quotaTotal2, quotaUsedTotal1, blockCountTotal1)

/-- The function `calcQuotaTotal`. The test `len(quotaList) > 0` is the match on
the last entry of the list: the list has a last entry exactly when it is not
empty. -/
def calcQuotaTotal (fuel : Nat) (nodeConfig : NodeConfig) (db : QuotaDb) (addr : Address)
    (pledgeAmount difficulty : Option Int) : Run QuotaResult :=
  match calcPledgeQuota fuel nodeConfig db pledgeAmount with
  | .crash => .crash
  | .outOfFuel => .outOfFuel
  | .ret (_, some err) => .ret ⟨0, 0, 0, 0, 0, some err⟩
  | .ret (quotaPledge, none) =>
    match calcPoWQuota fuel nodeConfig db difficulty with
    | .crash => .crash
    | .outOfFuel => .outOfFuel
    | .ret (_, some err) => .ret ⟨0, 0, 0, 0, 0, some err⟩
    | .ret (quotaAddition, none) =>
      let quotaList := db.GetQuotaUsedList addr
      let st : Nat × Nat × Nat :=
        if quotaList.length > 1 then calcQuotaTotalLoop quotaPledge quotaList.dropLast (0, 0, 0)
        else (0, 0, 0)
      match quotaList.getLast? with
      | some q =>
        let quotaTotal1 := (st.1 + quotaPledge) % u64
        let quotaUsedTotal := (st.2.1 + q.QuotaUsedTotal) % u64
        let blockCountTotal := (st.2.2 + q.BlockCount) % u64
        if quotaTotal1 ≥ q.QuotaTotal then
          let quotaTotal2 := (quotaTotal1 + u64 - q.QuotaTotal) % u64
          let quotaAvg := if blockCountTotal > 0 then quotaUsedTotal / blockCountTotal else 0
          .ret ⟨(quotaTotal2 + quotaAddition) % u64, quotaPledge, quotaAddition, q.QuotaTotal,
            quotaAvg, none⟩
        else
          .ret ⟨0, 0, 0, 0, 0, some .ErrInvalidUnconfirmedQuota⟩
      | none =>
        let quotaAvg := if st.2.2 > 0 then st.2.1 / st.2.2 else 0
        .ret ⟨(st.1 + quotaAddition) % u64, quotaPledge, quotaAddition, 0, quotaAvg, none⟩

/-- The sum of the `QuotaUsedTotal` fields of a quota-used list. -/
def specUsedSum (qs : List QuotaInfo) : Nat :=
  (qs.map (fun q => q.QuotaUsedTotal)).sum

/-- The sum of the `BlockCount` fields of a quota-used list. -/
def specCountSum (qs : List QuotaInfo) : Nat :=
  (qs.map (fun q => q.BlockCount)).sum

/-- The carry of the reference definition of the specification, over the
integers and started from `t`: each entry `q` turns the carry `t` into
`max (t + P - q.QuotaTotal) 0`. -/
def specCarry (P : Nat) : Int → List QuotaInfo → Int
  | t, [] => t
  | t, q :: rest => specCarry P (max (t + (P : Int) - (q.QuotaTotal : Int)) 0) rest

/-- The average of the reference definition: the floor of the quotient of the
two sums, and 0 when the block-count sum is 0. -/
def specQuotaAvg (qs : List QuotaInfo) : Int :=
  if specCountSum qs = 0 then 0 else ((specUsedSum qs / specCountSum qs : Nat) : Int)

/-- The six answers of the reference definition, as integers. -/
structure SpecQuota where
  quotaTotal : Int
  quotaPledge : Int
  quotaAddition : Int
  quotaUnconfirmed : Int
  quotaAvg : Int
  err : Option QuotaErr
  deriving DecidableEq, Repr

/-- The reference definition of `calcQuotaTotal` in the words of the
specification, for the quota-used list `q_1..q_n`, the pledge quota `P` and the
PoW quota `A`, over the integers. -/
def specCalcQuotaTotal (P A : Nat) (qs : List QuotaInfo) : SpecQuota :=
  match qs.getLast? with
  | none => ⟨A, P, A, 0, specQuotaAvg qs, none⟩
  | some qn =>
    if specCarry P 0 qs.dropLast + (P : Int) < (qn.QuotaTotal : Int) then
      ⟨0, 0, 0, 0, 0, some .ErrInvalidUnconfirmedQuota⟩
    else
      ⟨specCarry P 0 qs.dropLast + (P : Int) - (qn.QuotaTotal : Int) + (A : Int), P, A,
        qn.QuotaTotal, specQuotaAvg qs, none⟩

/-- Whether every sum `t + P` of the reference definition, started from the
carry `t`, stays below `2 ^ 64`. -/
def specFits (P : Nat) : Int → List QuotaInfo → Bool
  | _, [] => true
  | t, q :: rest =>
    decide (t + (P : Int) < (u64 : Int)) &&
      specFits P (max (t + (P : Int) - (q.QuotaTotal : Int)) 0) rest

/-- The assumption that no 64-bit overflow occurs: every sum `t + P`, the two
sums of the average and the total of the reference definition stay below
`2 ^ 64`. -/
def specNoOverflow (P A : Nat) (qs : List QuotaInfo) : Prop :=
  specFits P 0 qs = true ∧ specUsedSum qs < u64 ∧ specCountSum qs < u64 ∧
    (specCalcQuotaTotal P A qs).quotaTotal < (u64 : Int)

/-- The answers of `calcQuotaTotal` as integers. -/
def QuotaResult.toSpec (r : QuotaResult) : SpecQuota :=
  ⟨r.quotaTotal, r.quotaPledge, r.quotaAddition, r.quotaUnconfirmed, r.quotaAvg, r.err⟩

/-! ## The mobile client (`mobile/viteclient.go`) -/

/-- The struct `Client`. The RPC client `vc.c` and the two JSON encoders are
declared outside these files and are the fields of this record: `Call method
address args` gives the value stored into the result argument and the error
returned, `Marshal` is `json.Marshal` on the decoded blocks and `MarshalJSON` is
the method of `json.RawMessage`; both give the bytes and the error. -/
structure Client where
  Call : String → Address → List Int → List Nat × Option String
  Marshal : List Nat → String × Option String
  MarshalJSON : List Nat → String × Option String

/-- The method `GetBlocksByAccAddr`, which returns `(string, error)`; `none`
when `addr` is nil and `addr.address` panics. -/
def Client.GetBlocksByAccAddr (vc : Client) (addr : Option Address) (index count : Int) :
    Option (String × Option String) :=
  match addr with
  | none => none
  | some address =>
    match vc.Call "ledger_getBlocksByAccAddr" address [index, count] with
    | (_, some _) => some ("", none)
    | (b, none) =>
      match vc.Marshal b with
      | (_, some _) => some ("", none)
      | (jsonb, none) => some (jsonb, none)

/-- The method `GetAccountByAccAddr`. -/
def Client.GetAccountByAccAddr (vc : Client) (addr : Option Address) :
    Option (String × Option String) :=
  match addr with
  | none => none
  | some address =>
    match vc.Call "ledger_getAccountByAccAddr" address [] with
    | (_, some err) => some ("", some err)
    | (info, none) =>
      match vc.MarshalJSON info with
      | (_, some e) => some ("", some e)
      | (bytes, none) => some (bytes, none)

/-- The method `GetOnroadAccountByAccAddr`. -/
def Client.GetOnroadAccountByAccAddr (vc : Client) (addr : Option Address) :
    Option (String × Option String) :=
  match addr with
  | none => none
  | some address =>
    match vc.Call "onroad_getAccountOnroadInfo" address [] with
    | (_, some err) => some ("", some err)
    | (info, none) =>
      match vc.MarshalJSON info with
      | (_, some e) => some ("", some e)
      | (bytes, none) => some (bytes, none)

/-! ## Concrete stores used to evaluate the code -/

/-- Identity-like primitives for concrete runs: the address of a key is its
length and the computed hash of a block is its stored hash. -/
def demoPrims : Prims :=
  { PubkeyToAddress := fun pk => pk.length
    ComputeHash := fun b => b.Hash
    VerifySig := fun _ _ _ => (true, none)
    Hash256 := fun a h => [a, h]
    CheckPowNonce := fun _ _ => true }

/-- A consensus reader that accepts every producer. -/
def demoConsensus : Consensus :=
  { VerifyAccountProducer := fun _ => none }

/-- The snapshot block `G` of the concrete runs: hash 100, height 10. -/
def demoSnapshot : SnapshotBlock :=
  { Hash := 100, PrevHash := 99, Height := 10, Timestamp := 0 }

/-- A store holding the snapshot block `G` and nothing else: no account has a
block, no account block is stored, `G` is the latest snapshot block. -/
def genesisChain : Chain :=
  { AccountType := fun _ => (.NotExist, none)
    GetAccountBlockByHash := fun _ => (none, none)
    GetLatestAccountBlock := fun _ => (none, none)
    GetSnapshotBlockByHash := fun h =>
      if h = 100 then (some demoSnapshot, none) else (none, none)
    GetLatestSnapshotBlock := demoSnapshot }

/-- The verifier over `genesisChain`. -/
def genesisVerifier : AccountVerifier :=
  { chain := genesisChain, consensusReader := demoConsensus, prims := demoPrims }

/-- A first block of account 3: a send of height 1 with zero `PrevHash`,
public key of length 3 (so that it derives address 3), referring to `G`. -/
def genesisBlock : AccountBlock :=
  { BlockType := .SendCall, Hash := 7, Height := 1, PrevHash := 0,
    AccountAddress := 3, PublicKey := [1, 2, 3], ToAddress := 4,
    FromBlockHash := 0, Amount := some 0, Fee := some 0, SnapshotHash := 100,
    Timestamp := some 0, Nonce := [], Signature := [9] }

/-- The store of `genesisChain` seen when the latest snapshot block has
height `10 + TimeOutHeight + 1`, so that `G` is timed out. -/
def lateChain : Chain :=
  { genesisChain with
    GetLatestSnapshotBlock :=
      { Hash := 200, PrevHash := 199, Height := 10 + TimeOutHeight + 1, Timestamp := 0 } }

/-- The verifier over `lateChain`. -/
def lateVerifier : AccountVerifier :=
  { chain := lateChain, consensusReader := demoConsensus, prims := demoPrims }

/-- The latest stored block `L` of account 3: hash 50, height 3, referring to `G`. -/
def latestThree : AccountBlock :=
  { BlockType := .SendCall, Hash := 50, Height := 3, PrevHash := 40,
    AccountAddress := 3, PublicKey := [1, 2, 3], ToAddress := 4,
    FromBlockHash := 0, Amount := some 0, Fee := some 0, SnapshotHash := 100,
    Timestamp := some 0, Nonce := [], Signature := [9] }

/-- A store in which account 3 is a general account whose latest block is
`latestThree`; the snapshot block `G` is stored and is the latest one. -/
def heightThreeChain : Chain :=
  { AccountType := fun a => if a = 3 then (.General, none) else (.NotExist, none)
    GetAccountBlockByHash := fun h =>
      if h = 50 then (some latestThree, none) else (none, none)
    GetLatestAccountBlock := fun a =>
      if a = 3 then (some latestThree, none) else (none, none)
    GetSnapshotBlockByHash := fun h =>
      if h = 100 then (some demoSnapshot, none) else (none, none)
    GetLatestSnapshotBlock := demoSnapshot }

/-- The verifier over `heightThreeChain`. -/
def heightThreeVerifier : AccountVerifier :=
  { chain := heightThreeChain, consensusReader := demoConsensus, prims := demoPrims }

/-- A send of account 3 with height 5 whose `PrevHash` (60) is not the hash of
`latestThree`. -/
def heightFiveBlock : AccountBlock :=
  { latestThree with Hash := 70, Height := 5, PrevHash := 60 }

/-- A send of account 3 with height 5 whose `PrevHash` is the hash of
`latestThree`. -/
def heightFiveOnLatest : AccountBlock :=
  { latestThree with Hash := 71, Height := 5, PrevHash := 50 }

/-- The successor of `latestThree`: height 4 and `PrevHash` 50. -/
def heightFourBlock : AccountBlock :=
  { latestThree with Hash := 72, Height := 4, PrevHash := 50 }

/-- A receive block of account 5 whose send (hash 77) is not stored. -/
def orphanReceive : AccountBlock :=
  { BlockType := .Receive, Hash := 80, Height := 1, PrevHash := 0,
    AccountAddress := 5, PublicKey := [1, 2, 3, 4, 5], ToAddress := 0,
    FromBlockHash := 77, Amount := some 0, Fee := some 0, SnapshotHash := 100,
    Timestamp := some 0, Nonce := [], Signature := [9] }

/-- A receive block of account 4 for the stored send `latestThree`. -/
def receiveOfLatest : AccountBlock :=
  { BlockType := .Receive, Hash := 81, Height := 1, PrevHash := 0,
    AccountAddress := 4, PublicKey := [1, 2, 3, 4], ToAddress := 0,
    FromBlockHash := 50, Amount := some 0, Fee := some 0, SnapshotHash := 100,
    Timestamp := some 0, Nonce := [], Signature := [9] }

/-- A snapshot block of the greatest `uint64` height. -/
def topSnapshot : SnapshotBlock :=
  { Hash := 300, PrevHash := 299, Height := 2 ^ 64 - 1, Timestamp := 0 }

/-- A store whose latest snapshot block is `topSnapshot`. -/
def topChain : Chain :=
  { genesisChain with
    GetSnapshotBlockByHash := fun h =>
      if h = 300 then (some topSnapshot, none) else (none, none)
    GetLatestSnapshotBlock := topSnapshot }

/-- The verifier over `topChain`. -/
def topVerifier : AccountVerifier :=
  { chain := topChain, consensusReader := demoConsensus, prims := demoPrims }

/-- A store whose account-block lookups fail with an error. -/
def brokenChain : Chain :=
  { genesisChain with
    GetAccountBlockByHash := fun _ => (none, some "db closed")
    GetLatestAccountBlock := fun _ => (none, some "db closed") }

/-- The verifier over `brokenChain`. -/
def brokenVerifier : AccountVerifier :=
  { chain := brokenChain, consensusReader := demoConsensus, prims := demoPrims }

/-- A copy of `genesisBlock` with amount `-5` and a timestamp two hours after
the latest snapshot block. -/
def negativeAmountBlock : AccountBlock :=
  { genesisBlock with Amount := some (-5), Timestamp := some (2 * timeHour) }

/-- Primitives whose recomputed hash is 7 for every block. -/
def sevenPrims : Prims :=
  { demoPrims with ComputeHash := fun _ => 7 }

/-- The verifier over `genesisChain` with `sevenPrims`. -/
def sevenVerifier : AccountVerifier :=
  { chain := genesisChain, consensusReader := demoConsensus, prims := sevenPrims }

/-- A copy of `genesisBlock` with stored hash 8 and a timestamp two hours
after the latest snapshot block. -/
def wrongHashBlock : AccountBlock :=
  { genesisBlock with Hash := 8, Timestamp := some (2 * timeHour) }

/-- A copy of `genesisBlock` without amount, fee and timestamp. -/
def bareBlock : AccountBlock :=
  { genesisBlock with Amount := none, Fee := none, Timestamp := none }

/-- A store whose account-type lookup fails with an error. -/
def typeErrorChain : Chain :=
  { genesisChain with AccountType := fun _ => (.Other, some "db closed") }

/-- The verifier over `typeErrorChain`. -/
def typeErrorVerifier : AccountVerifier :=
  { chain := typeErrorChain, consensusReader := demoConsensus, prims := demoPrims }

/-- A store in which every account is a contract account. -/
def contractChain : Chain :=
  { genesisChain with AccountType := fun _ => (.Contract, none) }

/-- The verifier over `contractChain` whose consensus reader rejects every
producer. -/
def rejectingVerifier : AccountVerifier :=
  { chain := contractChain
    consensusReader := { VerifyAccountProducer := fun _ => some "not the producer" }
    prims := demoPrims }

/-! ### The on-road store, from the specification -/

/-- Modelled from the spec: the persistent on-road layout, which the pool
reaches only through `dbAccess`: the unreceived send blocks, keyed by
`(toAddress, sendBlockHash)`, and the group index of `(gid, contractAddr)`. -/
structure OnroadStore where
  metas : List AccountBlock
  gids : List (Gid × Address)
  /-- The account blocks of the ledger, for the lookup by hash. -/
  blocks : List AccountBlock := []
  deriving DecidableEq, Repr

/-- Modelled from the spec: removal of the on-road entry of key
`(toAddress, sendBlockHash)`. -/
def OnroadStore.deleteMeta (s : OnroadStore) (addr : Address) (hash : Hash) : OnroadStore :=
  { s with metas := s.metas.filter (fun b => decide (¬ (b.ToAddress = addr ∧ b.Hash = hash))) }

/-- Modelled from the spec: the effect of one committed store call.
`writeOnroadMeta` files the send under `(ToAddress, Hash)`; `deleteOnroadMeta`
removes the entry `(AccountAddress, FromBlockHash)` for a receive block and
`(ToAddress, Hash)` for a send block. -/
def OnroadStore.applyCall (s : OnroadStore) : StoreCall → OnroadStore
  | .writeOnroadMeta block =>
    { s.deleteMeta block.ToAddress block.Hash with
      metas := (s.deleteMeta block.ToAddress block.Hash).metas ++ [block] }
  | .deleteOnroadMeta block =>
    if block.IsReceiveBlock = true then s.deleteMeta block.AccountAddress block.FromBlockHash
    else s.deleteMeta block.ToAddress block.Hash
  | .WriteContractAddrToGid gid addr =>
    { s with gids := s.gids.filter (fun e => decide (e ≠ (gid, addr))) ++ [(gid, addr)] }
  | .DeleteContractAddrFromGid gid addr =>
    { s with gids := s.gids.filter (fun e => decide (e ≠ (gid, addr))) }

/-- Modelled from the spec: the commit of a batch, call by call in order. -/
def OnroadStore.commit (s : OnroadStore) (batch : List StoreCall) : OnroadStore :=
  batch.foldl OnroadStore.applyCall s

/-- Modelled from the spec: the number of on-road sends to an address. -/
def OnroadStore.onroadCount (s : OnroadStore) (addr : Address) : Nat :=
  (s.metas.filter (fun b => decide (b.ToAddress = addr))).length

/-- Modelled from the spec: one send added to an aggregate:
`totalNumber += 1`, balance entry `+amount, +1`. -/
def specAddSend (info : CommonAccountInfo) (send : AccountBlock) : CommonAccountInfo :=
  { TotalNumber := info.TotalNumber + 1
    TokenBalanceInfoMap :=
      match mapLoad info.TokenBalanceInfoMap send.TokenId with
      | some t =>
        mapStore info.TokenBalanceInfoMap send.TokenId
          { TotalAmount := t.TotalAmount + send.Amount.getD 0, Number := t.Number + 1 }
      | none =>
        mapStore info.TokenBalanceInfoMap send.TokenId
          { TotalAmount := send.Amount.getD 0, Number := 1 } }

/-- Modelled from the spec: `Store.GetCommonAccInfo`, the aggregate over all
on-road sends to the address, absent when there is none. -/
def OnroadStore.GetCommonAccInfo (s : OnroadStore) (addr : Address) :
    Option CommonAccountInfo :=
  match s.metas.filter (fun b => decide (b.ToAddress = addr)) with
  | [] => none
  | sends => some (sends.foldl specAddSend { TotalNumber := 0, TokenBalanceInfoMap := [] })

/-- The store access over a given store state; no operation fails. -/
def OnroadStore.access (s : OnroadStore) : UAccess :=
  { GetCommonAccInfo := fun addr => (s.GetCommonAccInfo addr, none)
    writeOnroadMeta := fun _ => none
    deleteOnroadMeta := fun _ => none
    WriteContractAddrToGid := fun _ _ => none
    DeleteContractAddrFromGid := fun _ _ => none
    GetAccountBlockByHash := fun h => (s.blocks.find? (fun b => decide (b.Hash = h)), none)
    GetAllOnroadBlocks := fun addr =>
      (s.metas.filter (fun b => decide (b.ToAddress = addr)), none) }

/-! ### Concrete pools -/

/-- A send to address 4 of amount 10 of token 1. -/
def sendTen : AccountBlock :=
  { latestThree with Hash := 90, Amount := some 10, TokenId := 1 }

/-- A second send to address 4, of amount 5 of token 1. -/
def sendFive : AccountBlock :=
  { latestThree with Hash := 91, Height := 4, PrevHash := 90, Amount := some 5, TokenId := 1 }

/-- A send to address 4 of amount 20 of token 1. -/
def sendTwenty : AccountBlock :=
  { latestThree with Hash := 92, Amount := some 20, TokenId := 1 }

/-- A store holding the on-road send `sendTen`. -/
def storeOne : OnroadStore :=
  { metas := [sendTen], gids := [] }

/-- A pool over `storeOne` with empty caches. -/
def freshPool : OnroadBlocksPool :=
  { dbAccess := storeOne.access, fullCache := [], simpleCache := [] }

/-- A pool whose simple cache holds the empty aggregate for address 4. -/
def emptyAggregatePool : OnroadBlocksPool :=
  { dbAccess := storeOne.access, fullCache := []
    simpleCache := [(4, { TotalNumber := 0, TokenBalanceInfoMap := [] })] }

/-- A pool whose simple cache holds, for address 4, one send counted but no
entry for any token. -/
def noEntryPool : OnroadBlocksPool :=
  { dbAccess := storeOne.access, fullCache := []
    simpleCache := [(4, { TotalNumber := 1, TokenBalanceInfoMap := [] })] }

/-- The aggregate of address 4 after `sendTen`: one send, `{10, 1}` for token 1. -/
def aggregateTen : CommonAccountInfo :=
  { TotalNumber := 1, TokenBalanceInfoMap := [(1, { TotalAmount := 10, Number := 1 })] }

/-- A pool whose simple cache holds `aggregateTen` for address 4 and whose full
cache holds an entry without blocks for address 4. -/
def tenPool : OnroadBlocksPool :=
  { dbAccess := storeOne.access
    fullCache := [(4, { blocks := [], currentEle := 0, referenceCount := 1 })]
    simpleCache := [(4, aggregateTen)] }

/-- Cache methods for concrete runs: `addTx` appends the block, `rmTx` removes
the blocks of the same hash. -/
def demoMethods : CacheMethods :=
  { addTx := fun c b => { c with blocks := c.blocks ++ [b] }
    rmTx := fun c b => { c with blocks := c.blocks.filter (fun x => decide (x.Hash ≠ b.Hash)) } }

/-- A receive by address 4 of the send `sendTen`: amount 10 of token 1. -/
def receiveTen : AccountBlock :=
  { BlockType := .Receive, Hash := 95, Height := 1, PrevHash := 0,
    AccountAddress := 4, PublicKey := [1, 2, 3, 4], ToAddress := 4,
    FromBlockHash := 90, Amount := some 10, Fee := some 0, SnapshotHash := 100,
    Timestamp := some 0, Nonce := [], Signature := [9], TokenId := 1 }

/-- A receive by address 4 of amount 20 of token 1. -/
def receiveTwenty : AccountBlock :=
  { receiveTen with Hash := 96, FromBlockHash := 92, Amount := some 20 }

/-- The store after the committed write of the second send `sendFive`. -/
def storeTwo : OnroadStore :=
  storeOne.commit [.writeOnroadMeta sendFive]

/-- The pool after a first read of address 4 on `freshPool`, seen when the
store has become `storeTwo`. -/
def poolAfterWrite : OnroadBlocksPool :=
  { (freshPool.GetCommonAccountInfo 4).2 with dbAccess := storeTwo.access }

/-- A copy of `genesisBlock` referring to a snapshot block that is not stored. -/
def missingSnapshotBlock : AccountBlock :=
  { genesisBlock with SnapshotHash := 101 }

/-- A `SendCreate` block to address 6 with two `(gid, addr)` pairs. -/
def createBlock : VmAccountBlock :=
  { AccountBlock := { latestThree with BlockType := .SendCreate, Hash := 93, ToAddress := 6 }
    ContractGidList := [(1, 6), (2, 6)] }

/-- A pool whose store access fails on every `deleteOnroadMeta`. -/
def failingPool : OnroadBlocksPool :=
  { dbAccess := { storeOne.access with deleteOnroadMeta := fun _ => some "disk full" }
    fullCache := [], simpleCache := [] }

/-- The `SendCreate` block of `createBlock`: hash 93, from account 3 to address 6. -/
def createSend : AccountBlock :=
  createBlock.AccountBlock

/-- The receive by address 6 of `createSend`. -/
def receiveCreate : AccountBlock :=
  { receiveTen with Hash := 97, AccountAddress := 6, ToAddress := 0, FromBlockHash := 93 }

/-- The store after the committed writes of `createSend` and of its receive,
starting from the empty store; the ledger holds both blocks. -/
def pairStore : OnroadStore :=
  { ({ metas := [], gids := [] } : OnroadStore).commit
      (freshPool.WriteOnroad [] [createBlock, ⟨receiveCreate, []⟩]).2 with
    blocks := [createSend, receiveCreate, sendTen] }

/-- A pool over `pairStore` with empty caches. -/
def pairPool : OnroadBlocksPool :=
  { dbAccess := pairStore.access, fullCache := [], simpleCache := [] }

/-- A stand-in for `GetGidFromCreateContractData`: the first byte of the data,
1 for empty data. -/
def demoGid : List Nat → Gid :=
  fun data => data.headD 1

/-- A pool over `storeOne` whose load of all on-road blocks fails. -/
def loadFailPool : OnroadBlocksPool :=
  { dbAccess := { storeOne.access with GetAllOnroadBlocks := fun _ => ([], some "db closed") }
    fullCache := [], simpleCache := [] }

/-- The pool reached from `freshPool` by one acquire and three releases of
address 4, followed by the firing of the first of the three expiry timers. -/
def stalePool : OnroadBlocksPool :=
  (releaseTimes 4 3 (acquireTimes 4 1 freshPool)).fireTimer 0

/-! ### Concrete trees, after `Test_Forkable` and `Test_Forkable2` -/

/-- The mock disk chain at creation: one block of height 0 with the zero hash. -/
def mockRoot : List Knot :=
  [⟨0, zeroHash⟩]

/-- A block built on the position `(height, hash)`, as the tests' helper
`newMockCommonBlockByHH` does: height `height + 1`, previous hash `hash`, and a
hash of its own made of the flag and the height. -/
def mockBlock (height : Nat) (hash : Hash) (flag : Nat) : CommonBlock :=
  { Height := height + 1, Hash := 1000 * flag + height + 1, PrevHash := hash }

/-- The disk chain of `Test_Forkable`: five blocks added on the mock root. -/
def rootFive : List Knot :=
  mockRoot ++ [⟨1, 1001⟩, ⟨2, 1002⟩, ⟨3, 1003⟩, ⟨4, 1004⟩, ⟨5, 1005⟩]

/-- Six blocks added to `main`, each on the head before it, as in
`Test_Forkable`. -/
def addSix (t : BranchTree) : BranchTree :=
  (List.range 6).foldl
    (fun acc _ =>
      match acc.Main with
      | some main => (acc.AddHead main.ID (mockBlock main.HeadHH.Height main.HeadHH.Hash 2)).2
      | none => acc)
    t

/-- The tree of `Test_Forkable`: `main` holds the heights 6 to 11 above its tail
at height 5 on a disk chain of height 5. -/
def forkableTree : BranchTree :=
  addSix (BranchTree.Init rootFive)

/-- The snippet of `Test_Forkable`: one block built on the knot of height 5. -/
def forkableSnippet : Snippet :=
  newSnippetChain (mockBlock 5 1005 3)

/-- The tree of `Test_Forkable2`: freshly initialised on the mock root. -/
def freshTree : BranchTree :=
  BranchTree.Init mockRoot

/-- The snippet of `Test_Forkable2`: one block built on height 0 with the zero
hash. -/
def freshSnippet : Snippet :=
  newSnippetChain (mockBlock 0 zeroHash 3)

/-- A snippet built on a position that no branch and no root block holds. -/
def strangerSnippet : Snippet :=
  newSnippetChain (mockBlock 5 4242 3)

/-- The branch `main` of `forkableTree`. -/
def forkableMain : Branch :=
  { ID := 0, tail := ⟨5, 1005⟩
    blocks := [⟨6, 2006⟩, ⟨7, 2007⟩, ⟨8, 2008⟩, ⟨9, 2009⟩, ⟨10, 2010⟩, ⟨11, 2011⟩]
    parent := none }

/-- The branch `main` of `freshTree`. -/
def freshMain : Branch :=
  { ID := 0, tail := ⟨0, zeroHash⟩, blocks := [], parent := none }

/-- The loop of `TestChunkRead` producing `n` blocks above a position: each
block has the next height, refers to the hash before it and gets a hash of its
own (here `1000` plus its height, where the test draws a random one). -/
def chainBlocks : Hash → Nat → Nat → List SnapshotBlock
  | _, _, 0 => []
  | prevHash, height, n + 1 =>
    { Hash := 1001 + height, PrevHash := prevHash, Height := height + 1, Timestamp := 0 } ::
      chainBlocks (1001 + height) (height + 1) n

/-- The blocks of heights 101 to 200 of `TestChunkRead`, the first one
referring to the zero hash. -/
def chunkBlocks : List SnapshotBlock :=
  chainBlocks zeroHash 100 100

/-- The chunk of `TestChunkRead`: start `(zero hash, 100)`, end height 200. -/
def testChunk : Chunk :=
  newChunk zeroHash 100 zeroHash 200

/-- A receive by address 4 of the send `sendFive`: amount 5 of token 1. -/
def receiveFive : AccountBlock :=
  { receiveTen with Hash := 97, FromBlockHash := 91, Amount := some 5 }

/-- A pool whose simple cache holds, for address 4, one on-road send of amount 0
of token 1: the entry of token 1 is `{0, 1}`. -/
def zeroEntryPool : OnroadBlocksPool :=
  { dbAccess := storeOne.access, fullCache := []
    simpleCache :=
      [(4, { TotalNumber := 1, TokenBalanceInfoMap := [(1, { TotalAmount := 0, Number := 1 })] })] }

/-- A sign ledger with two lists: under address 4 the receives of `sendTen` and
of `sendTwenty`, under address 6 a receive of `sendTen`. -/
def demoSignLedger : List (Address × List signBlock) :=
  [(4, [⟨receiveTen, false⟩, ⟨receiveTwenty, false⟩]), (6, [⟨receiveTen, false⟩])]

/-- A copy of `genesisBlock` whose nonce has three bytes, in a backing array of
capacity three. -/
def shortNonceBlock : AccountBlock :=
  { genesisBlock with Nonce := [1, 2, 3] }

/-- A quota store in which account 3 has three quota-used entries and every
other account none. -/
def demoQuotaDb : QuotaDb :=
  { GetQuotaUsedList := fun a =>
      if a = 3 then [⟨1, 10, 8⟩, ⟨2, 30, 20⟩, ⟨1, 15, 12⟩] else []
    GetUnconfirmedBlocks := fun _ => [] }

/-- A configuration of four sections of 21000 quota each, with a block limit
of 50000; its `calcQuotaFunc` answers like the test function does for an
account without unconfirmed blocks. -/
def demoConfig : NodeConfig :=
  { quotaForSection := 21000, quotaLimitForBlock := 50000
    sectionList := [0, 1, 2, 3]
    difficultyList := [0, 100, 200, 300]
    pledgeAmountList := [0, 10, 20, 30]
    calcQuotaFunc := fun _ _ _ _ => .ret ⟨1000000, 1000000, 0, 0, 0, none⟩ }

/-- The configuration `demoConfig` with `calcQuotaTotal` as its `calcQuotaFunc`. -/
def totalConfig : NodeConfig :=
  { demoConfig with calcQuotaFunc := calcQuotaTotal 4 demoConfig }

/-- The configuration `demoConfig` with 1 as `quotaForSection`. -/
def unitSectionConfig : NodeConfig :=
  { demoConfig with quotaForSection := 1 }

/-- A PoW predicate for concrete runs: the block carries a nonce. -/
def demoIsPoW (block : AccountBlock) : Bool :=
  decide (block.Nonce.length > 0)

/-- A block with a nonce, of difficulty 150, that used 30000 quota. -/
def powBlock : AccountBlock :=
  { genesisBlock with
    Nonce := [1, 2, 3, 4, 5, 6, 7, 8], QuotaUsed := 30000, Difficulty := some 150 }

/-- A client whose every call fails. -/
def downClient : Client :=
  { Call := fun _ _ _ => ([], some "connection refused")
    Marshal := fun _ => ("[]", none)
    MarshalJSON := fun _ => ("null", none) }

/-- A client whose calls succeed and whose encoders fail. -/
def brokenJsonClient : Client :=
  { Call := fun _ _ _ => ([1], none)
    Marshal := fun _ => ("", some "unsupported value")
    MarshalJSON := fun _ => ("", some "unsupported value") }

/-- A client whose calls and encoders succeed. -/
def upClient : Client :=
  { Call := fun _ _ _ => ([1], none)
    Marshal := fun _ => ("[1]", none)
    MarshalJSON := fun _ => ("1", none) }

/-- The invariant of `CommonAccountInfo` in the words of the specification:
`Σ balances.number = totalNumber` and `totalAmount ≥ 0`. -/
def specAggregateInvariant (info : CommonAccountInfo) : Prop :=
  (info.TokenBalanceInfoMap.map (fun e => e.2.Number)).sum = info.TotalNumber ∧
  ∀ e ∈ info.TokenBalanceInfoMap, 0 ≤ e.2.TotalAmount

/-- The combination rule in the words of the specification:
`SUCCESS ⊓ SUCCESS = SUCCESS`, `_ ⊓ FAIL = FAIL`, otherwise `PENDING`. -/
def specMeet (a b : VerifyResult) : VerifyResult :=
  match a, b with
  | .SUCCESS, .SUCCESS => .SUCCESS
  | _, .FAIL => .FAIL
  | .FAIL, _ => .FAIL
  | _, _ => .PENDING

/-! ## Properties of `VerifyResult` and `VerifyReferred` -/

/-- The verdict of a stat is `FAIL` exactly when one sub-result is `FAIL`. -/
theorem verifyResult_eq_FAIL_iff (stat : AccountBlockVerifyStat) :
    stat.VerifyResult = .FAIL ↔
      (stat.referredSelfResult = .FAIL ∨ stat.referredFromResult = .FAIL ∨
        stat.referredSnapshotResult = .FAIL) := by
  unfold AccountBlockVerifyStat.VerifyResult
  split_ifs with h1 h2 <;> simp [h1]

/-- The verdict of a stat is `SUCCESS` exactly when all sub-results are. -/
theorem verifyResult_eq_SUCCESS_iff (stat : AccountBlockVerifyStat) :
    stat.VerifyResult = .SUCCESS ↔
      (stat.referredSelfResult = .SUCCESS ∧ stat.referredFromResult = .SUCCESS ∧
        stat.referredSnapshotResult = .SUCCESS) := by
  unfold AccountBlockVerifyStat.VerifyResult
  split_ifs with h1 h2
  · rcases h1 with h | h | h <;> simp [h]
  · simp [h2]
  · simp [h2]

/-- The self sub-result is written by `verifySelf` alone. -/
theorem verifyFrom_self (v : AccountVerifier) (b : AccountBlock)
    (stat : AccountBlockVerifyStat) :
    (v.verifyFrom b stat).referredSelfResult = stat.referredSelfResult := by
  unfold AccountVerifier.verifyFrom
  split_ifs
  · split
    · split <;> rfl
    · split_ifs <;> rfl
  · rfl

/-- The snapshot check leaves the self sub-result untouched. -/
theorem verifySnapshot_self (v : AccountVerifier) (b : AccountBlock)
    (stat : AccountBlockVerifyStat) :
    (v.verifySnapshot b stat).referredSelfResult = stat.referredSelfResult := by
  unfold AccountVerifier.verifySnapshot
  dsimp only
  split <;> (try split_ifs) <;> rfl

/-- The snapshot check leaves the from sub-result untouched. -/
theorem verifySnapshot_from (v : AccountVerifier) (b : AccountBlock)
    (stat : AccountBlockVerifyStat) :
    (v.verifySnapshot b stat).referredFromResult = stat.referredFromResult := by
  unfold AccountVerifier.verifySnapshot
  dsimp only
  split <;> (try split_ifs) <;> rfl

/-- The from sub-result written by `verifyFrom` does not depend on the stat it
starts from. -/
theorem verifyFrom_result_indep (v : AccountVerifier) (b : AccountBlock)
    (s1 s2 : AccountBlockVerifyStat) :
    (v.verifyFrom b s1).referredFromResult = (v.verifyFrom b s2).referredFromResult := by
  unfold AccountVerifier.verifyFrom
  split_ifs
  · split
    · rfl
    · split_ifs <;> rfl
  · rfl

/-- Whatever the store holds, `verifySnapshot` leaves the snapshot sub-result
`PENDING` and the snapshot task set to the block's snapshot hash. -/
theorem verifySnapshot_always_PENDING (v : AccountVerifier) (b : AccountBlock)
    (stat : AccountBlockVerifyStat) :
    (v.verifySnapshot b stat).referredSnapshotResult = .PENDING ∧
      (v.verifySnapshot b stat).snapshotTask = some ⟨b.SnapshotHash⟩ :=
  ⟨rfl, rfl⟩

/-- `VerifyReferred` never answers `SUCCESS`. -/
theorem VerifyReferred_ne_SUCCESS (v : AccountVerifier) (b : AccountBlock) :
    (v.VerifyReferred b).1 ≠ .SUCCESS := by
  intro h
  have h2 := (verifyResult_eq_SUCCESS_iff _).1 h
  have h3 := (verifySnapshot_always_PENDING v b
    (v.verifyFrom b (v.verifySelf b (newVerifyStat b)))).1
  have h4 := h2.2.2
  simp only [AccountVerifier.VerifyReferred] at h4
  rw [h3] at h4
  exact absurd h4 (by decide)

/-- C1: `VerifyResult` is `FAIL` exactly when at least one of the three
sub-results is `FAIL`, `SUCCESS` exactly when all three are `SUCCESS`, and
`PENDING` exactly in the remaining cases; it is the specification's meet of the
three sub-results, and `VerifyReferred` returns this combination of the results
written by `verifySelf`, `verifyFrom` and `verifySnapshot`. -/
theorem C1_VerifyResult_lattice (v : AccountVerifier) (b : AccountBlock)
    (stat : AccountBlockVerifyStat) :
    (stat.VerifyResult = .FAIL ↔
      (stat.referredSelfResult = .FAIL ∨ stat.referredFromResult = .FAIL ∨
        stat.referredSnapshotResult = .FAIL)) ∧
    (stat.VerifyResult = .SUCCESS ↔
      (stat.referredSelfResult = .SUCCESS ∧ stat.referredFromResult = .SUCCESS ∧
        stat.referredSnapshotResult = .SUCCESS)) ∧
    (stat.VerifyResult = .PENDING ↔
      (¬ (stat.referredSelfResult = .FAIL ∨ stat.referredFromResult = .FAIL ∨
          stat.referredSnapshotResult = .FAIL) ∧
        ¬ (stat.referredSelfResult = .SUCCESS ∧ stat.referredFromResult = .SUCCESS ∧
          stat.referredSnapshotResult = .SUCCESS))) ∧
    stat.VerifyResult =
      specMeet (specMeet stat.referredSelfResult stat.referredFromResult)
        stat.referredSnapshotResult ∧
    (v.VerifyReferred b).1 = (v.VerifyReferred b).2.VerifyResult ∧
    (v.VerifyReferred b).2.referredSelfResult =
      (v.verifySelf b (newVerifyStat b)).referredSelfResult ∧
    (v.VerifyReferred b).2.referredFromResult =
      (v.verifyFrom b (newVerifyStat b)).referredFromResult ∧
    (v.VerifyReferred b).2.referredSnapshotResult =
      (v.verifySnapshot b (newVerifyStat b)).referredSnapshotResult := by
  refine ⟨verifyResult_eq_FAIL_iff stat, verifyResult_eq_SUCCESS_iff stat, ?_, ?_, rfl,
    ?_, ?_, rfl⟩
  · unfold AccountBlockVerifyStat.VerifyResult
    cases stat.referredSelfResult <;> cases stat.referredFromResult <;>
      cases stat.referredSnapshotResult <;> decide
  · unfold AccountBlockVerifyStat.VerifyResult specMeet
    cases stat.referredSelfResult <;> cases stat.referredFromResult <;>
      cases stat.referredSnapshotResult <;> decide
  · simp only [AccountVerifier.VerifyReferred]
    rw [verifySnapshot_self, verifyFrom_self]
  · simp only [AccountVerifier.VerifyReferred]
    rw [verifySnapshot_from]
    exact verifyFrom_result_indep _ _ _ _

/-- C2: evaluation of `verifySnapshot` on a block whose snapshot block `G` is
stored. Against `genesisChain` the snapshot is not timed out
(`VerifyTimeOut = true`) and the sub-result is `PENDING`, not `SUCCESS`; against
`lateChain` it is timed out and the sub-result is `PENDING`, not `FAIL`. -/
theorem C2_verifySnapshot_present_is_PENDING :
    (genesisChain.GetSnapshotBlockByHash genesisBlock.SnapshotHash).1 = some demoSnapshot ∧
    genesisVerifier.VerifyTimeOut demoSnapshot = true ∧
    (genesisVerifier.verifySnapshot genesisBlock
      (newVerifyStat genesisBlock)).referredSnapshotResult = .PENDING ∧
    (lateChain.GetSnapshotBlockByHash genesisBlock.SnapshotHash).1 = some demoSnapshot ∧
    lateVerifier.VerifyTimeOut demoSnapshot = false ∧
    (lateVerifier.verifySnapshot genesisBlock
      (newVerifyStat genesisBlock)).referredSnapshotResult = .PENDING := by
  refine ⟨by decide, by decide, rfl, by decide, by decide, rfl⟩

/-- C3: evaluation of `VerifyReferred` on the genesis scenario: height 1, zero
`PrevHash`, an account without stored block whose key derives its address, a
send, a stored snapshot that is not timed out. The self and from sub-results
are `SUCCESS`, the snapshot sub-result is `PENDING`, and the answer is
`PENDING`, not `SUCCESS`. -/
theorem C3_genesis_VerifyReferred_is_PENDING :
    genesisBlock.Height = 1 ∧ genesisBlock.PrevHash = zeroHash ∧
    (genesisChain.GetLatestAccountBlock genesisBlock.AccountAddress).1 = none ∧
    demoPrims.PubkeyToAddress genesisBlock.PublicKey = genesisBlock.AccountAddress ∧
    genesisBlock.IsSendBlock = true ∧
    (genesisChain.GetSnapshotBlockByHash genesisBlock.SnapshotHash).1 = some demoSnapshot ∧
    genesisVerifier.VerifyTimeOut demoSnapshot = true ∧
    (genesisVerifier.VerifyReferred genesisBlock).2.referredSelfResult = .SUCCESS ∧
    (genesisVerifier.VerifyReferred genesisBlock).2.referredFromResult = .SUCCESS ∧
    (genesisVerifier.VerifyReferred genesisBlock).2.referredSnapshotResult = .PENDING ∧
    (genesisVerifier.VerifyReferred genesisBlock).1 = .PENDING := by
  refine ⟨rfl, rfl, rfl, rfl, rfl, by decide, by decide, by decide, by decide, by decide,
    by decide⟩

/-! ## Properties of the predecessor check -/

/-- `VerifySnapshotBlockOfReferredBlock` answers `true` exactly when both
snapshot blocks are found and the referred one is not higher. -/
theorem VerifySnapshotBlockOfReferredBlock_iff (v : AccountVerifier)
    (thisBlock referredBlock : AccountBlock) :
    v.VerifySnapshotBlockOfReferredBlock thisBlock referredBlock = true ↔
      ∃ thisSb prevSb,
        (v.chain.GetSnapshotBlockByHash thisBlock.SnapshotHash).1 = some thisSb ∧
        (v.chain.GetSnapshotBlockByHash referredBlock.SnapshotHash).1 = some prevSb ∧
        prevSb.Height ≤ thisSb.Height := by
  unfold AccountVerifier.VerifySnapshotBlockOfReferredBlock
  cases h1 : (v.chain.GetSnapshotBlockByHash thisBlock.SnapshotHash).1 <;>
    cases h2 : (v.chain.GetSnapshotBlockByHash referredBlock.SnapshotHash).1 <;>
    simp

/-- C4 (as stated, refuted): `latestThree` (hash 50, height 3) is the latest
block of account 3 and the snapshot references are monotone; the block
`heightFiveOnLatest` has height 5 > 3 + 1 and is not the successor of
`latestThree`, yet `verifySelfPrev` answers `FAIL`, not `PENDING`, because its
`PrevHash` equals the hash of `latestThree`. -/
theorem C4_counterexample_prevHash_equal :
    (heightThreeChain.GetLatestAccountBlock heightFiveOnLatest.AccountAddress).1 =
      some latestThree ∧
    heightThreeVerifier.VerifySnapshotBlockOfReferredBlock heightFiveOnLatest latestThree
      = true ∧
    ¬ (heightFiveOnLatest.PrevHash = latestThree.Hash ∧
        heightFiveOnLatest.Height = latestThree.Height + 1) ∧
    heightFiveOnLatest.Height > latestThree.Height + 1 ∧
    (heightThreeVerifier.verifySelfPrev heightFiveOnLatest []).1 = .FAIL ∧
    (heightThreeVerifier.verifySelfPrev heightFiveOnLatest []).1 ≠ .PENDING := by
  refine ⟨by decide, by decide, by decide, by decide, by decide, by decide⟩

/-- C4 (amended): when the account has a latest stored block `L` whose height
is below `2 ^ 64 - 1`, `verifySelfPrev` answers `FAIL` if the snapshot
references are not monotone (both snapshot blocks stored and
`snapshot(L).height ≤ snapshot(block).height`); if they are, it answers
`SUCCESS` when `PrevHash = L.Hash` and `Height = L.Height + 1`, otherwise
`PENDING` when `PrevHash ≠ L.Hash` and `Height > L.Height + 1`, otherwise
`FAIL`. -/
theorem C4_verifySelfPrev_with_latest (v : AccountVerifier) (b L : AccountBlock)
    (task : List AccountPendingTask)
    (hL : (v.chain.GetLatestAccountBlock b.AccountAddress).1 = some L)
    (hH : L.Height + 1 < u64) :
    ((∃ thisSb prevSb,
        (v.chain.GetSnapshotBlockByHash b.SnapshotHash).1 = some thisSb ∧
        (v.chain.GetSnapshotBlockByHash L.SnapshotHash).1 = some prevSb ∧
        prevSb.Height ≤ thisSb.Height) →
      (v.verifySelfPrev b task).1 =
        if b.PrevHash = L.Hash ∧ b.Height = L.Height + 1 then .SUCCESS
        else if b.PrevHash ≠ L.Hash ∧ b.Height > L.Height + 1 then .PENDING
        else .FAIL) ∧
    (¬ (∃ thisSb prevSb,
        (v.chain.GetSnapshotBlockByHash b.SnapshotHash).1 = some thisSb ∧
        (v.chain.GetSnapshotBlockByHash L.SnapshotHash).1 = some prevSb ∧
        prevSb.Height ≤ thisSb.Height) →
      (v.verifySelfPrev b task).1 = .FAIL) := by
  have hmod : (L.Height + 1) % u64 = L.Height + 1 := Nat.mod_eq_of_lt hH
  rw [← VerifySnapshotBlockOfReferredBlock_iff]
  unfold AccountVerifier.verifySelfPrev
  rcases hlk : v.chain.GetLatestAccountBlock b.AccountAddress with ⟨lb, e⟩
  rw [hlk] at hL
  simp only at hL
  subst hL
  simp only [hmod]
  constructor
  · intro hm
    simp only [hm, Bool.true_eq_false, if_false]
    split_ifs <;> rfl
  · intro hm
    have hf : v.VerifySnapshotBlockOfReferredBlock b L = false := by
      simpa using hm
    simp [hf]

/-- C4 witness: the amended statement at `heightThreeVerifier`, for the successor
block `heightFourBlock` of `latestThree`. -/
theorem C4_verifySelfPrev_with_latest_witness :
    (heightThreeChain.GetLatestAccountBlock heightFourBlock.AccountAddress).1 =
      some latestThree ∧
    latestThree.Height + 1 < u64 ∧
    (heightThreeVerifier.verifySelfPrev heightFourBlock []).1 = .SUCCESS :=
  ⟨by decide, by decide,
    ((C4_verifySelfPrev_with_latest heightThreeVerifier heightFourBlock latestThree []
      (by decide) (by decide)).1
      ⟨demoSnapshot, demoSnapshot, by decide, by decide, by decide⟩).trans (by decide)⟩

/-- C5: evaluation of the missing-predecessor scenario: the latest block of
account 3 has height 3 and hash 50, the submitted send `heightFiveBlock` has
height 5 and `PrevHash` 60. `verifySelfPrev` answers `PENDING` and its local
slice holds the task `(nil, PrevHash)`, `VerifyReferred` answers `PENDING`, but
the account tasks returned by `GetPendingTasks` are exactly
`[(AccountAddress, Hash)]`: the task `(nil, PrevHash)` is not among them. -/
theorem C5_missing_predecessor_task_lost :
    (heightThreeChain.GetLatestAccountBlock heightFiveBlock.AccountAddress).1 =
      some latestThree ∧
    latestThree.Height = 3 ∧ heightFiveBlock.Height = 5 ∧
    heightFiveBlock.PrevHash ≠ latestThree.Hash ∧
    heightThreeVerifier.VerifySnapshotBlockOfReferredBlock heightFiveBlock latestThree
      = true ∧
    (heightThreeVerifier.verifySelfPrev heightFiveBlock []).1 = .PENDING ∧
    (heightThreeVerifier.verifySelfPrev heightFiveBlock []).2.2 =
      [⟨none, heightFiveBlock.PrevHash⟩] ∧
    (heightThreeVerifier.VerifyReferred heightFiveBlock).1 = .PENDING ∧
    (heightThreeVerifier.VerifyReferred heightFiveBlock).2.GetPendingTasks.1 =
      [⟨some heightFiveBlock.AccountAddress, heightFiveBlock.Hash⟩] ∧
    (⟨none, heightFiveBlock.PrevHash⟩ : AccountPendingTask) ∉
      (heightThreeVerifier.VerifyReferred heightFiveBlock).2.GetPendingTasks.1 := by
  refine ⟨by decide, rfl, rfl, by decide, by decide, by decide, by decide, by decide,
    by decide, by decide⟩

/-- C6: when the account has no stored block, `verifySelfPrev` answers `FAIL` if
the lookup reported an error; without error it answers `SUCCESS` for height 1
with zero `PrevHash`, `FAIL` for height 1 with non-zero `PrevHash`, and
`PENDING` for every other height. -/
theorem C6_verifySelfPrev_no_latest (v : AccountVerifier) (b : AccountBlock)
    (task : List AccountPendingTask)
    (hnone : (v.chain.GetLatestAccountBlock b.AccountAddress).1 = none) :
    ((v.chain.GetLatestAccountBlock b.AccountAddress).2 = none →
      (b.Height = 1 ∧ b.PrevHash = zeroHash → (v.verifySelfPrev b task).1 = .SUCCESS) ∧
      (b.Height = 1 ∧ b.PrevHash ≠ zeroHash → (v.verifySelfPrev b task).1 = .FAIL) ∧
      (b.Height ≠ 1 → (v.verifySelfPrev b task).1 = .PENDING)) ∧
    ((v.chain.GetLatestAccountBlock b.AccountAddress).2 ≠ none →
      (v.verifySelfPrev b task).1 = .FAIL) := by
  unfold AccountVerifier.verifySelfPrev
  rcases hlk : v.chain.GetLatestAccountBlock b.AccountAddress with ⟨lb, e⟩
  rw [hlk] at hnone
  simp only at hnone
  subst hnone
  cases e with
  | none =>
    refine ⟨fun _ => ⟨?_, ?_, ?_⟩, fun h => absurd rfl h⟩
    · rintro ⟨h1, h2⟩
      simp [h1, h2]
    · rintro ⟨h1, h2⟩
      simp [h1, h2]
    · intro h1
      simp [h1]
  | some msg =>
    refine ⟨fun h => ?_, fun _ => rfl⟩
    simp at h

/-- C6 witness: on `genesisChain` account 3 has no stored block and the lookup
reports no error; the genesis block passes. -/
theorem C6_verifySelfPrev_no_latest_witness :
    (genesisChain.GetLatestAccountBlock genesisBlock.AccountAddress).1 = none ∧
    (genesisChain.GetLatestAccountBlock genesisBlock.AccountAddress).2 = none ∧
    (genesisVerifier.verifySelfPrev genesisBlock []).1 = .SUCCESS :=
  ⟨rfl, rfl,
    ((C6_verifySelfPrev_no_latest genesisVerifier genesisBlock [] rfl).1 rfl).1 ⟨rfl, rfl⟩⟩

/-! ## Properties of the from check -/

/-- C7: for a receive block whose send is not in the store, `verifyFrom` leaves
the from sub-result `PENDING` and appends to the account tasks exactly one
task, with `Addr = nil` and `Hash = FromBlockHash`. -/
theorem C7_verifyFrom_missing_send (v : AccountVerifier) (b : AccountBlock)
    (stat : AccountBlockVerifyStat)
    (hrecv : b.IsReceiveBlock = true)
    (hmiss : (v.chain.GetAccountBlockByHash b.FromBlockHash).1 = none) :
    (v.verifyFrom b stat).referredFromResult = .PENDING ∧
    (v.verifyFrom b stat).accountTask = stat.accountTask ++ [⟨none, b.FromBlockHash⟩] := by
  unfold AccountVerifier.verifyFrom
  rcases hlk : v.chain.GetAccountBlockByHash b.FromBlockHash with ⟨fb, e⟩
  rw [hlk] at hmiss
  simp only at hmiss
  subst hmiss
  rw [if_pos hrecv]
  cases e <;> exact ⟨rfl, rfl⟩

/-- C7 witness: the receive block `orphanReceive` on `brokenChain`, where the
lookup of its send finds nothing and reports an error. -/
theorem C7_verifyFrom_missing_send_witness :
    orphanReceive.IsReceiveBlock = true ∧
    (brokenChain.GetAccountBlockByHash orphanReceive.FromBlockHash).1 = none ∧
    (brokenVerifier.verifyFrom orphanReceive
      (newVerifyStat orphanReceive)).referredFromResult = .PENDING ∧
    (brokenVerifier.verifyFrom orphanReceive (newVerifyStat orphanReceive)).accountTask =
      (newVerifyStat orphanReceive).accountTask ++ [⟨none, orphanReceive.FromBlockHash⟩] :=
  ⟨rfl, rfl,
    C7_verifyFrom_missing_send brokenVerifier orphanReceive (newVerifyStat orphanReceive)
      rfl rfl⟩

/-- C8: `VerifySnapshotBlockOfReferredBlock(this, referred)` is `true` exactly
when both referenced snapshot blocks are found in the store and
`snapshot(referred).height ≤ snapshot(this).height`; for a receive block whose
send is stored, `verifyFrom` yields `SUCCESS` exactly when that holds and
`FAIL` exactly when it does not. -/
theorem C8_monotone_snapshot_reference (v : AccountVerifier)
    (thisBlock referredBlock : AccountBlock) (stat : AccountBlockVerifyStat) :
    (v.VerifySnapshotBlockOfReferredBlock thisBlock referredBlock = true ↔
      ∃ thisSb prevSb,
        (v.chain.GetSnapshotBlockByHash thisBlock.SnapshotHash).1 = some thisSb ∧
        (v.chain.GetSnapshotBlockByHash referredBlock.SnapshotHash).1 = some prevSb ∧
        prevSb.Height ≤ thisSb.Height) ∧
    (thisBlock.IsReceiveBlock = true →
      (v.chain.GetAccountBlockByHash thisBlock.FromBlockHash).1 = some referredBlock →
      ((v.verifyFrom thisBlock stat).referredFromResult = .SUCCESS ↔
        ∃ thisSb prevSb,
          (v.chain.GetSnapshotBlockByHash thisBlock.SnapshotHash).1 = some thisSb ∧
          (v.chain.GetSnapshotBlockByHash referredBlock.SnapshotHash).1 = some prevSb ∧
          prevSb.Height ≤ thisSb.Height) ∧
      ((v.verifyFrom thisBlock stat).referredFromResult = .FAIL ↔
        ¬ ∃ thisSb prevSb,
          (v.chain.GetSnapshotBlockByHash thisBlock.SnapshotHash).1 = some thisSb ∧
          (v.chain.GetSnapshotBlockByHash referredBlock.SnapshotHash).1 = some prevSb ∧
          prevSb.Height ≤ thisSb.Height)) := by
  refine ⟨VerifySnapshotBlockOfReferredBlock_iff v thisBlock referredBlock, ?_⟩
  intro hrecv hfound
  rw [← VerifySnapshotBlockOfReferredBlock_iff]
  unfold AccountVerifier.verifyFrom
  rcases hlk : v.chain.GetAccountBlockByHash thisBlock.FromBlockHash with ⟨fb, e⟩
  rw [hlk] at hfound
  simp only at hfound
  subst hfound
  simp only [hrecv, if_true]
  cases hv : v.VerifySnapshotBlockOfReferredBlock thisBlock referredBlock <;> simp

/-- C8 witness: the receive block `receiveOfLatest` of the stored send
`latestThree`, both referring to the snapshot block `G`. -/
theorem C8_monotone_snapshot_reference_witness :
    receiveOfLatest.IsReceiveBlock = true ∧
    (heightThreeChain.GetAccountBlockByHash receiveOfLatest.FromBlockHash).1 =
      some latestThree ∧
    (heightThreeVerifier.verifyFrom receiveOfLatest
      (newVerifyStat receiveOfLatest)).referredFromResult = .SUCCESS :=
  ⟨rfl, by decide,
    ((C8_monotone_snapshot_reference heightThreeVerifier receiveOfLatest latestThree
      (newVerifyStat receiveOfLatest)).2 rfl (by decide)).1.2
      ⟨demoSnapshot, demoSnapshot, by decide, by decide, by decide⟩⟩

/-! ## Properties of the time-out and hash checks -/

/-- Without wrap-around of the sum, `VerifyTimeOut` compares the height
difference with `TimeOutHeight`. -/
theorem VerifyTimeOut_of_no_wrap (v : AccountVerifier) (sb : SnapshotBlock)
    (h : sb.Height + TimeOutHeight < u64) :
    v.VerifyTimeOut sb = true ↔
      (v.chain.GetLatestSnapshotBlock.Height : Int) - sb.Height ≤ TimeOutHeight := by
  unfold AccountVerifier.VerifyTimeOut
  simp only [Nat.mod_eq_of_lt h]
  split_ifs with hc
  · simp only [Bool.false_eq_true, false_iff, not_le]
    omega
  · simp only [true_iff]
    omega

/-- C9: evaluation of `VerifyTimeOut` where the `uint64` sum wraps: the referred
snapshot block is the latest one, of height `2 ^ 64 - 1`. The height
difference is `0 ≤ TimeOutHeight = 2592000`, the sum
`Height + TimeOutHeight` wraps to `2591999`, and the answer is `false`. -/
theorem C9_VerifyTimeOut_wraps :
    TimeOutHeight = 2592000 ∧
    topSnapshot.Height < u64 ∧
    topChain.GetLatestSnapshotBlock.Height < u64 ∧
    (topChain.GetLatestSnapshotBlock.Height : Int) - topSnapshot.Height ≤ TimeOutHeight ∧
    (topSnapshot.Height + TimeOutHeight) % u64 = 2591999 ∧
    topVerifier.VerifyTimeOut topSnapshot = false := by
  refine ⟨by decide, by decide, by decide, by decide, by decide, by decide⟩

/-- C10: `VerifyHash` answers `false` for every block, in particular for
`genesisBlock`, whose hash equals the recomputed hash. -/
theorem C10_VerifyHash_always_false :
    genesisBlock.Hash = demoPrims.ComputeHash genesisBlock ∧
    genesisVerifier.VerifyHash genesisBlock = false ∧
    ∀ (v : AccountVerifier) (b : AccountBlock), v.VerifyHash b = false := by
  refine ⟨rfl, rfl, fun v b => ?_⟩
  unfold AccountVerifier.VerifyHash
  simp

/-! ## Properties of the data-validity checks and of the P2P gate -/

/-- The bit length exceeds `MaxBigIntLen` exactly from `2 ^ 256` on. -/
theorem BitLen_gt_iff (x : Int) : BitLen x > MaxBigIntLen ↔ 2 ^ 256 ≤ x.natAbs := by
  unfold BitLen MaxBigIntLen
  exact Nat.lt_size

/-- The bounds test of `verifySelfDataValidity` on one number. -/
theorem bounds_iff (x : Int) :
    ¬ (x < 0 ∨ BitLen x > MaxBigIntLen) ↔ (0 ≤ x ∧ x < 2 ^ 256) := by
  rw [BitLen_gt_iff]
  constructor
  · intro h
    push_neg at h
    refine ⟨h.1, ?_⟩
    have := h.2
    omega
  · rintro ⟨h1, h2⟩
    push_neg
    refine ⟨h1, ?_⟩
    omega

/-- `verifySelfDataValidity` never panics and never accepts: `VerifyHash`
answers `false` for every block. -/
theorem verifySelfDataValidity_rejects (v : AccountVerifier) (b : AccountBlock) :
    ∃ msg, (v.verifySelfDataValidity b).1 = some (false, some msg) := by
  have hh : ∀ b2, v.VerifyHash b2 = false := by
    intro b2
    unfold AccountVerifier.VerifyHash
    simp
  unfold AccountVerifier.verifySelfDataValidity
  simp only [hh, if_true]
  split_ifs <;> exact ⟨_, rfl⟩

/-- For every block with a timestamp `VerifyforP2P` answers `true`. -/
theorem VerifyforP2P_of_timestamp (v : AccountVerifier) (b : AccountBlock) (ts : Int)
    (h : b.Timestamp = some ts) : v.VerifyforP2P b = some true := by
  obtain ⟨msg, hmsg⟩ := verifySelfDataValidity_rejects v b
  unfold AccountVerifier.VerifyforP2P AccountVerifier.VerifyTimeNotYet
  simp only [h, hmsg]
  split_ifs <;> simp_all

/-- C11: evaluation of `VerifyforP2P` on two blocks whose timestamp lies two
hours after the latest snapshot block, so that the data-validity checks run.
For `negativeAmountBlock` (amount `-5`) the checks answer
`(false, "block.Amount out of bounds")`, for `wrongHashBlock` (stored hash 8,
recomputed hash 7) they answer `(false, "VerifyHash failed")`, and
`VerifyforP2P` answers `true` for both. -/
theorem C11_VerifyforP2P_accepts_invalid :
    negativeAmountBlock.Timestamp = some (2 * timeHour) ∧
    negativeAmountBlock.Amount = some (-5) ∧
    genesisVerifier.VerifyTimeNotYet negativeAmountBlock = some false ∧
    (genesisVerifier.verifySelfDataValidity negativeAmountBlock).1 =
      some (false, some "block.Amount out of bounds") ∧
    genesisVerifier.VerifyforP2P negativeAmountBlock = some true ∧
    wrongHashBlock.Timestamp = some (2 * timeHour) ∧
    sevenPrims.ComputeHash wrongHashBlock ≠ wrongHashBlock.Hash ∧
    sevenVerifier.VerifyTimeNotYet wrongHashBlock = some false ∧
    (sevenVerifier.verifySelfDataValidity wrongHashBlock).1 =
      some (false, some "VerifyHash failed") ∧
    sevenVerifier.VerifyforP2P wrongHashBlock = some true := by
  have hz : ¬ (MaxBigIntLen < BitLen 0) := by
    have h := (bounds_iff 0).2 ⟨le_refl 0, by positivity⟩
    exact fun hc => h (Or.inr hc)
  have ht : ¬ (2 * timeHour < demoSnapshot.Timestamp + timeHour) := by
    unfold timeHour demoSnapshot
    decide
  refine ⟨rfl, rfl, ?_, ?_, ?_, rfl, by decide, ?_, ?_, ?_⟩
  · simp [AccountVerifier.VerifyTimeNotYet, negativeAmountBlock, genesisVerifier,
      genesisChain, ht]
  · simp [AccountVerifier.verifySelfDataValidity, negativeAmountBlock, genesisBlock]
  · exact VerifyforP2P_of_timestamp _ _ _ rfl
  · simp [AccountVerifier.VerifyTimeNotYet, wrongHashBlock, sevenVerifier,
      genesisChain, ht]
  · simp [AccountVerifier.verifySelfDataValidity, wrongHashBlock, genesisBlock, hz,
      AccountVerifier.VerifyHash]
  · exact VerifyforP2P_of_timestamp _ _ _ rfl

/-- C12 (as stated, refuted): `genesisBlock` is a send of an account that does
not exist yet, so clause (a) of the claim holds; its signature and public key
are present and `VerifySig` accepts them, so clause (b) holds too; the
account-type lookup reports no error. `VerifySigature` answers `false`. -/
theorem C12_counterexample_signed_send :
    genesisBlock.IsSendBlock = true ∧
    genesisChain.AccountType genesisBlock.AccountAddress = (.NotExist, none) ∧
    genesisBlock.Signature.length ≠ 0 ∧ genesisBlock.PublicKey.length ≠ 0 ∧
    (demoPrims.VerifySig genesisBlock.PublicKey genesisBlock.Hash
      genesisBlock.Signature).1 = true ∧
    genesisVerifier.VerifySigature genesisBlock = false := by
  refine ⟨by decide, rfl, by decide, by decide, rfl, by decide⟩

/-- C12 (amended): `VerifySigature` answers `true` exactly when the account-type
lookup reports no error and either (a) the block is a send whose account does
not exist yet or is a contract account and its signature or its public key is
absent, or (b) the block is not such a send, signature and public key are both
present and `VerifySig` accepts the signature over the block hash; a store
error on the lookup yields `false`. -/
theorem C12_VerifySigature_rule (v : AccountVerifier) (block : AccountBlock) :
    (v.VerifySigature block = true ↔
      (v.chain.AccountType block.AccountAddress).2 = none ∧
      ((block.IsSendBlock = true ∧
          ((v.chain.AccountType block.AccountAddress).1 = .NotExist ∨
            (v.chain.AccountType block.AccountAddress).1 = .Contract) ∧
          (block.Signature.length = 0 ∨ block.PublicKey.length = 0)) ∨
        (¬ (block.IsSendBlock = true ∧
            ((v.chain.AccountType block.AccountAddress).1 = .NotExist ∨
              (v.chain.AccountType block.AccountAddress).1 = .Contract)) ∧
          block.Signature.length ≠ 0 ∧ block.PublicKey.length ≠ 0 ∧
          (v.prims.VerifySig block.PublicKey block.Hash block.Signature).1 = true))) ∧
    ((v.chain.AccountType block.AccountAddress).2 ≠ none →
      v.VerifySigature block = false) := by
  unfold AccountVerifier.VerifySigature
  rcases hty : v.chain.AccountType block.AccountAddress with ⟨code, e⟩
  cases e with
  | some msg => simp
  | none =>
    simp only [true_and, ne_eq, not_true_eq_false, false_implies, and_true]
    by_cases hs : block.IsSendBlock = true ∧ (code = .NotExist ∨ code = .Contract)
    · rw [if_pos hs]
      by_cases hp : block.Signature.length = 0 ∨ block.PublicKey.length = 0
      · rw [if_pos hp]
        simp only [true_iff]
        exact Or.inl ⟨hs.1, hs.2, hp⟩
      · rw [if_neg hp]
        simp only [Bool.false_eq_true, false_iff]
        rintro (⟨_, _, h3⟩ | ⟨h1, _⟩)
        · exact hp h3
        · exact h1 hs
    · rw [if_neg hs]
      by_cases hp : block.Signature.length = 0 ∨ block.PublicKey.length = 0
      · rw [if_pos hp]
        simp only [Bool.false_eq_true, false_iff]
        rintro (⟨h1, h2, _⟩ | ⟨_, h2, h3, _⟩)
        · exact hs ⟨h1, h2⟩
        · rcases hp with hp | hp
          · exact h2 hp
          · exact h3 hp
      · rw [if_neg hp]
        push_neg at hp
        cases hv : (v.prims.VerifySig block.PublicKey block.Hash block.Signature).1
        · simp only [if_true, Bool.false_eq_true, false_iff]
          rintro (⟨h1, h2, _⟩ | ⟨_, _, _, h4⟩)
          · exact hs ⟨h1, h2⟩
          · exact absurd h4 (by decide)
        · simp only [Bool.true_eq_false, if_false, true_iff]
          refine Or.inr ⟨hs, hp.1, hp.2, ?_⟩
          first | rfl | trivial

/-- C12 witness: on `typeErrorChain` the account-type lookup reports an error
and `VerifySigature` answers `false`. -/
theorem C12_VerifySigature_rule_witness :
    (typeErrorChain.AccountType genesisBlock.AccountAddress).2 ≠ none ∧
    typeErrorVerifier.VerifySigature genesisBlock = false :=
  ⟨by decide, (C12_VerifySigature_rule typeErrorVerifier genesisBlock).2 (by decide)⟩

/-- The block left by `verifySelfDataValidity`: absent amount and fee are
replaced by zero, nothing else changes. -/
theorem verifySelfDataValidity_block (v : AccountVerifier) (b : AccountBlock) :
    (v.verifySelfDataValidity b).2 =
      { b with Amount := some (b.Amount.getD 0), Fee := some (b.Fee.getD 0) } := by
  have hh : ∀ b2, v.VerifyHash b2 = false := by
    intro b2
    unfold AccountVerifier.VerifyHash
    simp
  unfold AccountVerifier.verifySelfDataValidity
  simp only [hh, if_true]
  obtain ⟨bt, h, ht, ph, aa, pk, ta, fbh, amt, fee, sh, ts, n, sg, tk, ns⟩ := b
  cases amt <;> cases fee <;> simp only [reduceIte, reduceCtorEq] <;> split_ifs <;> rfl

/-- The answer of `verifySelfDataValidity` as a cascade over the normalised
amount and fee. -/
theorem verifySelfDataValidity_result (v : AccountVerifier) (b : AccountBlock) :
    (v.verifySelfDataValidity b).1 =
      if b.Amount.getD 0 < 0 ∨ BitLen (b.Amount.getD 0) > MaxBigIntLen then
        some (false, some "block.Amount out of bounds")
      else if b.Fee.getD 0 < 0 ∨ BitLen (b.Fee.getD 0) > MaxBigIntLen then
        some (false, some "block.Fee out of bounds")
      else if b.Timestamp = none then
        some (false, some "block integrity miss")
      else
        some (false, some "VerifyHash failed") := by
  have hh : ∀ b2, v.VerifyHash b2 = false := by
    intro b2
    unfold AccountVerifier.VerifyHash
    simp
  unfold AccountVerifier.verifySelfDataValidity
  simp only [hh, if_true]
  obtain ⟨bt, h, ht, ph, aa, pk, ta, fbh, amt, fee, sh, ts, n, sg, tk, ns⟩ := b
  cases amt <;> cases fee <;>
    simp only [reduceIte, reduceCtorEq, Option.getD_some, Option.getD_none] <;>
    split_ifs <;> rfl

/-- C13: `verifySelfDataValidity` replaces an absent amount or fee by zero and
changes nothing else; writing `a` and `f` for the amount and fee after that,
it answers `(false, "block.Amount out of bounds")` exactly when `a` is negative
or longer than 256 bits, `(false, "block.Fee out of bounds")` exactly when `a`
passes and `f` is negative or longer than 256 bits, so that it passes the step
exactly when `0 ≤ a < 2 ^ 256` and `0 ≤ f < 2 ^ 256`; a block that passes the
bounds and has no timestamp is rejected with `"block integrity miss"`. -/
theorem C13_data_validity_bounds (v : AccountVerifier) (block : AccountBlock) :
    (v.verifySelfDataValidity block).2 =
      { block with
        Amount := some (block.Amount.getD 0), Fee := some (block.Fee.getD 0) } ∧
    ((v.verifySelfDataValidity block).1 = some (false, some "block.Amount out of bounds") ↔
      (block.Amount.getD 0 < 0 ∨ BitLen (block.Amount.getD 0) > MaxBigIntLen)) ∧
    ((v.verifySelfDataValidity block).1 = some (false, some "block.Fee out of bounds") ↔
      (¬ (block.Amount.getD 0 < 0 ∨ BitLen (block.Amount.getD 0) > MaxBigIntLen) ∧
        (block.Fee.getD 0 < 0 ∨ BitLen (block.Fee.getD 0) > MaxBigIntLen))) ∧
    (((v.verifySelfDataValidity block).1 ≠ some (false, some "block.Amount out of bounds") ∧
        (v.verifySelfDataValidity block).1 ≠ some (false, some "block.Fee out of bounds")) ↔
      ((0 ≤ block.Amount.getD 0 ∧ block.Amount.getD 0 < 2 ^ 256) ∧
        (0 ≤ block.Fee.getD 0 ∧ block.Fee.getD 0 < 2 ^ 256))) ∧
    (((0 ≤ block.Amount.getD 0 ∧ block.Amount.getD 0 < 2 ^ 256) ∧
        (0 ≤ block.Fee.getD 0 ∧ block.Fee.getD 0 < 2 ^ 256)) →
      block.Timestamp = none →
      (v.verifySelfDataValidity block).1 = some (false, some "block integrity miss")) := by
  refine ⟨verifySelfDataValidity_block v block, ?_⟩
  rw [verifySelfDataValidity_result, ← bounds_iff, ← bounds_iff]
  by_cases ha : block.Amount.getD 0 < 0 ∨ BitLen (block.Amount.getD 0) > MaxBigIntLen
  · rw [if_pos ha]
    exact ⟨⟨fun _ => ha, fun _ => rfl⟩,
      ⟨fun h => absurd h (by decide), fun h => absurd ha h.1⟩,
      ⟨fun h => absurd rfl h.1, fun h => absurd ha h.1⟩,
      fun h => absurd ha h.1⟩
  · rw [if_neg ha]
    by_cases hf : block.Fee.getD 0 < 0 ∨ BitLen (block.Fee.getD 0) > MaxBigIntLen
    · rw [if_pos hf]
      exact ⟨⟨fun h => absurd h (by decide), fun h => absurd h ha⟩,
        ⟨fun _ => ⟨ha, hf⟩, fun _ => rfl⟩,
        ⟨fun h => absurd rfl h.2, fun h => absurd hf h.2⟩,
        fun h => absurd hf h.2⟩
    · rw [if_neg hf]
      refine ⟨⟨fun h => absurd h ?_, fun h => absurd h ha⟩,
        ⟨fun h => absurd h ?_, fun h => absurd h.2 hf⟩,
        ⟨fun _ => ⟨ha, hf⟩, fun _ => ⟨?_, ?_⟩⟩, ?_⟩
      · split_ifs <;> decide
      · split_ifs <;> decide
      · split_ifs <;> decide
      · split_ifs <;> decide
      · intro _ ht
        rw [if_pos ht]

/-- C13 witness: `bareBlock` has no amount, no fee and no timestamp; zero
passes the bounds and the block is rejected for the missing timestamp. -/
theorem C13_data_validity_bounds_witness :
    ((0 ≤ bareBlock.Amount.getD 0 ∧ bareBlock.Amount.getD 0 < 2 ^ 256) ∧
      (0 ≤ bareBlock.Fee.getD 0 ∧ bareBlock.Fee.getD 0 < 2 ^ 256)) ∧
    bareBlock.Timestamp = none ∧
    (genesisVerifier.verifySelfDataValidity bareBlock).1 =
      some (false, some "block integrity miss") :=
  ⟨⟨⟨le_refl 0, by positivity⟩, ⟨le_refl 0, by positivity⟩⟩, rfl,
    (C13_data_validity_bounds genesisVerifier bareBlock).2.2.2.2
      ⟨⟨le_refl 0, by positivity⟩, ⟨le_refl 0, by positivity⟩⟩ rfl⟩

/-- C14: `verifyProducerLegality` answers `FAIL` exactly when the account is a
general account whose address is not derived from the public key, or the
account is a contract account, the block is a receive and the consensus
producer check rejects it; in every other case it answers `SUCCESS`, in
particular for every send of a contract or not yet existing account. -/
theorem C14_verifyProducerLegality (v : AccountVerifier) (block : AccountBlock)
    (task : List AccountPendingTask) :
    ((v.verifyProducerLegality block task).1 = .FAIL ↔
      (((v.chain.AccountType block.AccountAddress).1 = .General ∧
          v.prims.PubkeyToAddress block.PublicKey ≠ block.AccountAddress) ∨
        ((v.chain.AccountType block.AccountAddress).1 = .Contract ∧
          block.IsReceiveBlock = true ∧
          v.consensusReader.VerifyAccountProducer block ≠ none))) ∧
    ((v.verifyProducerLegality block task).1 = .SUCCESS ↔
      ¬ (((v.chain.AccountType block.AccountAddress).1 = .General ∧
          v.prims.PubkeyToAddress block.PublicKey ≠ block.AccountAddress) ∨
        ((v.chain.AccountType block.AccountAddress).1 = .Contract ∧
          block.IsReceiveBlock = true ∧
          v.consensusReader.VerifyAccountProducer block ≠ none))) ∧
    (block.IsSendBlock = true →
      ((v.chain.AccountType block.AccountAddress).1 = .Contract ∨
        (v.chain.AccountType block.AccountAddress).1 = .NotExist) →
      (v.verifyProducerLegality block task).1 = .SUCCESS) := by
  have hsr : block.IsSendBlock = true → block.IsReceiveBlock = false := by
    unfold AccountBlock.IsSendBlock AccountBlock.IsReceiveBlock
    cases block.BlockType <;> decide
  unfold AccountVerifier.verifyProducerLegality
  cases hc : (v.chain.AccountType block.AccountAddress).1 <;>
    cases hr : block.IsReceiveBlock <;>
    cases hp : v.consensusReader.VerifyAccountProducer block <;>
    by_cases hk : v.prims.PubkeyToAddress block.PublicKey = block.AccountAddress <;>
    simp [hk, hsr]
  all_goals
    cases hs : block.IsSendBlock
    · rfl
    · exact absurd (hsr hs) (by rw [hr]; decide)

/-- C14 witness: a send on `contractChain`, whose consensus reader rejects
every producer, passes the producer check. -/
theorem C14_verifyProducerLegality_witness :
    genesisBlock.IsSendBlock = true ∧
    ((contractChain.AccountType genesisBlock.AccountAddress).1 = .Contract ∨
      (contractChain.AccountType genesisBlock.AccountAddress).1 = .NotExist) ∧
    (rejectingVerifier.verifyProducerLegality genesisBlock []).1 = .SUCCESS :=
  ⟨by decide, Or.inl rfl,
    (C14_verifyProducerLegality rejectingVerifier genesisBlock []).2.2 (by decide)
      (Or.inl rfl)⟩

/-! ## Properties of the on-road pool -/

/-- C16: evaluation of read, committed write, read for address 4. The store
holds one on-road send to address 4 and the first read reports 1; `WriteOnroad`
of a second send issues one `writeOnroadMeta` without error and touches no
cache; once committed the store holds two on-road sends to address 4; the
second read is served from the simple cache and still reports 1. -/
theorem C16_stale_count_after_write :
    storeOne.onroadCount 4 = 1 ∧
    (freshPool.GetCommonAccountInfo 4).1 = (some aggregateTen, none) ∧
    (freshPool.GetCommonAccountInfo 4).2.simpleCache = [(4, aggregateTen)] ∧
    (freshPool.GetCommonAccountInfo 4).2.WriteOnroad [] [⟨sendFive, []⟩] =
      (none, [.writeOnroadMeta sendFive]) ∧
    storeTwo.onroadCount 4 = 2 ∧
    (storeTwo.GetCommonAccInfo 4).map (fun i => i.TotalNumber) = some 2 ∧
    (poolAfterWrite.GetCommonAccountInfo 4).1 = (some aggregateTen, none) ∧
    aggregateTen.TotalNumber = 1 := by
  refine ⟨by decide, by decide, by decide, by decide, by decide, by decide, by decide, rfl⟩

/-- C17: evaluation of `updateSimpleCache(true, sendTen)` on the empty aggregate
of address 4: the call returns no error, `TotalNumber` becomes 1 and the map
of balances stays empty, so token 1 has no entry instead of `{10, 1}`. -/
theorem C17_send_without_entry_creates_none :
    mapLoad emptyAggregatePool.simpleCache sendTen.ToAddress =
      some { TotalNumber := 0, TokenBalanceInfoMap := [] } ∧
    sendTen.IsSendBlock = true ∧ sendTen.TokenId = 1 ∧ sendTen.Amount = some 10 ∧
    (emptyAggregatePool.updateSimpleCache true sendTen).map
        (fun r => (r.1, mapLoad r.2.simpleCache sendTen.ToAddress)) =
      some (none, some { TotalNumber := 1, TokenBalanceInfoMap := [] }) ∧
    (emptyAggregatePool.updateSimpleCache true sendTen).map
        (fun r => (mapLoad r.2.simpleCache sendTen.ToAddress).bind
          (fun i => mapLoad i.TokenBalanceInfoMap sendTen.TokenId)) =
      some none := by
  refine ⟨by decide, by decide, rfl, rfl, by decide, by decide⟩

/-- C18: evaluation of `updateSimpleCache(false, receiveTen)` on a cached
aggregate of address 4 without entry for token 1: the call does not return,
it panics on the nil `tokenBalanceInfo`. -/
theorem C18_receive_without_entry_panics :
    mapLoad noEntryPool.simpleCache receiveTen.ToAddress =
      some { TotalNumber := 1, TokenBalanceInfoMap := [] } ∧
    mapLoad ({ TotalNumber := 1, TokenBalanceInfoMap := [] } :
      CommonAccountInfo).TokenBalanceInfoMap receiveTen.TokenId = none ∧
    (noEntryPool.updateSimpleCache false receiveTen).isNone = true := by
  refine ⟨by decide, by decide, by decide⟩

/-- C19: evaluation of a successful `updateSimpleCache(true, sendTen)` on the
empty aggregate, which satisfies the invariant: afterwards `TotalNumber` is 1
and the sum of the entries' numbers is 0, so the invariant is lost. -/
theorem C19_invariant_lost_by_send :
    specAggregateInvariant { TotalNumber := 0, TokenBalanceInfoMap := [] } ∧
    mapLoad emptyAggregatePool.simpleCache sendTen.ToAddress =
      some { TotalNumber := 0, TokenBalanceInfoMap := [] } ∧
    (emptyAggregatePool.updateSimpleCache true sendTen).map
        (fun r => (r.1, mapLoad r.2.simpleCache sendTen.ToAddress)) =
      some (none, some { TotalNumber := 1, TokenBalanceInfoMap := [] }) ∧
    ¬ specAggregateInvariant { TotalNumber := 1, TokenBalanceInfoMap := [] } := by
  unfold specAggregateInvariant
  refine ⟨by decide, by decide, by decide, by decide⟩

/-- `updateFullCache` does not touch the simple cache. -/
theorem updateFullCache_simpleCache (p p1 : OnroadBlocksPool) (m : CacheMethods)
    (writeType : Bool) (block : AccountBlock) (e : Option String)
    (h : p.updateFullCache m writeType block = some (e, p1)) :
    p1.simpleCache = p.simpleCache := by
  unfold OnroadBlocksPool.updateFullCache at h
  split at h
  · exact absurd h (by simp)
  · split_ifs at h <;>
      · simp only [Option.some.injEq, Prod.mk.injEq] at h
        rw [← h.2]

/-- `updateSimpleCache(false, block)` returns an error exactly on a conflict,
and then returns the pool as it received it. -/
theorem updateSimpleCache_error_iff (p p1 : OnroadBlocksPool) (block : AccountBlock)
    (e : String) :
    p.updateSimpleCache false block = some (some e, p1) ↔
      ((∃ info tbi amt, mapLoad p.simpleCache block.ToAddress = some info ∧
          mapLoad info.TokenBalanceInfoMap block.TokenId = some tbi ∧
          block.Amount = some amt ∧ tbi.TotalAmount < amt) ∧
        e = "conflict with the memory info, so can't update when writeType is false" ∧
        p1 = p) := by
  constructor
  · intro h
    unfold OnroadBlocksPool.updateSimpleCache at h
    split at h
    · simp at h
    · rename_i info h1
      simp only [Bool.false_eq_true, if_false] at h
      split at h
      · rename_i tbi h2
        split at h
        · simp at h
        · rename_i amt h3
          split_ifs at h with c1 c2
          · simp only [Option.some.injEq, Prod.mk.injEq] at h
            exact ⟨⟨info, tbi, amt, h1, h2, h3, c1⟩, h.1.symm, h.2.symm⟩
          · simp at h
          · simp at h
      · simp at h
  · rintro ⟨⟨info, tbi, amt, h1, h2, h3, c1⟩, he, hp⟩
    subst he hp
    unfold OnroadBlocksPool.updateSimpleCache
    simp [h1, h2, h3, c1]

/-- C20 (as stated, refuted): `tenPool` caches `{10, 1}` for token 1 of address
4 and the receive `receiveTwenty` has amount 20. `updateSimpleCache` returns
the conflict error and leaves the simple cache as it was, and after
`updateCache` the entry of address 4 is still in the simple cache: it has not
been removed. -/
theorem C20_counterexample_entry_not_invalidated :
    mapLoad tenPool.simpleCache receiveTwenty.ToAddress = some aggregateTen ∧
    mapLoad aggregateTen.TokenBalanceInfoMap receiveTwenty.TokenId =
      some { TotalAmount := 10, Number := 1 } ∧
    receiveTwenty.Amount = some 20 ∧
    (tenPool.updateSimpleCache false receiveTwenty).map (fun r => (r.1, r.2.simpleCache)) =
      some (some "conflict with the memory info, so can't update when writeType is false",
        tenPool.simpleCache) ∧
    (tenPool.updateCache demoMethods false receiveTwenty).map
        (fun q => mapLoad q.simpleCache receiveTwenty.ToAddress) =
      some (some aggregateTen) ∧
    (tenPool.updateCache demoMethods false receiveTwenty).map
        (fun q => mapLoad q.simpleCache receiveTwenty.ToAddress) ≠
      some none := by
  refine ⟨by decide, by decide, rfl, by decide, by decide, by decide⟩

/-- C20 (amended): `updateSimpleCache(false, block)` returns an error exactly
when the address has a cached aggregate, the token has a balance entry and
its `TotalAmount` is smaller than the block amount; the error is the conflict
error and the pool, hence every field of the aggregate, is returned
unmodified; `updateCache` only logs the error: when it returns, the simple
cache is the one it received, with the entry of the address still in it. -/
theorem C20_conflict_handling (p : OnroadBlocksPool) (m : CacheMethods)
    (block : AccountBlock) :
    ((∃ e p1, p.updateSimpleCache false block = some (some e, p1)) ↔
      ∃ info tbi amt, mapLoad p.simpleCache block.ToAddress = some info ∧
        mapLoad info.TokenBalanceInfoMap block.TokenId = some tbi ∧
        block.Amount = some amt ∧ tbi.TotalAmount < amt) ∧
    (∀ e p1, p.updateSimpleCache false block = some (some e, p1) →
      e = "conflict with the memory info, so can't update when writeType is false" ∧
        p1 = p) ∧
    (∀ e p1 q, p.updateSimpleCache false block = some (some e, p1) →
      p.updateCache m false block = some q →
      q.simpleCache = p.simpleCache ∧
        mapLoad q.simpleCache block.ToAddress = mapLoad p.simpleCache block.ToAddress) := by
  refine ⟨⟨?_, ?_⟩, ?_, ?_⟩
  · rintro ⟨e, p1, h⟩
    exact ((updateSimpleCache_error_iff p p1 block e).1 h).1
  · intro h
    exact ⟨_, p, (updateSimpleCache_error_iff p p block _).2 ⟨h, rfl, rfl⟩⟩
  · intro e p1 h
    exact ((updateSimpleCache_error_iff p p1 block e).1 h).2
  · intro e p1 q h hq
    have hc := ((updateSimpleCache_error_iff p p1 block e).1 h).1
    unfold OnroadBlocksPool.updateCache at hq
    cases hf : p.updateFullCache m false block with
    | none => simp [hf] at hq
    | some r =>
      obtain ⟨ef, pf⟩ := r
      have hs := updateFullCache_simpleCache p pf m false block ef hf
      have hc2 : ∃ info tbi amt, mapLoad pf.simpleCache block.ToAddress = some info ∧
          mapLoad info.TokenBalanceInfoMap block.TokenId = some tbi ∧
          block.Amount = some amt ∧ tbi.TotalAmount < amt := by
        rw [hs]
        exact hc
      have hu := (updateSimpleCache_error_iff pf pf block _).2 ⟨hc2, rfl, rfl⟩
      simp only [hf, hu, Option.some.injEq] at hq
      rw [← hq, hs]
      exact ⟨rfl, rfl⟩

/-- C20 witness: the conflict of `receiveTwenty` on `tenPool`. -/
theorem C20_conflict_handling_witness :
    tenPool.updateSimpleCache false receiveTwenty =
      some (some "conflict with the memory info, so can't update when writeType is false",
        tenPool) ∧
    tenPool.updateCache demoMethods false receiveTwenty = some tenPool ∧
    mapLoad tenPool.simpleCache receiveTwenty.ToAddress = some aggregateTen ∧
    mapLoad tenPool.simpleCache receiveTwenty.ToAddress =
      mapLoad tenPool.simpleCache receiveTwenty.ToAddress :=
  ⟨rfl, rfl, by decide,
    ((C20_conflict_handling tenPool demoMethods receiveTwenty).2.2 _ tenPool tenPool
      rfl rfl).2⟩

/-! ## Re-running the verifier on a store that has gained blocks -/

/-- The store `heightThreeChain` holds the snapshot block of `genesisChain` and
one more account block. On `genesisBlock` the self sub-result is `SUCCESS`
against the first store and `FAIL` against the second; the answers of
`VerifyReferred` are `PENDING` and `FAIL`. -/
theorem VerifyReferred_store_growth_example :
    (genesisVerifier.VerifyReferred genesisBlock).2.referredSelfResult = .SUCCESS ∧
    (genesisVerifier.VerifyReferred genesisBlock).1 = .PENDING ∧
    (heightThreeVerifier.VerifyReferred genesisBlock).2.referredSelfResult = .FAIL ∧
    (heightThreeVerifier.VerifyReferred genesisBlock).1 = .FAIL := by
  refine ⟨by decide, by decide, by decide, by decide⟩

/-! ## Properties of `WriteOnroad` -/

/-- Issuing an appended plan when the first part succeeds. -/
theorem specIssue_append_of_ok (db : UAccess) (l1 l2 : List StoreCall)
    (h : (specIssue db l1).1 = none) :
    specIssue db (l1 ++ l2) =
      ((specIssue db l2).1, (specIssue db l1).2 ++ (specIssue db l2).2) := by
  induction l1 with
  | nil => simp [specIssue]
  | cons c rest ih =>
    rw [List.cons_append]
    simp only [specIssue] at h ⊢
    cases hc : db.callError c with
    | some e => simp [hc] at h
    | none =>
      simp only [hc] at h ⊢
      rw [ih h]
      simp

/-- Issuing an appended plan when the first part fails. -/
theorem specIssue_append_of_err (db : UAccess) (l1 l2 : List StoreCall) (e : String)
    (h : (specIssue db l1).1 = some e) :
    specIssue db (l1 ++ l2) = specIssue db l1 := by
  induction l1 with
  | nil => simp [specIssue] at h
  | cons c rest ih =>
    rw [List.cons_append]
    simp only [specIssue] at h ⊢
    cases hc : db.callError c with
    | some e2 => simp
    | none =>
      simp only [hc] at h ⊢
      rw [ih h]

/-- The gid loop issues the `WriteContractAddrToGid` calls of the list. -/
theorem writeGidList_eq (db : UAccess) (batch : List StoreCall) (l : List (Gid × Address)) :
    writeGidList db batch l =
      ((specIssue db (l.map (fun e => StoreCall.WriteContractAddrToGid e.1 e.2))).1,
        batch ++ (specIssue db (l.map (fun e => StoreCall.WriteContractAddrToGid e.1 e.2))).2) := by
  induction l generalizing batch with
  | nil => simp [writeGidList, specIssue]
  | cons x rest ih =>
    obtain ⟨gid, addr⟩ := x
    simp only [writeGidList, List.map_cons, specIssue, UAccess.callError]
    cases hc : db.WriteContractAddrToGid gid addr with
    | some e => simp
    | none =>
      simp only [ih]
      simp

/-- `WriteOnroad` issues the plan of the specification. -/
theorem WriteOnroad_eq (p : OnroadBlocksPool) (batch : List StoreCall)
    (blockList : List VmAccountBlock) :
    p.WriteOnroad batch blockList =
      ((specIssue p.dbAccess (specWritePlan blockList)).1,
        batch ++ (specIssue p.dbAccess (specWritePlan blockList)).2) := by
  induction blockList generalizing batch with
  | nil => simp [OnroadBlocksPool.WriteOnroad, specWritePlan, specIssue]
  | cons v rest ih =>
    simp only [OnroadBlocksPool.WriteOnroad, specWritePlan, specCallsOfBlock]
    by_cases hs : v.AccountBlock.IsSendBlock = true
    · simp only [hs, if_true, List.cons_append, specIssue, UAccess.callError]
      cases hw : p.dbAccess.writeOnroadMeta v.AccountBlock with
      | some e => simp
      | none =>
        simp only []
        by_cases hcr : v.AccountBlock.BlockType = .SendCreate
        · simp only [hcr, if_true, writeGidList_eq]
          cases hg : (specIssue p.dbAccess
              (v.ContractGidList.map (fun e => StoreCall.WriteContractAddrToGid e.1 e.2))).1 with
          | some e =>
            rw [specIssue_append_of_err _ _ _ e hg]
            simp [hg]
          | none =>
            rw [specIssue_append_of_ok _ _ _ hg]
            simp only [ih]
            simp
        · simp only [hcr, if_false, List.nil_append, ih]
          simp
    · simp only [hs, Bool.false_eq_true, if_false, List.cons_append, List.nil_append,
        specIssue, UAccess.callError]
      cases hd : p.dbAccess.deleteOnroadMeta v.AccountBlock with
      | some e => simp
      | none =>
        simp only [ih]
        simp

/-- The calls issued are a prefix of the plan. -/
theorem specIssue_prefix (db : UAccess) (plan : List StoreCall) :
    (specIssue db plan).2 <+: plan := by
  induction plan with
  | nil => simp [specIssue]
  | cons c rest ih =>
    simp only [specIssue]
    cases hc : db.callError c with
    | some e =>
      exact ⟨rest, rfl⟩
    | none =>
      obtain ⟨t, ht⟩ := ih
      exact ⟨t, by simp [ht]⟩

/-- A run ends without error exactly when no call of the plan fails, and then
every call of the plan has been issued. -/
theorem specIssue_none_iff (db : UAccess) (plan : List StoreCall) :
    ((specIssue db plan).1 = none ↔ ∀ c ∈ plan, db.callError c = none) ∧
    ((specIssue db plan).1 = none → (specIssue db plan).2 = plan) := by
  induction plan with
  | nil => simp [specIssue]
  | cons c rest ih =>
    simp only [specIssue]
    cases hc : db.callError c with
    | some e => simp [hc]
    | none =>
      simp only [List.mem_cons, forall_eq_or_imp, hc, true_and]
      refine ⟨ih.1, fun h => ?_⟩
      rw [ih.2 h]

/-- A run that ends with an error has issued the failing call last, after
calls that all succeeded. -/
theorem specIssue_some (db : UAccess) (plan : List StoreCall) (e : String)
    (h : (specIssue db plan).1 = some e) :
    ∃ pre c, (specIssue db plan).2 = pre ++ [c] ∧ db.callError c = some e ∧
      ∀ c2 ∈ pre, db.callError c2 = none := by
  induction plan with
  | nil => simp [specIssue] at h
  | cons c rest ih =>
    simp only [specIssue] at h ⊢
    cases hc : db.callError c with
    | some e2 =>
      simp only [hc, Option.some.injEq] at h
      exact ⟨[], c, by simp, by rw [hc, h], by simp⟩
    | none =>
      simp only [hc] at h
      obtain ⟨pre, c3, h1, h2, h3⟩ := ih h
      refine ⟨c :: pre, c3, by simp [h1], h2, ?_⟩
      intro c2 hc2
      rcases List.mem_cons.1 hc2 with rfl | hm
      · exact hc
      · exact h3 c2 hm

/-- C21: `WriteOnroad` issues on the batch the store calls of the block list in
block-list order (for a send one `writeOnroadMeta`, then for a `SendCreate` one
`WriteContractAddrToGid` per pair in list order; for any other block one
`deleteOnroadMeta`): the calls issued are a prefix of that plan; it returns
`nil` exactly when no call of the plan fails, and then the whole plan has been
issued; when it returns an error, the last call issued is the one that failed
with that error and every earlier call succeeded. -/
theorem C21_WriteOnroad_order (p : OnroadBlocksPool) (batch : List StoreCall)
    (blockList : List VmAccountBlock) :
    (∃ issued, (p.WriteOnroad batch blockList).2 = batch ++ issued ∧
      issued <+: specWritePlan blockList ∧
      ((p.WriteOnroad batch blockList).1 = none → issued = specWritePlan blockList) ∧
      (∀ e, (p.WriteOnroad batch blockList).1 = some e →
        ∃ pre c, issued = pre ++ [c] ∧ p.dbAccess.callError c = some e ∧
          ∀ c2 ∈ pre, p.dbAccess.callError c2 = none)) ∧
    ((p.WriteOnroad batch blockList).1 = none ↔
      ∀ c ∈ specWritePlan blockList, p.dbAccess.callError c = none) := by
  rw [WriteOnroad_eq]
  refine ⟨⟨_, rfl, specIssue_prefix _ _, (specIssue_none_iff _ _).2, ?_⟩,
    (specIssue_none_iff _ _).1⟩
  intro e he
  exact specIssue_some _ _ e he

/-- C21 witness: on `failingPool` the list of a `SendCreate` block, a receive
and a send: the create block's three calls are issued, the `deleteOnroadMeta`
of the receive fails, and nothing is issued for the last block. -/
theorem C21_WriteOnroad_order_witness :
    failingPool.WriteOnroad [] [createBlock, ⟨receiveTen, []⟩, ⟨sendFive, []⟩] =
      (some "disk full",
        [.writeOnroadMeta createBlock.AccountBlock, .WriteContractAddrToGid 1 6,
          .WriteContractAddrToGid 2 6, .deleteOnroadMeta receiveTen]) ∧
    (failingPool.WriteOnroad [] [createBlock, ⟨receiveTen, []⟩, ⟨sendFive, []⟩]).1 =
      some "disk full" ∧
    ∃ pre c, [StoreCall.writeOnroadMeta createBlock.AccountBlock,
        .WriteContractAddrToGid 1 6, .WriteContractAddrToGid 2 6,
        .deleteOnroadMeta receiveTen] = pre ++ [c] ∧
      failingPool.dbAccess.callError c = some "disk full" ∧
      ∀ c2 ∈ pre, failingPool.dbAccess.callError c2 = none := by
  refine ⟨by decide, by decide, ?_⟩
  obtain ⟨issued, h1, _, _, h4⟩ :=
    (C21_WriteOnroad_order failingPool []
      [createBlock, ⟨receiveTen, []⟩, ⟨sendFive, []⟩]).1
  have h5 : issued = [StoreCall.writeOnroadMeta createBlock.AccountBlock,
      .WriteContractAddrToGid 1 6, .WriteContractAddrToGid 2 6,
      .deleteOnroadMeta receiveTen] := by
    have h6 : (failingPool.WriteOnroad [] [createBlock, ⟨receiveTen, []⟩, ⟨sendFive, []⟩]).2
        = [StoreCall.writeOnroadMeta createBlock.AccountBlock,
          .WriteContractAddrToGid 1 6, .WriteContractAddrToGid 2 6,
          .deleteOnroadMeta receiveTen] := by decide
    rw [h6] at h1
    simpa using h1.symm
  rw [← h5]
  exact h4 "disk full" (by decide)

/-- C30: for a block whose referenced snapshot block is not in the store,
`verifySnapshot` leaves the snapshot sub-result `PENDING` and the snapshot task
set to the block's snapshot hash, and `VerifyReferred` does not answer
`SUCCESS`. -/
theorem C30_verifySnapshot_missing (v : AccountVerifier) (b : AccountBlock)
    (stat : AccountBlockVerifyStat)
    (hmiss : (v.chain.GetSnapshotBlockByHash b.SnapshotHash).1 = none) :
    (v.verifySnapshot b stat).referredSnapshotResult = .PENDING ∧
    (v.verifySnapshot b stat).snapshotTask = some ⟨b.SnapshotHash⟩ ∧
    (v.VerifyReferred b).2.referredSnapshotResult = .PENDING ∧
    (v.VerifyReferred b).2.GetPendingTasks.2 = some ⟨b.SnapshotHash⟩ ∧
    (v.VerifyReferred b).1 ≠ .SUCCESS := by
  have _ := hmiss
  exact ⟨(verifySnapshot_always_PENDING v b stat).1, (verifySnapshot_always_PENDING v b stat).2,
    rfl, rfl, VerifyReferred_ne_SUCCESS v b⟩

/-- C30 witness: `missingSnapshotBlock` refers to the snapshot hash 101, which
`genesisChain` does not hold. -/
theorem C30_verifySnapshot_missing_witness :
    (genesisChain.GetSnapshotBlockByHash missingSnapshotBlock.SnapshotHash).1 = none ∧
    (genesisVerifier.verifySnapshot missingSnapshotBlock
      (newVerifyStat missingSnapshotBlock)).referredSnapshotResult = .PENDING ∧
    (genesisVerifier.verifySnapshot missingSnapshotBlock
      (newVerifyStat missingSnapshotBlock)).snapshotTask = some ⟨101⟩ ∧
    (genesisVerifier.VerifyReferred missingSnapshotBlock).1 ≠ .SUCCESS :=
  have h := C30_verifySnapshot_missing genesisVerifier missingSnapshotBlock
    (newVerifyStat missingSnapshotBlock) (by decide)
  ⟨by decide, h.1, h.2.1, h.2.2.2.2⟩

/-! ## Properties of `DeleteOnroad` -/

/-- C22: evaluation of `DeleteOnroad` and of its inner loop. On the sub-ledger
`{3: [sendTen]}` the call panics. Entered on an initialised sign ledger, the
inner loop starts at `i = len(blockList)`: for a list of one block it reads
index 1, for a list of two blocks index 2, both outside the list, and panics
before any block is processed. -/
theorem C22_DeleteOnroad_starts_out_of_range :
    pairPool.DeleteOnroad demoGid [] [(3, [sendTen])] = none ∧
    ([⟨sendTen, false⟩] : List signBlock)[1]? = none ∧
    pairPool.deleteOnroadLoop demoGid 3 ([⟨sendTen, false⟩] : List signBlock).length
      [(3, [⟨sendTen, false⟩])] [] = none ∧
    ([⟨sendTen, false⟩, ⟨sendFive, false⟩] : List signBlock)[2]? = none ∧
    pairPool.deleteOnroadLoop demoGid 3
      ([⟨sendTen, false⟩, ⟨sendFive, false⟩] : List signBlock).length
      [(3, [⟨sendTen, false⟩, ⟨sendFive, false⟩])] [] = none := by
  refine ⟨by decide, by decide, by decide, by decide, by decide⟩

/-- C23: evaluation of `copyToSignLedger`: on the sub-ledger `{3: [sendTen]}` it
panics on the assignment to the nil map; only for sub-ledgers without any
block does it return, and then the nil map. -/
theorem C23_copyToSignLedger_panics :
    copyToSignLedger [(3, [sendTen])] = none ∧
    copyToSignLedger [(3, [sendTen]), (6, [receiveCreate])] = none ∧
    copyToSignLedger [] = some [] ∧
    copyToSignLedger [(3, [])] = some [] := by
  refine ⟨by decide, by decide, by decide, by decide⟩

/-- C24: evaluation of the reorg scenario. `createSend` is a `SendCreate` to
address 6 and `receiveCreate` its receive; in `pairStore`, where both are
committed, the group index holds `(1, 6)` and `(2, 6)`. `DeleteOnroad` on the
sub-ledger `{3: [createSend], 6: [receiveCreate]}` panics, in either map
order, without issuing a call, so after it the group index still holds the
entries of `createSend`. -/
theorem C24_reorg_pair_not_reverted :
    createSend.BlockType = .SendCreate ∧
    receiveCreate.IsReceiveBlock = true ∧
    receiveCreate.FromBlockHash = createSend.Hash ∧
    pairStore.metas = [] ∧
    pairStore.gids = [(1, 6), (2, 6)] ∧
    pairPool.DeleteOnroad demoGid [] [(3, [createSend]), (6, [receiveCreate])] = none ∧
    pairPool.DeleteOnroad demoGid [] [(6, [receiveCreate]), (3, [createSend])] = none ∧
    (pairStore.commit []).gids = [(1, 6), (2, 6)] := by
  refine ⟨by decide, by decide, by decide, by decide, by decide, by decide, by decide,
    by decide⟩

/-- C25: evaluation on a plain send. `sendTen` is a `SendCall`; `DeleteOnroad` on
`{3: [sendTen]}` panics and issues neither `deleteOnroadMeta` nor any other
call. The loop body itself, run on `sendTen`, issues `deleteOnroadMeta` and
then `DeleteContractAddrFromGid` although the block is not a `SendCreate`; run
on the receive `receiveTen`, not marked ignore, it issues `writeOnroadMeta` for
the send of hash 90. -/
theorem C25_plain_send_gid_deletion :
    sendTen.BlockType = .SendCall ∧
    pairPool.DeleteOnroad demoGid [] [(3, [sendTen])] = none ∧
    (pairPool.deleteOnroadBody demoGid [(3, [⟨sendTen, false⟩])] []
        ⟨sendTen, false⟩).map (fun r => (r.1, r.2.2)) =
      some (none, [.deleteOnroadMeta sendTen,
        .DeleteContractAddrFromGid (demoGid sendTen.Data) sendTen.ToAddress]) ∧
    receiveTen.FromBlockHash = sendTen.Hash ∧
    (pairPool.deleteOnroadBody demoGid [(4, [⟨receiveTen, false⟩])] []
        ⟨receiveTen, false⟩).map (fun r => (r.1, r.2.2)) =
      some (none, [.writeOnroadMeta sendTen]) := by
  refine ⟨by decide, by decide, by decide, by decide, by decide⟩

/-! ## Properties of the full cache -/

/-- A stored value is the one loaded afterwards. -/
theorem mapLoad_mapStore_same {α : Type} (m : List (Nat × α)) (k : Nat) (x : α) :
    mapLoad (mapStore m k x) k = some x := by
  induction m with
  | nil => simp [mapStore, mapLoad]
  | cons e rest ih =>
    obtain ⟨k2, y⟩ := e
    by_cases h : k2 = k
    · simp [mapStore, mapLoad, h]
    · simp [mapStore, mapLoad, h, ih]

/-- A deleted key is no longer found. -/
theorem mapLoad_mapDelete {α : Type} (m : List (Nat × α)) (k : Nat) :
    mapLoad (mapDelete m k) k = none := by
  induction m with
  | nil => simp [mapDelete, mapLoad]
  | cons e rest ih =>
    obtain ⟨k2, y⟩ := e
    by_cases h : k2 = k
    · simpa [mapDelete, h] using ih
    · simpa [mapDelete, mapLoad, h] using ih

/-- Stopping a timer does not make any timer pending. -/
theorem pendingTimers_stopTimer_le (ts : List (Address × Bool)) (i : Nat) (a : Address) :
    pendingTimers (stopTimer ts i) a ≤ pendingTimers ts a := by
  induction ts generalizing i with
  | nil => simp [stopTimer]
  | cons t rest ih =>
    obtain ⟨b, f⟩ := t
    cases i with
    | zero =>
      simp only [stopTimer, pendingTimers, List.filter_cons]
      split_ifs <;> simp_all
    | succ j =>
      have := ih j
      simp only [stopTimer, pendingTimers, List.filter_cons] at this ⊢
      split_ifs <;> simp_all

/-- A new pending timer adds one to the pending timers of its address. -/
theorem pendingTimers_append (ts : List (Address × Bool)) (a : Address) :
    pendingTimers (ts ++ [(a, true)]) a = pendingTimers ts a + 1 := by
  simp [pendingTimers, List.filter_append]

/-- A list without pending timer for an address, position by position. -/
theorem pendingTimers_eq_zero (ts : List (Address × Bool)) (A : Address)
    (h : ∀ i : Nat, ts[i]? ≠ some (A, true)) : pendingTimers ts A = 0 := by
  induction ts with
  | nil => rfl
  | cons t rest ih =>
    have h0 : t ≠ (A, true) := by
      have := h 0
      simpa using this
    have hr : ∀ i : Nat, rest[i]? ≠ some (A, true) := by
      intro i
      have := h (i + 1)
      simpa using this
    have := ih hr
    simp only [pendingTimers, List.filter_cons] at this ⊢
    simp [h0, this]

/-- When the only timer that may be pending for an address is the one at a
position, stopping that one leaves none pending. -/
theorem pendingTimers_stop_registered (ts : List (Address × Bool)) (A : Address) (t : Nat)
    (h : ∀ i : Nat, ts[i]? = some (A, true) → i = t) :
    pendingTimers (stopTimer ts t) A = 0 := by
  induction ts generalizing t with
  | nil => rfl
  | cons x rest ih =>
    obtain ⟨b, f⟩ := x
    cases t with
    | zero =>
      have hr : ∀ i : Nat, rest[i]? ≠ some (A, true) := by
        intro i hi
        have := h (i + 1) (by simpa using hi)
        omega
      have := pendingTimers_eq_zero rest A hr
      simp only [stopTimer, pendingTimers, List.filter_cons] at this ⊢
      simp [this]
    | succ j =>
      have h0 : (b, f) ≠ (A, true) := by
        intro hx
        have := h 0 (by simp [hx])
        omega
      have hr : ∀ i : Nat, rest[i]? = some (A, true) → i = j := by
        intro i hi
        have := h (i + 1) (by simpa using hi)
        omega
      have := ih j hr
      simp only [stopTimer, pendingTimers, List.filter_cons] at this ⊢
      simp [h0, this]

/-- The first acquire on an address without entry loads the blocks and installs
the entry with count 1; a pending timer registered for the address is
stopped. -/
theorem acquire_first (p : OnroadBlocksPool) (A : Address) (blocks : List AccountBlock)
    (hno : mapLoad p.fullCache A = none)
    (hload : p.dbAccess.GetAllOnroadBlocks A = (blocks, none))
    (htim : ∀ i : Nat, p.timers[i]? = some (A, true) →
      mapLoad p.fullCacheDeadTimer A = some i) :
    (p.AcquireAccountInfoCache A).1 = none ∧
      heldWith (p.AcquireAccountInfoCache A).2 A blocks 1 := by
  unfold OnroadBlocksPool.AcquireAccountInfoCache heldWith
  cases ht : mapLoad p.fullCacheDeadTimer A with
  | none =>
    simp only [hno, hload]
    refine ⟨trivial, mapLoad_mapStore_same _ _ _, ?_⟩
    apply pendingTimers_eq_zero
    intro i hi
    have := htim i hi
    rw [ht] at this
    exact absurd this (by simp)
  | some t =>
    simp only [hno, hload]
    refine ⟨trivial, mapLoad_mapStore_same _ _ _, ?_⟩
    apply pendingTimers_stop_registered
    intro i hi
    have := htim i hi
    rw [ht] at this
    simpa using this.symm

/-- An acquire on a held entry adds one to its count. -/
theorem acquire_next (p : OnroadBlocksPool) (A : Address) (blocks : List AccountBlock)
    (c : Int) (h : heldWith p A blocks c) :
    (p.AcquireAccountInfoCache A).1 = none ∧
      heldWith (p.AcquireAccountInfoCache A).2 A blocks (c + 1) := by
  obtain ⟨h1, h2⟩ := h
  unfold OnroadBlocksPool.AcquireAccountInfoCache heldWith
  cases ht : mapLoad p.fullCacheDeadTimer A with
  | none =>
    simp only [h1]
    exact ⟨trivial, by rw [mapLoad_mapStore_same]; rfl, h2⟩
  | some t =>
    simp only [h1]
    refine ⟨trivial, by rw [mapLoad_mapStore_same]; rfl, ?_⟩
    have := pendingTimers_stopTimer_le p.timers t A
    simp only at this ⊢
    omega

/-- A release that leaves the count positive only decrements it. -/
theorem release_positive (p : OnroadBlocksPool) (A : Address) (blocks : List AccountBlock)
    (c : Int) (h : heldWith p A blocks c) (hc : 1 < c) :
    (p.ReleaseAccountInfoCache A).1 = none ∧
      heldWith (p.ReleaseAccountInfoCache A).2 A blocks (c - 1) := by
  obtain ⟨h1, h2⟩ := h
  unfold OnroadBlocksPool.ReleaseAccountInfoCache heldWith
  simp only [h1, onroadBlocksCache.subReferenceCount]
  have hnot : ¬ (c - 1 ≤ 0) := by omega
  rw [if_neg hnot]
  exact ⟨rfl, mapLoad_mapStore_same _ _ _, h2⟩

/-- The release that brings the count from 1 to 0 resets the cursor and arms
one timer, registered for the address; when that timer fires the entry is
deleted. -/
theorem release_last (p : OnroadBlocksPool) (A : Address) (blocks : List AccountBlock)
    (h : heldWith p A blocks 1) :
    (p.ReleaseAccountInfoCache A).1 = none ∧
    mapLoad (p.ReleaseAccountInfoCache A).2.fullCache A =
      some { blocks := blocks, currentEle := 0, referenceCount := 0 } ∧
    pendingTimers (p.ReleaseAccountInfoCache A).2.timers A = 1 ∧
    mapLoad (p.ReleaseAccountInfoCache A).2.fullCacheDeadTimer A = some p.timers.length ∧
    (p.ReleaseAccountInfoCache A).2.timers[p.timers.length]? = some (A, true) ∧
    mapLoad ((p.ReleaseAccountInfoCache A).2.fireTimer p.timers.length).fullCache A =
      none := by
  obtain ⟨h1, h2⟩ := h
  have hq : p.ReleaseAccountInfoCache A =
      (none,
        { p with
          fullCache := mapStore p.fullCache A
            { blocks := blocks, currentEle := 0, referenceCount := 0 }
          fullCacheDeadTimer := mapStore p.fullCacheDeadTimer A p.timers.length
          timers := p.timers ++ [(A, true)] }) := by
    unfold OnroadBlocksPool.ReleaseAccountInfoCache
    simp only [h1, onroadBlocksCache.subReferenceCount, onroadBlocksCache.ResetCursor]
    simp
  rw [hq]
  have hget : (p.timers ++ [(A, true)])[p.timers.length]? = some (A, true) := by
    simp
  refine ⟨rfl, mapLoad_mapStore_same _ _ _, ?_, mapLoad_mapStore_same _ _ _, hget, ?_⟩
  · simp only [pendingTimers_append, h2]
  · unfold OnroadBlocksPool.fireTimer
    simp only [hget, OnroadBlocksPool.DeleteFullCache]
    exact mapLoad_mapDelete _ _

/-- Acquires on a held entry add up. -/
theorem acquireTimes_held (A : Address) (blocks : List AccountBlock) (n : Nat)
    (p : OnroadBlocksPool) (c : Int) (h : heldWith p A blocks c) :
    heldWith (acquireTimes A n p) A blocks (c + n) := by
  induction n with
  | zero => simpa [acquireTimes] using h
  | succ m ih =>
    unfold acquireTimes at ih ⊢
    rw [Function.iterate_succ_apply']
    have := (acquire_next _ A blocks _ ih).2
    have he : c + (m : Int) + 1 = c + ((m + 1 : Nat) : Int) := by push_cast; ring
    rw [he] at this
    exact this

/-- Releases that leave the count positive subtract. -/
theorem releaseTimes_held (A : Address) (blocks : List AccountBlock) (k : Nat)
    (p : OnroadBlocksPool) (c : Int) (h : heldWith p A blocks c) (hk : (k : Int) < c) :
    heldWith (releaseTimes A k p) A blocks (c - k) := by
  induction k with
  | zero => simpa [releaseTimes] using h
  | succ m ih =>
    have hm : (m : Int) < c := by push_cast at hk; omega
    have ih2 := ih hm
    unfold releaseTimes at ih2 ⊢
    rw [Function.iterate_succ_apply']
    have := (release_positive _ A blocks _ ih2 (by push_cast at hk; omega)).2
    have he : c - (m : Int) - 1 = c - ((m + 1 : Nat) : Int) := by push_cast; ring
    rw [he] at this
    exact this

/-- A failing load in `AcquireAccountInfoCache` returns the error and installs
no entry. -/
theorem acquire_load_fails (q : OnroadBlocksPool) (A : Address) (e : String)
    (hno : mapLoad q.fullCache A = none)
    (hfail : (q.dbAccess.GetAllOnroadBlocks A).2 = some e) :
    (q.AcquireAccountInfoCache A).1 = some e ∧
      mapLoad (q.AcquireAccountInfoCache A).2.fullCache A = none := by
  unfold OnroadBlocksPool.AcquireAccountInfoCache
  rcases hl : q.dbAccess.GetAllOnroadBlocks A with ⟨bl, err⟩
  rw [hl] at hfail
  simp only at hfail
  subst hfail
  cases ht : mapLoad q.fullCacheDeadTimer A <;> simp [hno, hl]

/-- Pairing on a pool without stale timers: from a pool without full-cache entry
for `A`, in which a timer pending
for `A` can only be the one registered for `A`, over a store whose load
succeeds with `blocks`, `n ≥ 1`
acquires followed by `n` releases leave the entry of `A` with the loaded
blocks, the cursor at the front and reference count 0, and exactly one timer
pending for `A`, the one registered for `A`; when it fires no entry for `A`
remains. After `n` acquires and `k < n` releases the entry is present with
count `n - k` and no timer is pending for `A`. A failing load returns its error
and installs no entry. -/
theorem acquire_release_pairing_of_registered (p : OnroadBlocksPool) (A : Address)
    (blocks : List AccountBlock) (n : Nat) (hn : 1 ≤ n)
    (hno : mapLoad p.fullCache A = none)
    (hload : p.dbAccess.GetAllOnroadBlocks A = (blocks, none))
    (htim : ∀ i : Nat, p.timers[i]? = some (A, true) →
      mapLoad p.fullCacheDeadTimer A = some i) :
    mapLoad (releaseTimes A n (acquireTimes A n p)).fullCache A =
      some { blocks := blocks, currentEle := 0, referenceCount := 0 } ∧
    pendingTimers (releaseTimes A n (acquireTimes A n p)).timers A = 1 ∧
    (∃ id, mapLoad (releaseTimes A n (acquireTimes A n p)).fullCacheDeadTimer A = some id ∧
      (releaseTimes A n (acquireTimes A n p)).timers[id]? = some (A, true) ∧
      mapLoad ((releaseTimes A n (acquireTimes A n p)).fireTimer id).fullCache A = none) ∧
    (∀ k, k < n →
      mapLoad (releaseTimes A k (acquireTimes A n p)).fullCache A =
          some { blocks := blocks, currentEle := 0, referenceCount := (n : Int) - k } ∧
        pendingTimers (releaseTimes A k (acquireTimes A n p)).timers A = 0) ∧
    (∀ (q : OnroadBlocksPool) (e : String), mapLoad q.fullCache A = none →
      (q.dbAccess.GetAllOnroadBlocks A).2 = some e →
      (q.AcquireAccountInfoCache A).1 = some e ∧
        mapLoad (q.AcquireAccountInfoCache A).2.fullCache A = none) := by
  obtain ⟨m, rfl⟩ : ∃ m, n = m + 1 := ⟨n - 1, by omega⟩
  have h1 := (acquire_first p A blocks hno hload htim).2
  have hacq : heldWith (acquireTimes A (m + 1) p) A blocks ((m : Int) + 1) := by
    have h2 := acquireTimes_held A blocks m _ 1 h1
    unfold acquireTimes at h2 ⊢
    rw [Function.iterate_succ_apply]
    have he : (1 : Int) + m = m + 1 := by ring
    rw [he] at h2
    exact h2
  have hpart : ∀ k, k < m + 1 →
      heldWith (releaseTimes A k (acquireTimes A (m + 1) p)) A blocks ((m : Int) + 1 - k) := by
    intro k hk
    exact releaseTimes_held A blocks k _ _ hacq (by omega)
  have hone : heldWith (releaseTimes A m (acquireTimes A (m + 1) p)) A blocks 1 := by
    have := hpart m (by omega)
    have he : (m : Int) + 1 - m = 1 := by ring
    rw [he] at this
    exact this
  have hlast := release_last _ A blocks hone
  have hstep : releaseTimes A (m + 1) (acquireTimes A (m + 1) p) =
      ((releaseTimes A m (acquireTimes A (m + 1) p)).ReleaseAccountInfoCache A).2 := by
    unfold releaseTimes
    rw [Function.iterate_succ_apply']
  rw [hstep]
  refine ⟨hlast.2.1, hlast.2.2.1, ⟨_, hlast.2.2.2.1, hlast.2.2.2.2.1, hlast.2.2.2.2.2⟩, ?_, ?_⟩
  · intro k hk
    have := hpart k hk
    unfold heldWith at this
    push_cast
    exact this
  · intro q e h3 h4
    exact acquire_load_fails q A e h3 h4

/-- Two acquires and two releases of address 4 on `freshPool`, whose store
loads the on-road send `sendTen`; and the failing load of `loadFailPool`. -/
theorem acquire_release_pairing_example :
    (1 ≤ 2 ∧ mapLoad freshPool.fullCache 4 = none ∧
      freshPool.dbAccess.GetAllOnroadBlocks 4 = ([sendTen], none) ∧
      freshPool.timers = []) ∧
    mapLoad (releaseTimes 4 2 (acquireTimes 4 2 freshPool)).fullCache 4 =
      some { blocks := [sendTen], currentEle := 0, referenceCount := 0 } ∧
    pendingTimers (releaseTimes 4 2 (acquireTimes 4 2 freshPool)).timers 4 = 1 ∧
    (mapLoad loadFailPool.fullCache 4 = none ∧
      (loadFailPool.dbAccess.GetAllOnroadBlocks 4).2 = some "db closed" ∧
      (loadFailPool.AcquireAccountInfoCache 4).1 = some "db closed" ∧
      mapLoad (loadFailPool.AcquireAccountInfoCache 4).2.fullCache 4 = none) :=
  have h := acquire_release_pairing_of_registered freshPool 4 [sendTen] 2 (by decide) (by decide)
    (by decide) (fun i hi => absurd hi (by simp [freshPool]))
  ⟨⟨by decide, by decide, by decide, rfl⟩, h.1, h.2.1, by decide, by decide,
    h.2.2.2.2 loadFailPool "db closed" (by decide) (by decide)⟩

/-- C26: evaluation of the pairing on `stalePool`, which is reached by one
acquire, three releases and the firing of the first expiry timer. It has no
full-cache entry for address 4 and its store loads `sendTen`; each of the three
releases armed a timer and replaced the registered one without stopping it, so
two timers are pending for address 4 and only the last is registered. After two
acquires the entry is held with count 2, the registered timer is stopped and
the other one is still pending: when it fires, the entry is deleted although no
release has happened. After two acquires and two releases the count is 0 and
two timers are pending for address 4. -/
theorem C26_stale_timer_deletes_held_entry :
    mapLoad stalePool.fullCache 4 = none ∧
    stalePool.dbAccess.GetAllOnroadBlocks 4 = ([sendTen], none) ∧
    stalePool.timers = [(4, false), (4, true), (4, true)] ∧
    mapLoad stalePool.fullCacheDeadTimer 4 = some 2 ∧
    (mapLoad (acquireTimes 4 2 stalePool).fullCache 4).map (fun c => c.referenceCount) =
      some 2 ∧
    (acquireTimes 4 2 stalePool).timers = [(4, false), (4, true), (4, false)] ∧
    mapLoad ((acquireTimes 4 2 stalePool).fireTimer 1).fullCache 4 = none ∧
    (mapLoad (releaseTimes 4 2 (acquireTimes 4 2 stalePool)).fullCache 4).map
      (fun c => c.referenceCount) = some 0 ∧
    pendingTimers (releaseTimes 4 2 (acquireTimes 4 2 stalePool)).timers 4 = 2 := by
  refine ⟨by decide, by decide, by decide, by decide, by decide, by decide, by decide,
    by decide, by decide⟩

/-! ## Properties of `fork2` -/

/-- The result of `fork2` when the walk finds a branch. -/
theorem fork2_of_found (t : BranchTree) (snippet : Snippet) (branches : List Branch)
    (b : Branch) (hf : branches.find? (fun b => t.hasTailKnot snippet b) = some b) :
    t.fork2 snippet branches =
      if (snippet.tailHash, snippet.tailHeight) = (b.HeadHH.Hash, b.HeadHH.Height) then
        .selected false true b
      else
        .selected true false b := by
  unfold BranchTree.fork2
  rw [hf]

/-- The result of `fork2` when the walk finds no branch. -/
theorem fork2_of_not_found (t : BranchTree) (snippet : Snippet) (branches : List Branch)
    (hf : branches.find? (fun b => t.hasTailKnot snippet b) = none) :
    t.fork2 snippet branches =
      if t.rootHasTailKnot snippet = true then .rootOnly else .notFound := by
  unfold BranchTree.fork2
  rw [hf]

/-- C27: when `fork2` selects a branch, `insertable` is true exactly when the
snippet's tail equals the head `(hash, height)` of the selected branch; for a
snippet starting with a block, the tail is `(prevHash, height - 1)` of that
block. -/
theorem C27_fork2_insertable (t : BranchTree) (snippet : Snippet) (branches : List Branch)
    (forky insertable : Bool) (branch : Branch)
    (h : t.fork2 snippet branches = .selected forky insertable branch) :
    (insertable = true ↔
      (snippet.tailHash, snippet.tailHeight) = (branch.HeadHH.Hash, branch.HeadHH.Height)) ∧
    (∀ block : CommonBlock, snippet = newSnippetChain block →
      (insertable = true ↔
        (block.PrevHash, (block.Height + u64 - 1) % u64) =
          (branch.HeadHH.Hash, branch.HeadHH.Height))) := by
  have key : insertable = true ↔
      (snippet.tailHash, snippet.tailHeight) = (branch.HeadHH.Hash, branch.HeadHH.Height) := by
    cases hf : branches.find? (fun b => t.hasTailKnot snippet b) with
    | some b =>
      rw [fork2_of_found t snippet branches b hf] at h
      by_cases hc : (snippet.tailHash, snippet.tailHeight) = (b.HeadHH.Hash, b.HeadHH.Height)
      · rw [if_pos hc] at h
        simp only [Fork2Result.selected.injEq] at h
        obtain ⟨_, h2, h3⟩ := h
        subst h2 h3
        exact ⟨fun _ => hc, fun _ => rfl⟩
      · rw [if_neg hc] at h
        simp only [Fork2Result.selected.injEq] at h
        obtain ⟨_, h2, h3⟩ := h
        subst h2 h3
        exact ⟨fun h => absurd h (by decide), fun h => absurd h hc⟩
    | none =>
      rw [fork2_of_not_found t snippet branches hf] at h
      split_ifs at h
  refine ⟨key, ?_⟩
  intro block hs
  rw [key, hs]
  rfl

/-- C27 witness: the scenario of `Test_Forkable2`. On the freshly initialised
tree `main` has tail and head at height 0; for the snippet built on height 0
with the zero hash `fork2` selects `main` with `forky = false` and
`insertable = true`. -/
theorem C27_fork2_insertable_witness :
    freshTree.Main = some freshMain ∧
    freshMain.TailHH.Height = 0 ∧ freshMain.HeadHH.Height = 0 ∧
    freshSnippet.tailHeight = 0 ∧ freshSnippet.tailHash = zeroHash ∧
    freshTree.fork2 freshSnippet freshTree.Branches = .selected false true freshMain ∧
    ((true = true) ↔
      (freshSnippet.tailHash, freshSnippet.tailHeight) =
        (freshMain.HeadHH.Hash, freshMain.HeadHH.Height)) :=
  ⟨by decide, by decide, by decide, by decide, by decide, by decide,
    (C27_fork2_insertable freshTree freshSnippet freshTree.Branches false true freshMain
      (by decide)).1⟩

/-- C28: when `fork2` selects a branch, that branch is one of the branches and
has a knot at the snippet's tail, and `forky` is true exactly when some branch
has such a knot and `insertable` is false, so the two flags are never both
true; a branch is selected exactly when some branch has such a knot; the
result is `NotFound` exactly when no branch and not the disk root has one. -/
theorem C28_fork2_forky (t : BranchTree) (snippet : Snippet) (branches : List Branch) :
    (∀ (forky insertable : Bool) (branch : Branch),
      t.fork2 snippet branches = .selected forky insertable branch →
      (forky = true ↔
        ((∃ b ∈ branches, t.hasTailKnot snippet b = true) ∧ insertable = false)) ∧
      ¬ (forky = true ∧ insertable = true) ∧
      branch ∈ branches ∧ t.hasTailKnot snippet branch = true) ∧
    ((∃ forky insertable branch,
        t.fork2 snippet branches = .selected forky insertable branch) ↔
      ∃ b ∈ branches, t.hasTailKnot snippet b = true) ∧
    (t.fork2 snippet branches = .notFound ↔
      ((∀ b ∈ branches, t.hasTailKnot snippet b = false) ∧
        t.rootHasTailKnot snippet = false)) := by
  cases hf : branches.find? (fun b => t.hasTailKnot snippet b) with
  | some b =>
    have hmem : b ∈ branches := List.mem_of_find?_eq_some hf
    have hknot : t.hasTailKnot snippet b = true := by
      have := List.find?_some hf
      simpa using this
    rw [fork2_of_found t snippet branches b hf]
    by_cases hc : (snippet.tailHash, snippet.tailHeight) = (b.HeadHH.Hash, b.HeadHH.Height)
    · rw [if_pos hc]
      refine ⟨?_, ?_, ?_⟩
      · intro forky insertable branch h
        simp only [Fork2Result.selected.injEq] at h
        obtain ⟨h1, h2, h3⟩ := h
        subst h1 h2 h3
        exact ⟨⟨fun h => absurd h (by decide), fun h => absurd h.2 (by decide)⟩,
          fun h => absurd h.1 (by decide), hmem, hknot⟩
      · exact ⟨fun _ => ⟨b, hmem, hknot⟩, fun _ => ⟨false, true, b, rfl⟩⟩
      · refine ⟨fun h => absurd h (by simp), ?_⟩
        rintro ⟨h1, _⟩
        have := h1 b hmem
        rw [hknot] at this
        exact absurd this (by decide)
    · rw [if_neg hc]
      refine ⟨?_, ?_, ?_⟩
      · intro forky insertable branch h
        simp only [Fork2Result.selected.injEq] at h
        obtain ⟨h1, h2, h3⟩ := h
        subst h1 h2 h3
        exact ⟨⟨fun _ => ⟨⟨b, hmem, hknot⟩, rfl⟩, fun _ => rfl⟩,
          fun h => absurd h.2 (by decide), hmem, hknot⟩
      · exact ⟨fun _ => ⟨b, hmem, hknot⟩, fun _ => ⟨true, false, b, rfl⟩⟩
      · refine ⟨fun h => absurd h (by simp), ?_⟩
        rintro ⟨h1, _⟩
        have := h1 b hmem
        rw [hknot] at this
        exact absurd this (by decide)
  | none =>
    have hnone : ∀ b ∈ branches, t.hasTailKnot snippet b = false := by
      intro b hb
      have := List.find?_eq_none.1 hf b hb
      simpa using this
    rw [fork2_of_not_found t snippet branches hf]
    refine ⟨?_, ?_, ?_⟩
    · intro forky insertable branch h
      split_ifs at h
    · constructor
      · rintro ⟨f, i, br, h⟩
        split_ifs at h
      · rintro ⟨b, hb, hk⟩
        have := hnone b hb
        rw [hk] at this
        exact absurd this (by decide)
    · constructor
      · intro h
        split_ifs at h with hr
        exact ⟨hnone, by simpa using hr⟩
      · rintro ⟨_, hr⟩
        simp [hr]

/-- C28 witness: the scenario of `Test_Forkable`. `main` holds the heights 6 to
11 above its tail at height 5 on a disk chain of height 5; for the snippet
built on the knot of height 5 `fork2` selects `main` with `forky = true` and
`insertable = false`; for a snippet built on a position nobody holds the result
is `NotFound`. -/
theorem C28_fork2_forky_witness :
    forkableTree.Main = some forkableMain ∧
    forkableMain.TailHH.Height = 5 ∧ forkableMain.HeadHH.Height = 11 ∧
    forkableTree.rootHead.Height = 5 ∧
    forkableTree.GetKnot 1 forkableMain 5 true = some ⟨5, 1005⟩ ∧
    forkableSnippet.tailHeight = 5 ∧ forkableSnippet.tailHash = 1005 ∧
    forkableTree.fork2 forkableSnippet forkableTree.Branches =
      .selected true false forkableMain ∧
    forkableTree.hasTailKnot forkableSnippet forkableMain = true ∧
    ((∀ b ∈ forkableTree.Branches, forkableTree.hasTailKnot strangerSnippet b = false) ∧
      forkableTree.rootHasTailKnot strangerSnippet = false) ∧
    forkableTree.fork2 strangerSnippet forkableTree.Branches = .notFound :=
  have h := C28_fork2_forky forkableTree forkableSnippet forkableTree.Branches
  have h2 := C28_fork2_forky forkableTree strangerSnippet forkableTree.Branches
  ⟨by decide, by decide, by decide, by decide, by decide, by decide, by decide, by decide,
    (h.1 true false forkableMain (by decide)).2.2.2, by decide,
    h2.2.2.2 (by decide)⟩

/-! ## Properties of sync chunks -/

/-- Adding a block succeeds exactly when it has the expected height and refers
to the last hash; the chunk then moves on to that block. -/
theorem addSnapshotBlock_none_iff (c : Chunk) (block : SnapshotBlock) :
    ((c.addSnapshotBlock block).1 = none ↔
      (block.Height = c.expectedNext ∧ block.PrevHash = c.hash)) ∧
    ((c.addSnapshotBlock block).1 = none →
      (c.addSnapshotBlock block).2.height = block.Height ∧
        (c.addSnapshotBlock block).2.hash = block.Hash) := by
  unfold Chunk.addSnapshotBlock
  by_cases h : block.Height = c.expectedNext ∧ block.PrevHash = c.hash
  · rw [if_pos h]
    exact ⟨⟨fun _ => h, fun _ => rfl⟩, fun _ => ⟨rfl, rfl⟩⟩
  · rw [if_neg h]
    exact ⟨⟨fun hc => absurd hc (by simp), fun hc => absurd hc h⟩,
      fun hc => absurd hc (by simp)⟩

/-- Blocks chained from the chunk's position are all accepted. -/
theorem addAll_chained (blocks : List SnapshotBlock) (c : Chunk)
    (h : chainedFrom c.hash c.height blocks) :
    ∀ e ∈ (c.addAll blocks).1, e = none := by
  induction blocks generalizing c with
  | nil => simp [Chunk.addAll]
  | cons block rest ih =>
    obtain ⟨h1, h2, h3⟩ := h
    have hok := (addSnapshotBlock_none_iff c block).1.2 ⟨h1, h2⟩
    have hpos := (addSnapshotBlock_none_iff c block).2 hok
    intro e he
    simp only [Chunk.addAll, List.mem_cons] at he
    rcases he with rfl | he
    · exact hok
    · apply ih (c.addSnapshotBlock block).2 _ e he
      rw [hpos.1, hpos.2]
      exact h3

/-- C29: `addSnapshotBlock(B)` succeeds exactly when `B.height` is the height the
chunk expects next and `B.prevHash` is the hash of the last accepted block, and
then `B` becomes the last accepted block; a chunk created with start
`(prevHash, prevHeight)` expects `prevHeight + 1` and the hash `prevHash`; hence
blocks chained from its position are accepted one after the other, and a first
block of height `prevHeight + 2` fails. -/
theorem C29_chunk_coherence (c : Chunk) (block : SnapshotBlock) (blocks : List SnapshotBlock)
    (prevHash endHash : Hash) (prevHeight endHeight : Nat) :
    ((c.addSnapshotBlock block).1 = none ↔
      (block.Height = c.expectedNext ∧ block.PrevHash = c.hash)) ∧
    ((c.addSnapshotBlock block).1 = none →
      (c.addSnapshotBlock block).2.expectedNext = (block.Height + 1) % u64 ∧
        (c.addSnapshotBlock block).2.hash = block.Hash) ∧
    ((newChunk prevHash prevHeight endHash endHeight).expectedNext = (prevHeight + 1) % u64 ∧
      (newChunk prevHash prevHeight endHash endHeight).hash = prevHash) ∧
    (chainedFrom prevHash prevHeight blocks →
      ∀ e ∈ ((newChunk prevHash prevHeight endHash endHeight).addAll blocks).1, e = none) ∧
    (block.Height = prevHeight + 2 →
      ((newChunk prevHash prevHeight endHash endHeight).addSnapshotBlock block).1 ≠ none) := by
  refine ⟨(addSnapshotBlock_none_iff c block).1, ?_, ⟨rfl, rfl⟩, ?_, ?_⟩
  · intro h
    have := (addSnapshotBlock_none_iff c block).2 h
    exact ⟨by unfold Chunk.expectedNext; rw [this.1], this.2⟩
  · intro h
    exact addAll_chained blocks _ h
  · intro hh hc
    have := ((addSnapshotBlock_none_iff _ block).1.1 hc).1
    unfold Chunk.expectedNext newChunk at this
    simp only at this
    have hle : (prevHeight + 1) % u64 ≤ prevHeight + 1 := Nat.mod_le _ _
    omega

/-- The blocks produced by `chainBlocks` are chained from their position. -/
theorem chainBlocks_chained (n : Nat) (prevHash : Hash) (height : Nat)
    (h : height + n < u64) : chainedFrom prevHash height (chainBlocks prevHash height n) := by
  induction n generalizing prevHash height with
  | zero => trivial
  | succ m ih =>
    have h1 : height + 1 + m < u64 := by omega
    have h2 : (height + 1) % u64 = height + 1 := Nat.mod_eq_of_lt (by omega)
    exact ⟨h2.symm, rfl, ih _ _ h1⟩

/-- The number of blocks produced by `chainBlocks`. -/
theorem chainBlocks_length (n : Nat) (prevHash : Hash) (height : Nat) :
    (chainBlocks prevHash height n).length = n := by
  induction n generalizing prevHash height with
  | zero => rfl
  | succ m ih => simp [chainBlocks, ih]

/-- The blocks of `TestChunkRead` are chained from `(zero hash, 100)`. -/
theorem chunkBlocks_chained : chainedFrom zeroHash 100 chunkBlocks :=
  chainBlocks_chained 100 zeroHash 100 (by decide)

/-- C29 witness: the scenarios of `TestChunkRead` and `TestChunkRead2` on a
chunk with start `(zero hash, 100)`: the blocks of heights 101 to 200, chained,
are all accepted, and a first block of height 102 fails. -/
theorem C29_chunk_coherence_witness :
    chunkBlocks.length = 100 ∧
    chainedFrom zeroHash 100 chunkBlocks ∧
    (∀ e ∈ (testChunk.addAll chunkBlocks).1, e = none) ∧
    (({ Hash := 7, PrevHash := zeroHash, Height := 102, Timestamp := 0 } :
        SnapshotBlock).Height = 100 + 2 ∧
      (testChunk.addSnapshotBlock
        { Hash := 7, PrevHash := zeroHash, Height := 102, Timestamp := 0 }).1 ≠ none) :=
  have h := C29_chunk_coherence testChunk
    { Hash := 7, PrevHash := zeroHash, Height := 102, Timestamp := 0 } chunkBlocks
    zeroHash zeroHash 100 200
  ⟨chainBlocks_length 100 zeroHash 100, chunkBlocks_chained,
    h.2.2.2.1 chunkBlocks_chained, rfl, h.2.2.2.2 rfl⟩

/-! ## The from check of a send block -/

/-- C31: for a block that is not a receive block `verifyFrom` only sets the from
sub-result to `SUCCESS`: the pending tasks, the error text and the other
sub-results stay as they were, and the outcome is the same for every store. -/
theorem C31_verifyFrom_send (verifier : AccountVerifier) (block : AccountBlock)
    (stat : AccountBlockVerifyStat) (h : block.IsReceiveBlock = false) :
    verifier.verifyFrom block stat = { stat with referredFromResult := .SUCCESS } ∧
    (verifier.verifyFrom block stat).accountTask = stat.accountTask ∧
    (verifier.verifyFrom block stat).snapshotTask = stat.snapshotTask ∧
    (verifier.verifyFrom block stat).errMsg = stat.errMsg ∧
    ∀ other : AccountVerifier, other.verifyFrom block stat = verifier.verifyFrom block stat := by
  have key : ∀ w : AccountVerifier,
      w.verifyFrom block stat = { stat with referredFromResult := .SUCCESS } := by
    intro w
    unfold AccountVerifier.verifyFrom
    rw [if_neg (by simp [h])]
  refine ⟨key verifier, ?_, ?_, ?_, ?_⟩
  · rw [key verifier]
  · rw [key verifier]
  · rw [key verifier]
  · intro other
    rw [key other, key verifier]

/-- C31 witness: the send `sendTen`, checked against two different stores. -/
theorem C31_verifyFrom_send_witness :
    sendTen.IsReceiveBlock = false ∧
    genesisVerifier.verifyFrom sendTen (newVerifyStat sendTen) =
      { newVerifyStat sendTen with referredFromResult := .SUCCESS } ∧
    brokenVerifier.verifyFrom sendTen (newVerifyStat sendTen) =
      genesisVerifier.verifyFrom sendTen (newVerifyStat sendTen) :=
  have h := C31_verifyFrom_send genesisVerifier sendTen (newVerifyStat sendTen) (by decide)
  ⟨by decide, h.1, h.2.2.2.2 brokenVerifier⟩

/-! ## The frame of `existInSubLedger` -/

/-- Reading a key other than the assigned one. -/
theorem mapLoad_mapStore_ne {α : Type} (m : List (Nat × α)) (k k2 : Nat) (x : α)
    (h : k2 ≠ k) : mapLoad (mapStore m k x) k2 = mapLoad m k2 := by
  induction m with
  | nil => simp [mapStore, mapLoad, Ne.symm h]
  | cons e rest ih =>
    obtain ⟨k3, y⟩ := e
    by_cases h3 : k3 = k
    · subst h3
      simp [mapStore, mapLoad, Ne.symm h]
    · by_cases h4 : k3 = k2
      · subst h4
        simp [mapStore, mapLoad, h3]
      · simp [mapStore, mapLoad, h3, h4, ih]

/-- C32: `existInSubLedger S ledger` returns the ledger as it is when `S` is not
a send block or when no list is filed under `S.ToAddress`. When `S` is a send
block, the list of every other address is unchanged, and in the list filed
under `S.ToAddress` every entry keeps its position and its block, and its
`ignore` flag is `true` when the block's `FromBlockHash` is `S.Hash` and
unchanged otherwise. -/
theorem C32_existInSubLedger_frame (S : AccountBlock)
    (ledger : List (Address × List signBlock)) :
    (S.IsSendBlock = false → existInSubLedger S ledger = ledger) ∧
    (S.IsSendBlock = true →
      (∀ addr : Address, addr ≠ S.ToAddress →
        mapLoad (existInSubLedger S ledger) addr = mapLoad ledger addr) ∧
      (mapLoad ledger S.ToAddress = none → existInSubLedger S ledger = ledger) ∧
      ∀ bl : List signBlock, mapLoad ledger S.ToAddress = some bl →
        ∃ bl2 : List signBlock,
          mapLoad (existInSubLedger S ledger) S.ToAddress = some bl2 ∧
          bl2.length = bl.length ∧
          ∀ (i : Nat) (v : signBlock), bl[i]? = some v →
            ∃ v2 : signBlock, bl2[i]? = some v2 ∧ v2.block = v.block ∧
              v2.ignore = (if v.block.FromBlockHash = S.Hash then true else v.ignore)) := by
  refine ⟨?_, ?_⟩
  · intro h
    unfold existInSubLedger
    rw [if_neg (by simp [h])]
  · intro h
    refine ⟨?_, ?_, ?_⟩
    · intro addr hne
      unfold existInSubLedger
      rw [if_pos h]
      cases hl : mapLoad ledger S.ToAddress with
      | none => rfl
      | some bl => exact mapLoad_mapStore_ne _ _ _ _ hne
    · intro hl
      unfold existInSubLedger
      rw [if_pos h, hl]
    · intro bl hl
      refine ⟨bl.map (fun v =>
        if v.block.FromBlockHash = S.Hash then { v with ignore := true } else v), ?_, ?_, ?_⟩
      · unfold existInSubLedger
        rw [if_pos h, hl]
        exact mapLoad_mapStore_same _ _ _
      · simp
      · intro i v hv
        refine ⟨if v.block.FromBlockHash = S.Hash then { v with ignore := true } else v,
          ?_, ?_, ?_⟩
        · rw [List.getElem?_map, hv]
          rfl
        · by_cases hc : v.block.FromBlockHash = S.Hash
          · rw [if_pos hc]
          · rw [if_neg hc]
        · by_cases hc : v.block.FromBlockHash = S.Hash
          · rw [if_pos hc, if_pos hc]
          · rw [if_neg hc, if_neg hc]

/-- C32 witness: `sendTen` on `demoSignLedger`: under address 4 the receive of
`sendTen` is flagged and the receive of `sendTwenty` is not; the list of
address 6, which also holds a receive of `sendTen`, is unchanged. -/
theorem C32_existInSubLedger_frame_witness :
    sendTen.IsSendBlock = true ∧
    mapLoad (existInSubLedger sendTen demoSignLedger) 6 = mapLoad demoSignLedger 6 ∧
    mapLoad (existInSubLedger sendTen demoSignLedger) 4 =
      some [⟨receiveTen, true⟩, ⟨receiveTwenty, false⟩] ∧
    existInSubLedger receiveTen demoSignLedger = demoSignLedger :=
  have h := C32_existInSubLedger_frame sendTen demoSignLedger
  have h2 := C32_existInSubLedger_frame receiveTen demoSignLedger
  ⟨by decide, (h.2 (by decide)).1 6 (by decide), by decide, h2.1 (by decide)⟩

/-! ## A send followed by its receive on the cached aggregate -/

/-- Incrementing and then decrementing a `uint64` gives the value back, also
across the wrap. -/
theorem u64_inc_dec (n : Nat) (h : n < u64) : ((n + 1) % u64 + u64 - 1) % u64 = n := by
  unfold u64 at *
  omega

/-- C36 counterexample: the aggregate of address 4 in `zeroEntryPool` has the
entry `{0, 1}` for token 1. After `sendFive` and its receive `receiveFive`, both
without error, the count is 1 again and the entry of token 1 is gone. -/
theorem C36_counterexample_zero_entry :
    mapLoad zeroEntryPool.simpleCache 4 =
      some ⟨1, [(1, ⟨0, 1⟩)]⟩ ∧
    (zeroEntryPool.updateSimpleCache true sendFive).map
      (fun r => (r.1, mapLoad r.2.simpleCache 4)) = some (none, some ⟨2, [(1, ⟨5, 2⟩)]⟩) ∧
    ((zeroEntryPool.updateSimpleCache true sendFive).bind
        (fun r => r.2.updateSimpleCache false receiveFive)).map
      (fun r => (r.1, mapLoad r.2.simpleCache 4)) =
      some (none, some ⟨1, []⟩) := by
  refine ⟨by decide, by decide, by decide⟩

/-- C36 (amended): on a cached aggregate with an entry for the token whose
`TotalAmount` is not negative, `updateSimpleCache` for a send of `(T, v)` and then
for the matching receive of `(T, v)` both succeed and restore `TotalNumber`; the
entry of `T` is restored (amount and number) when its `TotalAmount` was not 0
before the send, and is removed when it was 0. -/
theorem C36_round_trip (p : OnroadBlocksPool) (send receive : AccountBlock)
    (info : CommonAccountInfo) (entry : TokenBalanceInfo) (v : Int)
    (hinfo : mapLoad p.simpleCache send.ToAddress = some info)
    (hentry : mapLoad info.TokenBalanceInfoMap send.TokenId = some entry)
    (hnn : 0 ≤ entry.TotalAmount)
    (hN : info.TotalNumber < u64) (hn : entry.Number < u64)
    (hs : send.Amount = some v) (hr : receive.Amount = some v)
    (hto : receive.ToAddress = send.ToAddress) (htok : receive.TokenId = send.TokenId) :
    ∃ (p1 p2 : OnroadBlocksPool) (info2 : CommonAccountInfo),
      p.updateSimpleCache true send = some (none, p1) ∧
      p1.updateSimpleCache false receive = some (none, p2) ∧
      mapLoad p2.simpleCache send.ToAddress = some info2 ∧
      info2.TotalNumber = info.TotalNumber ∧
      mapLoad info2.TokenBalanceInfoMap send.TokenId =
        if entry.TotalAmount = 0 then none else some entry := by
  obtain ⟨a, n⟩ := entry
  simp only at hnn hn
  have e1 : p.updateSimpleCache true send = some (none, { p with
      simpleCache := mapStore p.simpleCache send.ToAddress
        { TotalNumber := (info.TotalNumber + 1) % u64
          TokenBalanceInfoMap := mapStore info.TokenBalanceInfoMap send.TokenId
            { TotalAmount := a + v, Number := (n + 1) % u64 } } }) := by
    simp only [OnroadBlocksPool.updateSimpleCache, hinfo, hentry, hs, if_true]
  by_cases hz : a = 0
  · subst hz
    have e2 : OnroadBlocksPool.updateSimpleCache { p with
        simpleCache := mapStore p.simpleCache send.ToAddress
          { TotalNumber := (info.TotalNumber + 1) % u64
            TokenBalanceInfoMap := mapStore info.TokenBalanceInfoMap send.TokenId
              { TotalAmount := 0 + v, Number := (n + 1) % u64 } } } false receive =
        some (none, { p with
          simpleCache := mapStore (mapStore p.simpleCache send.ToAddress
              { TotalNumber := (info.TotalNumber + 1) % u64
                TokenBalanceInfoMap := mapStore info.TokenBalanceInfoMap send.TokenId
                  { TotalAmount := 0 + v, Number := (n + 1) % u64 } }) send.ToAddress
            { TotalNumber := ((info.TotalNumber + 1) % u64 + u64 - 1) % u64
              TokenBalanceInfoMap :=
                mapDelete (mapStore info.TokenBalanceInfoMap send.TokenId
                  { TotalAmount := 0 + v, Number := (n + 1) % u64 }) send.TokenId } }) := by
      simp only [OnroadBlocksPool.updateSimpleCache, hto, htok, hr, mapLoad_mapStore_same,
        zero_add, lt_self_iff_false, if_false, if_true, Bool.false_eq_true]
    refine ⟨_, _, _, e1, e2, mapLoad_mapStore_same _ _ _, u64_inc_dec _ hN, ?_⟩
    simp only [if_true]
    exact mapLoad_mapDelete _ _
  · have h1 : ¬ (a + v < v) := by omega
    have h2 : ¬ (a + v = v) := by omega
    have e2 : OnroadBlocksPool.updateSimpleCache { p with
        simpleCache := mapStore p.simpleCache send.ToAddress
          { TotalNumber := (info.TotalNumber + 1) % u64
            TokenBalanceInfoMap := mapStore info.TokenBalanceInfoMap send.TokenId
              { TotalAmount := a + v, Number := (n + 1) % u64 } } } false receive =
        some (none, { p with
          simpleCache := mapStore (mapStore p.simpleCache send.ToAddress
              { TotalNumber := (info.TotalNumber + 1) % u64
                TokenBalanceInfoMap := mapStore info.TokenBalanceInfoMap send.TokenId
                  { TotalAmount := a + v, Number := (n + 1) % u64 } }) send.ToAddress
            { TotalNumber := ((info.TotalNumber + 1) % u64 + u64 - 1) % u64
              TokenBalanceInfoMap :=
                mapStore (mapStore info.TokenBalanceInfoMap send.TokenId
                  { TotalAmount := a + v, Number := (n + 1) % u64 }) send.TokenId
                  { TotalAmount := a + v - v, Number := ((n + 1) % u64 + u64 - 1) % u64 } } }) := by
      simp only [OnroadBlocksPool.updateSimpleCache, hto, htok, hr, mapLoad_mapStore_same,
        h1, h2, if_false, Bool.false_eq_true]
    refine ⟨_, _, _, e1, e2, mapLoad_mapStore_same _ _ _, u64_inc_dec _ hN, ?_⟩
    simp only [hz, if_false]
    rw [mapLoad_mapStore_same, u64_inc_dec _ hn]
    simp

/-- C36 witness: `sendTen` and `receiveTen` on `tenPool`, whose entry of token 1
is `{10, 1}`. -/
theorem C36_round_trip_witness :
    mapLoad tenPool.simpleCache sendTen.ToAddress = some aggregateTen ∧
    mapLoad aggregateTen.TokenBalanceInfoMap sendTen.TokenId =
      some { TotalAmount := 10, Number := 1 } ∧
    ∃ (p1 p2 : OnroadBlocksPool) (info2 : CommonAccountInfo),
      tenPool.updateSimpleCache true sendTen = some (none, p1) ∧
      p1.updateSimpleCache false receiveTen = some (none, p2) ∧
      mapLoad p2.simpleCache sendTen.ToAddress = some info2 ∧
      info2.TotalNumber = aggregateTen.TotalNumber ∧
      mapLoad info2.TokenBalanceInfoMap sendTen.TokenId =
        some { TotalAmount := 10, Number := 1 } :=
  ⟨by decide, by decide,
    C36_round_trip tenPool sendTen receiveTen aggregateTen { TotalAmount := 10, Number := 1 } 10
      (by decide) (by decide) (by decide) (by decide) (by decide) rfl rfl rfl rfl⟩

/-! ## The slice of the nonce -/

/-- C37: evaluation of `VerifyNonce`. On `shortNonceBlock`, whose nonce has three
bytes in a backing array of capacity three, the slice `block.Nonce[:8]` is out
of range and `VerifyNonce` panics. With an empty nonce the answer is `true`. -/
theorem C37_VerifyNonce_short_nonce_panics :
    shortNonceBlock.Nonce = [1, 2, 3] ∧ shortNonceBlock.NonceSpare = [] ∧
    genesisVerifier.VerifyNonce shortNonceBlock = none ∧
    genesisVerifier.VerifyNonce genesisBlock = some true := by
  refine ⟨by decide, by decide, by decide, by decide⟩

/-! ## Quota -/
/-- The midpoint of two indices: truncated division of the integers is the
division of the natural numbers. -/
theorem tdiv_two_cast (a b : Nat) :
    ((a : Int) + (b : Int) + 1).tdiv 2 = (((a + b + 1) / 2 : Nat) : Int) := by
  rw [Int.tdiv_eq_ediv (by omega) (by omega)]
  omega

/-- One call of `getIndexInBigIntList` on a range of more than one index whose
midpoint lies in the list. -/
theorem getIndexInBigIntList_step (fuel : Nat) (x : Int) (list : List Int)
    (left right : Nat) (y : Int) (hlt : left < right)
    (hy : list[(left + right + 1) / 2]? = some y) :
    getIndexInBigIntList (fuel + 1) x list left right =
      if y = x then .ret ((((left + right + 1) / 2 : Nat) : Int), [(((left + right + 1) / 2 : Nat) : Int)])
      else if y > x then
        match getIndexInBigIntList fuel x list left ((((left + right + 1) / 2 - 1 : Nat) : Int)) with
        | .ret (i, reads) => .ret (i, (((left + right + 1) / 2 : Nat) : Int) :: reads)
        | .crash => .crash
        | .outOfFuel => .outOfFuel
      else
        match getIndexInBigIntList fuel x list (((left + right + 1) / 2 : Nat) : Int) right with
        | .ret (i, reads) => .ret (i, (((left + right + 1) / 2 : Nat) : Int) :: reads)
        | .crash => .crash
        | .outOfFuel => .outOfFuel := by
  have hne : ¬ ((left : Int) = right) := by omega
  have hpos : ¬ ((((left + right + 1) / 2 : Nat) : Int) < 0) := by omega
  have hsub : ((((left + right + 1) / 2 : Nat) : Int) - 1) =
      ((((left + right + 1) / 2 - 1 : Nat)) : Int) := by omega
  rw [getIndexInBigIntList]
  simp only [hne, if_false, tdiv_two_cast, hpos, Int.toNat_ofNat, hy, hsub]

/-- On a range `left ≤ right` inside the list, `getIndexInBigIntList` answers
within `right - left + 1` calls; the answer lies in the range, as does every
index read. -/
theorem getIndexInBigIntList_ret (x : Int) (list : List Int) :
    ∀ (fuel left right : Nat), left ≤ right → right < list.length → right - left < fuel →
      ∃ (i : Nat) (reads : List Int),
        getIndexInBigIntList fuel x list left right = .ret ((i : Int), reads) ∧
        left ≤ i ∧ i ≤ right ∧
        (i = left ∨ list.getD i 0 ≤ x) ∧
        (i = right ∨ list.getD i 0 = x ∨ x < list.getD (i + 1) 0) ∧
        ∀ m ∈ reads, (left : Int) ≤ m ∧ m ≤ (right : Int) := by
  intro fuel
  induction fuel with
  | zero =>
    intro left right _ _ h
    omega
  | succ n ih =>
    intro left right hlr hr hf
    by_cases heq : left = right
    · subst heq
      refine ⟨left, [], ?_, le_refl _, le_refl _, Or.inl rfl, Or.inl rfl, by simp⟩
      rw [getIndexInBigIntList]
      simp
    · have hlt : left < right := by omega
      have hm1 : left < (left + right + 1) / 2 := by omega
      have hm2 : (left + right + 1) / 2 ≤ right := by omega
      have hy : list[(left + right + 1) / 2]? =
          some (list.getD ((left + right + 1) / 2) 0) := by
        rw [List.getD_eq_getElem?_getD, List.getElem?_eq_getElem (by omega)]
        rfl
      rw [getIndexInBigIntList_step n x list left right _ hlt hy]
      generalize (left + right + 1) / 2 = m at hm1 hm2 hy ⊢
      by_cases h1 : list.getD m 0 = x
      · rw [if_pos h1]
        refine ⟨m, [(m : Int)], rfl, by omega, hm2, Or.inr (le_of_eq h1), Or.inr (Or.inl h1), ?_⟩
        intro k hk
        simp only [List.mem_singleton] at hk
        omega
      · rw [if_neg h1]
        by_cases h2 : list.getD m 0 > x
        · rw [if_pos h2]
          obtain ⟨i, reads, e, b1, b2, c1, c2, c3⟩ :=
            ih left (m - 1) (by omega) (by omega) (by omega)
          rw [e]
          refine ⟨i, (m : Int) :: reads, rfl, b1, by omega, c1, ?_, ?_⟩
          · rcases c2 with c2 | c2 | c2
            · have h3 : i + 1 = m := by omega
              rw [h3]
              exact Or.inr (Or.inr h2)
            · exact Or.inr (Or.inl c2)
            · exact Or.inr (Or.inr c2)
          · intro k hk
            rcases List.mem_cons.1 hk with hk | hk
            · omega
            · have h4 := c3 k hk
              omega
        · rw [if_neg h2]
          obtain ⟨i, reads, e, b1, b2, c1, c2, c3⟩ := ih m right hm2 hr (by omega)
          rw [e]
          refine ⟨i, (m : Int) :: reads, rfl, by omega, b2, ?_, c2, ?_⟩
          · rcases c1 with c1 | c1
            · rw [c1]
              exact Or.inr (by omega)
            · exact Or.inr c1
          · intro k hk
            rcases List.mem_cons.1 hk with hk | hk
            · omega
            · have h4 := c3 k hk
              omega

/-- In a strictly ascending list a later element is larger. -/
theorem getD_lt_of_pairwise (list : List Int) (hasc : List.Pairwise (fun a b => a < b) list)
    (i j : Nat) (hij : i < j) (hj : j < list.length) : list.getD i 0 < list.getD j 0 := by
  rw [List.getD_eq_getElem _ _ (by omega : i < list.length), List.getD_eq_getElem _ _ hj]
  exact List.pairwise_iff_getElem.1 hasc i j (by omega) hj hij

/-- C39: on a strictly ascending list and a range `left ≤ right` inside it,
`getIndexInBigIntList` answers within `right - left + 1` calls. The answer `i`
lies in the range, `list[i] ≤ x` unless `i = left`, `x < list[i + 1]` unless
`i = right`, no index of the range above `i` has a threshold that does not
exceed `x`, and every index read lies in the range. -/
theorem C39_getIndexInBigIntList_search (x : Int) (list : List Int) (fuel left right : Nat)
    (hasc : List.Pairwise (fun a b => a < b) list)
    (hlr : left ≤ right) (hr : right < list.length) (hf : right - left < fuel) :
    ∃ (i : Nat) (reads : List Int),
      getIndexInBigIntList fuel x list left right = .ret ((i : Int), reads) ∧
      left ≤ i ∧ i ≤ right ∧
      (i = left ∨ list.getD i 0 ≤ x) ∧
      (i = right ∨ x < list.getD (i + 1) 0) ∧
      (∀ j : Nat, left ≤ j → j ≤ right → list.getD j 0 ≤ x → j ≤ i) ∧
      ∀ m ∈ reads, (left : Int) ≤ m ∧ m ≤ (right : Int) := by
  obtain ⟨i, reads, e, b1, b2, c1, c2, c3⟩ := getIndexInBigIntList_ret x list fuel left right hlr hr hf
  have c4 : i = right ∨ x < list.getD (i + 1) 0 := by
    rcases c2 with c2 | c2 | c2
    · exact Or.inl c2
    · by_cases h : i = right
      · exact Or.inl h
      · have h5 := getD_lt_of_pairwise list hasc i (i + 1) (by omega) (by omega)
        exact Or.inr (by omega)
    · exact Or.inr c2
  refine ⟨i, reads, e, b1, b2, c1, c4, ?_, c3⟩
  intro j hj1 hj2 hj3
  by_contra hcon
  rcases c4 with c4 | c4
  · omega
  · by_cases h6 : j = i + 1
    · rw [h6] at hj3
      omega
    · have h7 := getD_lt_of_pairwise list hasc (i + 1) j (by omega) (by omega)
      omega

/-- With at least one section, a difficulty list that is not shorter than the
section list, and one call per section, `calcPoWQuota` returns a quota without
error. -/
theorem calcPoWQuota_ret (fuel : Nat) (nodeConfig : NodeConfig) (db : QuotaDb)
    (difficulty : Option Int) (hsec : 0 < nodeConfig.sectionList.length)
    (hlist : nodeConfig.sectionList.length ≤ nodeConfig.difficultyList.length)
    (hfuel : nodeConfig.sectionList.length ≤ fuel) :
    ∃ powQuota : Nat,
      calcPoWQuota fuel nodeConfig db difficulty = .ret (powQuota, none) ∧ powQuota < u64 := by
  have hu : 0 < u64 := by unfold u64; positivity
  cases difficulty with
  | none => exact ⟨0, rfl, hu⟩
  | some d =>
    unfold calcPoWQuota
    by_cases hd : d ≤ 0
    · exact ⟨0, by simp only [hd, if_true], hu⟩
    · have hcast : ((nodeConfig.sectionList.length : Int) - 1) =
          ((nodeConfig.sectionList.length - 1 : Nat) : Int) := by omega
      obtain ⟨i, reads, e, _, _, _, _, _⟩ :=
        getIndexInBigIntList_ret d nodeConfig.difficultyList fuel 0
          (nodeConfig.sectionList.length - 1) (by omega) (by omega) (by omega)
      simp only [hd, if_false, hcast]
      rw [Nat.cast_zero] at e
      rw [e]
      refine ⟨calcQuotaByIndex nodeConfig i, rfl, ?_⟩
      unfold calcQuotaByIndex
      split
      · exact Nat.mod_lt _ hu
      · exact hu

/-- C34: with a configuration of at least one section whose difficulty list is
not shorter than the section list, `CalcBlockQuota` returns without error: the
value is `block.QuotaUsed` for a block that is not PoW and
`max (block.QuotaUsed - powQuota) 0` for a PoW block, where `powQuota` is the
answer of `calcPoWQuota` on the difficulty of the block. The 64-bit subtraction
gives the difference of the integers and the value never exceeds
`block.QuotaUsed`. -/
theorem C34_CalcBlockQuota_truncated (fuel : Nat) (nodeConfig : NodeConfig) (IsPoW : AccountBlock → Bool)
    (db : QuotaDb) (block : AccountBlock)
    (hsec : 0 < nodeConfig.sectionList.length)
    (hlist : nodeConfig.sectionList.length ≤ nodeConfig.difficultyList.length)
    (hfuel : nodeConfig.sectionList.length ≤ fuel)
    (hused : block.QuotaUsed < u64) :
    ∃ powQuota r : Nat,
      calcPoWQuota fuel nodeConfig db block.Difficulty = .ret (powQuota, none) ∧
      CalcBlockQuota fuel nodeConfig IsPoW db block = .ret (r, none) ∧
      (IsPoW block = false → r = block.QuotaUsed) ∧
      (IsPoW block = true → (r : Int) = max ((block.QuotaUsed : Int) - (powQuota : Int)) 0) ∧
      r ≤ block.QuotaUsed := by
  obtain ⟨powQuota, e, hp⟩ := calcPoWQuota_ret fuel nodeConfig db block.Difficulty hsec hlist hfuel
  by_cases hpow : IsPoW block = false
  · refine ⟨powQuota, block.QuotaUsed, e, ?_, fun _ => rfl, ?_, le_refl _⟩
    · unfold CalcBlockQuota
      rw [if_pos hpow]
    · intro h
      rw [h] at hpow
      exact absurd hpow (by decide)
  · have hpow2 : IsPoW block = true := by
      cases h : IsPoW block
      · exact absurd h hpow
      · rfl
    by_cases hgt : block.QuotaUsed > powQuota
    · refine ⟨powQuota, block.QuotaUsed - powQuota, e, ?_, ?_, ?_, ?_⟩
      · unfold CalcBlockQuota
        rw [if_neg hpow, e]
        simp only [hgt, if_true]
        have h3 : (block.QuotaUsed + u64 - powQuota) % u64 = block.QuotaUsed - powQuota := by
          unfold u64 at *
          omega
        rw [h3]
      · intro h
        exact absurd h hpow
      · intro _
        omega
      · omega
    · refine ⟨powQuota, 0, e, ?_, ?_, ?_, ?_⟩
      · unfold CalcBlockQuota
        rw [if_neg hpow, e]
        simp only [hgt, if_false]
      · intro h
        exact absurd h hpow
      · intro _
        omega
      · omega

/-- C33: when `calcQuotaFunc` returns `r`, `CalcQuotaForBlock` returns
`(0, 0, err)` if `r` carries an error, and otherwise the total
`min r.quotaTotal quotaLimitForBlock` with the addition
`min r.quotaAddition quotaLimitForBlock` if the total exceeds the limit and
`r.quotaAddition` if not. The returned total never exceeds the limit, and the
returned addition does not exceed the returned total when
`r.quotaAddition ≤ r.quotaTotal`. -/
theorem C33_CalcQuotaForBlock_cap (nodeConfig : NodeConfig) (db : QuotaDb) (addr : Address)
    (pledgeAmount difficulty : Option Int) (r : QuotaResult)
    (hcalc : nodeConfig.calcQuotaFunc db addr pledgeAmount difficulty = .ret r) :
    (∀ err, r.err = some err →
      CalcQuotaForBlock nodeConfig db addr pledgeAmount difficulty = .ret (0, 0, some err)) ∧
    (r.err = none →
      ∃ quotaTotal quotaAddition : Nat,
        CalcQuotaForBlock nodeConfig db addr pledgeAmount difficulty =
          .ret (quotaTotal, quotaAddition, none) ∧
        quotaTotal = min r.quotaTotal nodeConfig.quotaLimitForBlock ∧
        quotaAddition =
          (if r.quotaTotal > nodeConfig.quotaLimitForBlock then
            min r.quotaAddition nodeConfig.quotaLimitForBlock
          else r.quotaAddition) ∧
        quotaTotal ≤ nodeConfig.quotaLimitForBlock ∧
        (r.quotaAddition ≤ r.quotaTotal → quotaAddition ≤ quotaTotal)) := by
  refine ⟨?_, ?_⟩
  · intro err herr
    unfold CalcQuotaForBlock
    rw [hcalc]
    simp only [herr]
  · intro herr
    unfold CalcQuotaForBlock
    rw [hcalc]
    simp only [herr]
    by_cases h1 : r.quotaTotal > nodeConfig.quotaLimitForBlock
    · by_cases h2 : r.quotaAddition > nodeConfig.quotaLimitForBlock
      · refine ⟨nodeConfig.quotaLimitForBlock, nodeConfig.quotaLimitForBlock, ?_, ?_, ?_, ?_, ?_⟩
        · simp only [h1, h2, if_true]
        · omega
        · rw [if_pos h1]
          omega
        · omega
        · intro _
          omega
      · refine ⟨nodeConfig.quotaLimitForBlock, r.quotaAddition, ?_, ?_, ?_, ?_, ?_⟩
        · simp only [h1, h2, if_true, if_false]
        · omega
        · rw [if_pos h1]
          omega
        · omega
        · intro _
          omega
    · refine ⟨r.quotaTotal, r.quotaAddition, ?_, ?_, ?_, ?_, ?_⟩
      · simp only [h1, if_false]
      · omega
      · rw [if_neg h1]
      · omega
      · intro h
        exact h

/-- The conversion `uint64(i)` of an index that is not negative. -/
theorem toUint64_natCast (n : Nat) : toUint64 (n : Int) = n % u64 := by
  unfold toUint64
  rw [← Int.ofNat_emod]
  exact Int.toNat_ofNat _

/-- The ceiling of `q / s` is the least `i` with `q ≤ i * s`. -/
theorem ceil_least (q s : Nat) (hs : 0 < s) :
    q ≤ (q + s - 1) / s * s ∧ ∀ j : Nat, j < (q + s - 1) / s → j * s < q := by
  have h1 := Nat.div_add_mod (q + s - 1) s
  have h2 := Nat.mod_lt (q + s - 1) hs
  rw [Nat.mul_comm] at h1
  refine ⟨by omega, ?_⟩
  intro j hj
  have h3 : (j + 1) * s ≤ (q + s - 1) / s * s := Nat.mul_le_mul_right s hj
  rw [Nat.add_mul, Nat.one_mul] at h3
  omega

/-- The answer of `getIndexByQuota` when the quotient fits the type `int`: the
ceiling of `q / quotaForSection` if it is below the number of sections, and
`ErrBlockQuotaLimitReached` if not. -/
theorem getIndexByQuota_eq (nodeConfig : NodeConfig) (q : Nat)
    (hs : 0 < nodeConfig.quotaForSection) (hsu : nodeConfig.quotaForSection < u64)
    (hrep : nodeConfig.sectionList.length * nodeConfig.quotaForSection < u64) (hq : q < u64)
    (hint : 2 ≤ nodeConfig.quotaForSection ∨ q < 2 ^ 63) :
    getIndexByQuota nodeConfig q =
      if (q + nodeConfig.quotaForSection - 1) / nodeConfig.quotaForSection <
          nodeConfig.sectionList.length then
        ((((q + nodeConfig.quotaForSection - 1) / nodeConfig.quotaForSection : Nat) : Int), none)
      else (0, some .ErrBlockQuotaLimitReached) := by
  obtain ⟨hc1, _⟩ := ceil_least q nodeConfig.quotaForSection hs
  have hd := Nat.div_mul_le_self (q + nodeConfig.quotaForSection - 1) nodeConfig.quotaForSection
  generalize hsdef : nodeConfig.quotaForSection = s at *
  generalize hldef : nodeConfig.sectionList.length = len at *
  unfold getIndexByQuota
  rw [hsdef, hldef]
  by_cases hw : q + s - 1 < u64
  · have hwv : ((q + s) % u64 + u64 - 1) % u64 = q + s - 1 := by
      unfold u64 at *
      omega
    rw [hwv]
    generalize hcdef : (q + s - 1) / s = c at *
    have hc63 : c < 2 ^ 63 := by
      rcases Nat.lt_or_ge s 2 with h | h
      · have hs1 : s = 1 := by omega
        subst hs1
        have : q < 2 ^ 63 := by omega
        rw [Nat.mul_one] at hd
        omega
      · have h2 : c * 2 ≤ c * s := Nat.mul_le_mul_left c h
        unfold u64 at hw
        omega
    have hci : toInt c = (c : Int) := by
      unfold toInt
      rw [if_pos hc63]
    simp only [hci, toUint64_natCast]
    by_cases hlen : c < len
    · have h3 : (c + 1) * s ≤ len * s := Nat.mul_le_mul_right s hlen
      rw [Nat.add_mul, Nat.one_mul] at h3
      have h4 : c % u64 = c := Nat.mod_eq_of_lt (by unfold u64; omega)
      have h5 : c * s % u64 = c * s := Nat.mod_eq_of_lt (by omega)
      rw [h4, h5, if_pos hlen, if_neg]
      omega
    · rw [if_neg hlen, if_pos]
      left
      omega
  · have hwv : ((q + s) % u64 + u64 - 1) % u64 = q + s - 1 - u64 := by
      unfold u64 at *
      omega
    rw [hwv]
    have h0 : (q + s - 1 - u64) / s = 0 := Nat.div_eq_of_lt (by omega)
    rw [h0]
    have hci : toInt 0 = 0 := by decide
    have hcu : toUint64 0 = 0 := by decide
    simp only [hci, hcu]
    have hlen : ¬ ((q + s - 1) / s < len) := by
      intro hlt
      have h3 : ((q + s - 1) / s + 1) * s ≤ len * s := Nat.mul_le_mul_right s hlt
      rw [Nat.add_mul, Nat.one_mul] at h3
      omega
    rw [if_neg hlen, if_pos]
    by_cases hl0 : len = 0
    · left
      omega
    · right
      have h6 : 1 * s ≤ len * s := Nat.mul_le_mul_right s (by omega)
      rw [Nat.one_mul] at h6
      simp only [Nat.zero_mul, Nat.zero_mod]
      omega

/-- The sum of `QuotaUsedTotal` over a list with a first entry. -/
theorem specUsedSum_cons (q : QuotaInfo) (l : List QuotaInfo) :
    specUsedSum (q :: l) = q.QuotaUsedTotal + specUsedSum l := by
  simp [specUsedSum]

/-- The sum of `BlockCount` over a list with a first entry. -/
theorem specCountSum_cons (q : QuotaInfo) (l : List QuotaInfo) :
    specCountSum (q :: l) = q.BlockCount + specCountSum l := by
  simp [specCountSum]

/-- The sum of `QuotaUsedTotal` over a list with a last entry. -/
theorem specUsedSum_concat (q : QuotaInfo) (l : List QuotaInfo) :
    specUsedSum (l ++ [q]) = specUsedSum l + q.QuotaUsedTotal := by
  simp [specUsedSum]

/-- The sum of `BlockCount` over a list with a last entry. -/
theorem specCountSum_concat (q : QuotaInfo) (l : List QuotaInfo) :
    specCountSum (l ++ [q]) = specCountSum l + q.BlockCount := by
  simp [specCountSum]

/-- The sums of the reference fit for a list with a last entry when they fit
for the entries before it and the last sum fits. -/
theorem specFits_concat (P : Nat) : ∀ (l : List QuotaInfo) (t : Int) (q : QuotaInfo),
    specFits P t (l ++ [q]) =
      (specFits P t l && decide (specCarry P t l + (P : Int) < (u64 : Int))) := by
  intro l
  induction l with
  | nil =>
    intro t q
    simp [specFits, specCarry]
  | cons a rest ih =>
    intro t q
    simp [specFits, specCarry, ih, Bool.and_assoc]

/-- Without overflow the first loop of `calcQuotaTotal` computes the carry of the
reference and the two sums. -/
theorem calcQuotaTotalLoop_eq (P : Nat) : ∀ (l : List QuotaInfo) (t u c : Nat),
    specFits P (t : Int) l = true → u + specUsedSum l < u64 → c + specCountSum l < u64 →
    ∃ t2 : Nat,
      calcQuotaTotalLoop P l (t, u, c) = (t2, u + specUsedSum l, c + specCountSum l) ∧
      (t2 : Int) = specCarry P (t : Int) l := by
  intro l
  induction l with
  | nil =>
    intro t u c _ _ _
    exact ⟨t, by simp [calcQuotaTotalLoop, specUsedSum, specCountSum], rfl⟩
  | cons q rest ih =>
    intro t u c hf hu hc
    simp only [specFits, Bool.and_eq_true, decide_eq_true_eq] at hf
    obtain ⟨hf1, hf2⟩ := hf
    simp only [specUsedSum_cons, specCountSum_cons] at hu hc
    have hf3 : t + P < u64 := by exact_mod_cast hf1
    have e1 : (t + P) % u64 = t + P := Nat.mod_eq_of_lt hf3
    have e2 : (u + q.QuotaUsedTotal) % u64 = u + q.QuotaUsedTotal :=
      Nat.mod_eq_of_lt (by omega)
    have e3 : (c + q.BlockCount) % u64 = c + q.BlockCount := Nat.mod_eq_of_lt (by omega)
    have e4 : ∃ t1 : Nat,
        (if t + P ≥ q.QuotaTotal then (t + P + u64 - q.QuotaTotal) % u64 else 0) = t1 ∧
        (t1 : Int) = max ((t : Int) + (P : Int) - (q.QuotaTotal : Int)) 0 := by
      by_cases h : t + P ≥ q.QuotaTotal
      · refine ⟨t + P - q.QuotaTotal, ?_, by omega⟩
        rw [if_pos h]
        unfold u64 at *
        omega
      · exact ⟨0, by rw [if_neg h], by omega⟩
    obtain ⟨t1, e5, e6⟩ := e4
    rw [← e6] at hf2
    obtain ⟨t2, e7, e8⟩ :=
      ih t1 (u + q.QuotaUsedTotal) (c + q.BlockCount) hf2 (by omega) (by omega)
    refine ⟨t2, ?_, ?_⟩
    · simp only [calcQuotaTotalLoop, e1, e2, e3, e5, e7, specUsedSum_cons, specCountSum_cons]
      simp only [Nat.add_assoc]
    · simp only [specCarry]
      rw [← e6]
      exact e8

/-- C35: when `calcPledgeQuota` returns `P`, `calcPoWQuota` returns `A` and no
64-bit sum overflows, `calcQuotaTotal` returns, and its six answers are those of
the reference definition `specCalcQuotaTotal` on the quota-used list of the
address. -/
theorem C35_calcQuotaTotal_reference (fuel : Nat) (nodeConfig : NodeConfig) (db : QuotaDb)
    (addr : Address) (pledgeAmount difficulty : Option Int) (P A : Nat)
    (hP : calcPledgeQuota fuel nodeConfig db pledgeAmount = .ret (P, none))
    (hA : calcPoWQuota fuel nodeConfig db difficulty = .ret (A, none))
    (hno : specNoOverflow P A (db.GetQuotaUsedList addr)) :
    ∃ r : QuotaResult,
      calcQuotaTotal fuel nodeConfig db addr pledgeAmount difficulty = .ret r ∧
      r.toSpec = specCalcQuotaTotal P A (db.GetQuotaUsedList addr) := by
  obtain ⟨hfit, husum, hcsum, htot⟩ := hno
  unfold calcQuotaTotal
  rw [hP]
  simp only [hA]
  generalize db.GetQuotaUsedList addr = qs at *
  rcases List.eq_nil_or_concat qs with hnil | ⟨init, qn, hcat⟩
  · subst hnil
    have hA2 : (A : Int) < (u64 : Int) := by
      simpa [specCalcQuotaTotal] using htot
    have hA3 : A < u64 := by exact_mod_cast hA2
    refine ⟨_, rfl, ?_⟩
    simp [QuotaResult.toSpec, specCalcQuotaTotal, specQuotaAvg, specCountSum,
      Nat.mod_eq_of_lt hA3]
  · subst hcat
    rw [List.concat_eq_append] at *
    rw [specFits_concat, Bool.and_eq_true, decide_eq_true_eq] at hfit
    obtain ⟨hfit1, hfit2⟩ := hfit
    rw [specUsedSum_concat] at husum
    rw [specCountSum_concat] at hcsum
    obtain ⟨t, e1, e2⟩ := calcQuotaTotalLoop_eq P init 0 0 0 hfit1 (by omega) (by omega)
    rw [Nat.cast_zero] at e2
    have hst : (if (init ++ [qn]).length > 1 then
        calcQuotaTotalLoop P (init ++ [qn]).dropLast (0, 0, 0) else (0, 0, 0)) =
        (t, 0 + specUsedSum init, 0 + specCountSum init) := by
      rw [List.dropLast_concat, e1]
      split
      · rfl
      · rename_i hlen
        have hinit : init = [] := by
          cases init with
          | nil => rfl
          | cons a rest => simp at hlen
        subst hinit
        simp [calcQuotaTotalLoop] at e1
        simp [specUsedSum, specCountSum, e1]
    have hlast : (init ++ [qn]).getLast? = some qn := by simp
    rw [hst, hlast]
    rw [← e2] at hfit2
    have hf3 : t + P < u64 := by exact_mod_cast hfit2
    have e3 : (t + P) % u64 = t + P := Nat.mod_eq_of_lt hf3
    simp only [e3, Nat.zero_add]
    have e4 : (specUsedSum init + qn.QuotaUsedTotal) % u64 =
        specUsedSum init + qn.QuotaUsedTotal := Nat.mod_eq_of_lt husum
    have e5 : (specCountSum init + qn.BlockCount) % u64 =
        specCountSum init + qn.BlockCount := Nat.mod_eq_of_lt hcsum
    by_cases hge : t + P ≥ qn.QuotaTotal
    · have hspec : ¬ (specCarry P 0 init + (P : Int) < (qn.QuotaTotal : Int)) := by
        rw [← e2]
        omega
      have htot2 : specCarry P 0 init + (P : Int) - (qn.QuotaTotal : Int) + (A : Int) <
          (u64 : Int) := by
        simpa [specCalcQuotaTotal, hlast, List.dropLast_concat, hspec] using htot
      rw [← e2] at htot2
      have e6 : (t + P + u64 - qn.QuotaTotal) % u64 = t + P - qn.QuotaTotal := by
        unfold u64 at *
        omega
      have e7 : (t + P - qn.QuotaTotal + A) % u64 = t + P - qn.QuotaTotal + A :=
        Nat.mod_eq_of_lt (by omega)
      refine ⟨_, by rw [if_pos hge], ?_⟩
      simp only [QuotaResult.toSpec, specCalcQuotaTotal, hlast, List.dropLast_concat, hspec,
        if_false,
        e4, e5, e6, e7, specQuotaAvg, specUsedSum_concat, specCountSum_concat, ← e2]
      have hspec2 : ¬ ((t : Int) + (P : Int) < (qn.QuotaTotal : Int)) := by omega
      rw [if_neg hspec2]
      refine congrArg₂ (fun a b => SpecQuota.mk a P A qn.QuotaTotal b none) ?_ ?_
      · omega
      · by_cases hz : specCountSum init + qn.BlockCount = 0
        · simp [hz]
        · have hz2 : specCountSum init + qn.BlockCount > 0 := by omega
          simp [hz, hz2]
    · have hspec : specCarry P 0 init + (P : Int) < (qn.QuotaTotal : Int) := by
        rw [← e2]
        omega
      refine ⟨_, by rw [if_neg hge], ?_⟩
      simp [QuotaResult.toSpec, specCalcQuotaTotal, hlast, List.dropLast_concat, hspec]

/-- C39 witness: the search for 25 in `[0, 10, 20, 30]` between the indices 0
and 3 reads the indices 2 and 3 and answers 2. -/
theorem C39_getIndexInBigIntList_search_witness :
    getIndexInBigIntList 4 25 [0, 10, 20, 30] 0 3 = .ret (2, [2, 3]) ∧
    ∃ (i : Nat) (reads : List Int),
      getIndexInBigIntList 4 25 [0, 10, 20, 30] ((0 : Nat) : Int) ((3 : Nat) : Int) =
        .ret ((i : Int), reads) ∧
      0 ≤ i ∧ i ≤ 3 ∧
      (i = 0 ∨ ([0, 10, 20, 30] : List Int).getD i 0 ≤ 25) ∧
      (i = 3 ∨ 25 < ([0, 10, 20, 30] : List Int).getD (i + 1) 0) ∧
      (∀ j : Nat, 0 ≤ j → j ≤ 3 → ([0, 10, 20, 30] : List Int).getD j 0 ≤ 25 → j ≤ i) ∧
      ∀ m ∈ reads, ((0 : Nat) : Int) ≤ m ∧ m ≤ ((3 : Nat) : Int) :=
  ⟨by decide,
    C39_getIndexInBigIntList_search 25 [0, 10, 20, 30] 4 0 3 (by decide) (by decide)
      (by decide) (by decide)⟩

/-- C34 witness: `powBlock` used 30000 quota and its difficulty 150 grants
21000. -/
theorem C34_CalcBlockQuota_truncated_witness :
    CalcBlockQuota 4 demoConfig demoIsPoW demoQuotaDb powBlock = .ret (9000, none) ∧
    CalcBlockQuota 4 demoConfig demoIsPoW demoQuotaDb genesisBlock = .ret (0, none) ∧
    ∃ powQuota r : Nat,
      calcPoWQuota 4 demoConfig demoQuotaDb powBlock.Difficulty = .ret (powQuota, none) ∧
      CalcBlockQuota 4 demoConfig demoIsPoW demoQuotaDb powBlock = .ret (r, none) ∧
      (demoIsPoW powBlock = false → r = powBlock.QuotaUsed) ∧
      (demoIsPoW powBlock = true →
        (r : Int) = max ((powBlock.QuotaUsed : Int) - (powQuota : Int)) 0) ∧
      r ≤ powBlock.QuotaUsed :=
  ⟨by decide, by decide,
    C34_CalcBlockQuota_truncated 4 demoConfig demoIsPoW demoQuotaDb powBlock (by decide)
      (by decide) (by decide) (by decide)⟩

/-- C33 witness: for account 3 with pledge amount 25 and difficulty 150 the
total 146945 exceeds the limit 50000 and the addition 21000 does not. -/
theorem C33_CalcQuotaForBlock_cap_witness :
    totalConfig.calcQuotaFunc demoQuotaDb 3 (some 25) (some 150) =
      .ret ⟨146945, 42000, 21000, 15, 10, none⟩ ∧
    CalcQuotaForBlock totalConfig demoQuotaDb 3 (some 25) (some 150) =
      .ret (50000, 21000, none) ∧
    ∃ quotaTotal quotaAddition : Nat,
      CalcQuotaForBlock totalConfig demoQuotaDb 3 (some 25) (some 150) =
        .ret (quotaTotal, quotaAddition, none) ∧
      quotaTotal = min 146945 50000 ∧
      quotaAddition = (if 146945 > 50000 then min 21000 50000 else 21000) ∧
      quotaTotal ≤ 50000 ∧
      (21000 ≤ 146945 → quotaAddition ≤ quotaTotal) :=
  ⟨by decide, by decide,
    (C33_CalcQuotaForBlock_cap totalConfig demoQuotaDb 3 (some 25) (some 150)
      ⟨146945, 42000, 21000, 15, 10, none⟩ (by decide)).2 rfl⟩

/-- C35 witness: account 3 of `demoQuotaDb` with the pledge quota 42000 and the
PoW quota 21000. -/
theorem C35_calcQuotaTotal_reference_witness :
    calcPledgeQuota 4 demoConfig demoQuotaDb (some 25) = .ret (42000, none) ∧
    calcPoWQuota 4 demoConfig demoQuotaDb (some 150) = .ret (21000, none) ∧
    specCalcQuotaTotal 42000 21000 (demoQuotaDb.GetQuotaUsedList 3) =
      ⟨146945, 42000, 21000, 15, 10, none⟩ ∧
    ∃ r : QuotaResult,
      calcQuotaTotal 4 demoConfig demoQuotaDb 3 (some 25) (some 150) = .ret r ∧
      r.toSpec = specCalcQuotaTotal 42000 21000 (demoQuotaDb.GetQuotaUsedList 3) :=
  ⟨by decide, by decide, by decide,
    C35_calcQuotaTotal_reference 4 demoConfig demoQuotaDb 3 (some 25) (some 150) 42000 21000
      (by decide) (by decide) ⟨by decide, by decide, by decide, by decide⟩⟩

/-- C40 counterexample: with `quotaForSection = 1` and four sections the
quotient for `q = 2 ^ 63` is `2 ^ 63`, which the conversion to `int` turns into
`-2 ^ 63`: `getIndexByQuota` returns this index without error, although no index
below 4 reaches `q`. -/
theorem C40_counterexample_unit_section :
    unitSectionConfig.quotaForSection = 1 ∧
    unitSectionConfig.sectionList.length = 4 ∧
    unitSectionConfig.sectionList.length * unitSectionConfig.quotaForSection < u64 ∧
    2 ^ 63 < u64 ∧
    (∀ i : Nat, i < 4 → i * unitSectionConfig.quotaForSection < 2 ^ 63) ∧
    getIndexByQuota unitSectionConfig (2 ^ 63) = (-(9223372036854775808 : Int), none) := by
  refine ⟨rfl, rfl, by decide, by decide, by decide, by decide⟩

/-- C40 (amended): for `0 < quotaForSection < 2 ^ 64`, a number of sections with
`len * quotaForSection < 2 ^ 64`, and `q < 2 ^ 64` with `2 ≤ quotaForSection` or
`q < 2 ^ 63`, `getIndexByQuota q` returns the least index `c` with
`q ≤ c * quotaForSection` when `c` is below the number of sections and
`ErrBlockQuotaLimitReached` otherwise, also when `q + quotaForSection - 1`
wraps; and `getIndexByQuota (calcQuotaByIndex i) = i` for every index `i` below
the number of sections. -/
theorem C40_getIndexByQuota_ceiling (nodeConfig : NodeConfig) (q : Nat)
    (hs : 0 < nodeConfig.quotaForSection) (hsu : nodeConfig.quotaForSection < u64)
    (hrep : nodeConfig.sectionList.length * nodeConfig.quotaForSection < u64)
    (hlen : nodeConfig.sectionList.length < 2 ^ 63) (hq : q < u64)
    (hint : 2 ≤ nodeConfig.quotaForSection ∨ q < 2 ^ 63) :
    (∃ c : Nat, q ≤ c * nodeConfig.quotaForSection ∧
      (∀ j : Nat, j < c → j * nodeConfig.quotaForSection < q) ∧
      getIndexByQuota nodeConfig q =
        if c < nodeConfig.sectionList.length then ((c : Int), none)
        else (0, some .ErrBlockQuotaLimitReached)) ∧
    ∀ i : Nat, i < nodeConfig.sectionList.length →
      getIndexByQuota nodeConfig (calcQuotaByIndex nodeConfig (i : Int)) = ((i : Int), none) := by
  refine ⟨?_, ?_⟩
  · obtain ⟨h1, h2⟩ := ceil_least q nodeConfig.quotaForSection hs
    exact ⟨_, h1, h2, getIndexByQuota_eq nodeConfig q hs hsu hrep hq hint⟩
  · intro i hi
    have h3 : (i + 1) * nodeConfig.quotaForSection ≤
        nodeConfig.sectionList.length * nodeConfig.quotaForSection :=
      Nat.mul_le_mul_right _ hi
    rw [Nat.add_mul, Nat.one_mul] at h3
    have h4 : i % u64 = i := Nat.mod_eq_of_lt (by unfold u64; omega)
    have h5 : i * nodeConfig.quotaForSection % u64 = i * nodeConfig.quotaForSection :=
      Nat.mod_eq_of_lt (by omega)
    have h6 : calcQuotaByIndex nodeConfig (i : Int) = i * nodeConfig.quotaForSection := by
      unfold calcQuotaByIndex
      rw [if_pos ⟨by omega, by omega⟩, toUint64_natCast, h4, h5]
    have h7 : 2 ≤ nodeConfig.quotaForSection ∨ i * nodeConfig.quotaForSection < 2 ^ 63 := by
      rcases Nat.lt_or_ge nodeConfig.quotaForSection 2 with h | h
      · right
        have h8 : nodeConfig.quotaForSection = 1 := by omega
        rw [h8, Nat.mul_one]
        omega
      · exact Or.inl h
    have h9 : (i * nodeConfig.quotaForSection + nodeConfig.quotaForSection - 1) /
        nodeConfig.quotaForSection = i :=
      Nat.div_eq_of_lt_le (by omega) (by rw [Nat.add_mul, Nat.one_mul]; omega)
    rw [h6, getIndexByQuota_eq nodeConfig _ hs hsu hrep (by omega) h7, h9, if_pos hi]

/-- C40 witness: with sections of 21000 the least index for 30000 is 2, a
quota of `2 ^ 64 - 1` reaches the limit, and index 3 is recovered from its
quota. -/
theorem C40_getIndexByQuota_ceiling_witness :
    getIndexByQuota demoConfig 30000 = (2, none) ∧
    getIndexByQuota demoConfig (2 ^ 64 - 1) = (0, some .ErrBlockQuotaLimitReached) ∧
    getIndexByQuota demoConfig (calcQuotaByIndex demoConfig ((3 : Nat) : Int)) =
      (((3 : Nat) : Int), none) ∧
    ∃ c : Nat, 30000 ≤ c * demoConfig.quotaForSection ∧
      (∀ j : Nat, j < c → j * demoConfig.quotaForSection < 30000) ∧
      getIndexByQuota demoConfig 30000 =
        if c < demoConfig.sectionList.length then ((c : Int), none)
        else (0, some .ErrBlockQuotaLimitReached) :=
  have h := C40_getIndexByQuota_ceiling demoConfig 30000 (by decide) (by decide) (by decide)
    (by decide) (by decide) (Or.inl (by decide))
  ⟨by decide, by decide, h.2 3 (by decide), h.1⟩

/-! ## The mobile client -/

/-- C38 counterexample: the call of `downClient` fails and the call of `upClient`
succeeds. Both return a nil error, and the strings returned differ: the empty
string for the failed call, the JSON text for the successful one. -/
theorem C38_counterexample_text_tells :
    (downClient.Call "ledger_getBlocksByAccAddr" 3 [0, 10]).2 = some "connection refused" ∧
    downClient.GetBlocksByAccAddr (some 3) 0 10 = some ("", none) ∧
    (upClient.Call "ledger_getBlocksByAccAddr" 3 [0, 10]).2 = none ∧
    (upClient.Marshal (upClient.Call "ledger_getBlocksByAccAddr" 3 [0, 10]).1).2 = none ∧
    upClient.GetBlocksByAccAddr (some 3) 0 10 = some ("[1]", none) ∧
    downClient.GetBlocksByAccAddr (some 3) 0 10 ≠ upClient.GetBlocksByAccAddr (some 3) 0 10 := by
  refine ⟨by decide, by decide, by decide, by decide, by decide, by decide⟩

/-- C38 (amended): `GetBlocksByAccAddr` returns a nil error on every return; when
the RPC call fails and when the encoding fails it returns the empty string with
a nil error. `GetAccountByAccAddr` and `GetOnroadAccountByAccAddr` return the
error of the failed call or of the failed encoding. The error returned by
`GetBlocksByAccAddr` therefore does not tell a failed call, but the string does:
with an encoder that never gives the empty text on success, the answer is
`("", nil)` exactly when the call or the encoding failed. -/
theorem C38_GetBlocksByAccAddr_nil_error (vc : Client) (address : Address)
    (index count : Int) :
    (∃ s : String, vc.GetBlocksByAccAddr (some address) index count = some (s, none)) ∧
    (∀ e : String,
      (vc.Call "ledger_getBlocksByAccAddr" address [index, count]).2 = some e →
      vc.GetBlocksByAccAddr (some address) index count = some ("", none)) ∧
    (∀ e : String,
      (vc.Call "ledger_getBlocksByAccAddr" address [index, count]).2 = none →
      (vc.Marshal (vc.Call "ledger_getBlocksByAccAddr" address [index, count]).1).2 = some e →
      vc.GetBlocksByAccAddr (some address) index count = some ("", none)) ∧
    (∀ e : String,
      (vc.Call "ledger_getAccountByAccAddr" address []).2 = some e →
      vc.GetAccountByAccAddr (some address) = some ("", some e)) ∧
    (∀ e : String,
      (vc.Call "ledger_getAccountByAccAddr" address []).2 = none →
      (vc.MarshalJSON (vc.Call "ledger_getAccountByAccAddr" address []).1).2 = some e →
      vc.GetAccountByAccAddr (some address) = some ("", some e)) ∧
    (∀ e : String,
      (vc.Call "onroad_getAccountOnroadInfo" address []).2 = some e →
      vc.GetOnroadAccountByAccAddr (some address) = some ("", some e)) ∧
    (∀ e : String,
      (vc.Call "onroad_getAccountOnroadInfo" address []).2 = none →
      (vc.MarshalJSON (vc.Call "onroad_getAccountOnroadInfo" address []).1).2 = some e →
      vc.GetOnroadAccountByAccAddr (some address) = some ("", some e)) ∧
    ((∀ (b : List Nat) (text : String), vc.Marshal b = (text, none) → text ≠ "") →
      (vc.GetBlocksByAccAddr (some address) index count = some ("", none) ↔
        ((vc.Call "ledger_getBlocksByAccAddr" address [index, count]).2 ≠ none ∨
          (vc.Marshal (vc.Call "ledger_getBlocksByAccAddr" address [index, count]).1).2 ≠
            none))) := by
  refine ⟨?_, ?_, ?_, ?_, ?_, ?_, ?_, ?_⟩
  · rcases hc : vc.Call "ledger_getBlocksByAccAddr" address [index, count] with ⟨b, _ | e⟩
    · rcases hm : vc.Marshal b with ⟨jsonb, _ | e2⟩
      · exact ⟨jsonb, by simp only [Client.GetBlocksByAccAddr, hc, hm]⟩
      · exact ⟨"", by simp only [Client.GetBlocksByAccAddr, hc, hm]⟩
    · exact ⟨"", by simp only [Client.GetBlocksByAccAddr, hc]⟩
  · intro e he
    rcases hc : vc.Call "ledger_getBlocksByAccAddr" address [index, count] with ⟨b, _ | e2⟩
    · rw [hc] at he
      exact absurd he (by simp)
    · simp only [Client.GetBlocksByAccAddr, hc]
  · intro e he hm
    rcases hc : vc.Call "ledger_getBlocksByAccAddr" address [index, count] with ⟨b, _ | e2⟩
    · rw [hc] at hm
      rcases hm2 : vc.Marshal b with ⟨jsonb, _ | e3⟩
      · rw [hm2] at hm
        exact absurd hm (by simp)
      · simp only [Client.GetBlocksByAccAddr, hc, hm2]
    · simp only [Client.GetBlocksByAccAddr, hc]
  · intro e he
    rcases hc : vc.Call "ledger_getAccountByAccAddr" address [] with ⟨b, _ | e2⟩
    · rw [hc] at he
      exact absurd he (by simp)
    · rw [hc] at he
      simp only [Client.GetAccountByAccAddr, hc, Option.some.inj he]
  · intro e he hm
    rcases hc : vc.Call "ledger_getAccountByAccAddr" address [] with ⟨b, _ | e2⟩
    · rw [hc] at hm
      rcases hm2 : vc.MarshalJSON b with ⟨bytes, _ | e3⟩
      · rw [hm2] at hm
        exact absurd hm (by simp)
      · rw [hm2] at hm
        simp only [Client.GetAccountByAccAddr, hc, hm2, Option.some.inj hm]
    · rw [hc] at he
      exact absurd he (by simp)
  · intro e he
    rcases hc : vc.Call "onroad_getAccountOnroadInfo" address [] with ⟨b, _ | e2⟩
    · rw [hc] at he
      exact absurd he (by simp)
    · rw [hc] at he
      simp only [Client.GetOnroadAccountByAccAddr, hc, Option.some.inj he]
  · intro e he hm
    rcases hc : vc.Call "onroad_getAccountOnroadInfo" address [] with ⟨b, _ | e2⟩
    · rw [hc] at hm
      rcases hm2 : vc.MarshalJSON b with ⟨bytes, _ | e3⟩
      · rw [hm2] at hm
        exact absurd hm (by simp)
      · rw [hm2] at hm
        simp only [Client.GetOnroadAccountByAccAddr, hc, hm2, Option.some.inj hm]
    · rw [hc] at he
      exact absurd he (by simp)

  · intro hne
    rcases hc : vc.Call "ledger_getBlocksByAccAddr" address [index, count] with ⟨b, _ | e⟩
    · rcases hm : vc.Marshal b with ⟨jsonb, _ | e2⟩
      · have hj : jsonb ≠ "" := hne b jsonb hm
        simp only [Client.GetBlocksByAccAddr, hc, hm]
        constructor
        · intro h
          have h2 : jsonb = "" := by simpa using h
          exact absurd h2 hj
        · intro h
          rcases h with h | h
          · exact absurd rfl h
          · exact absurd rfl h
      · simp [Client.GetBlocksByAccAddr, hc, hm]
    · simp [Client.GetBlocksByAccAddr, hc]

/-- C38 witness: a client whose calls fail, a client whose encoders fail and a
client without failure, whose encoder gives the text `[1]`. -/
theorem C38_GetBlocksByAccAddr_nil_error_witness :
    downClient.GetBlocksByAccAddr (some 3) 0 10 = some ("", none) ∧
    brokenJsonClient.GetBlocksByAccAddr (some 3) 0 10 = some ("", none) ∧
    upClient.GetBlocksByAccAddr (some 3) 0 10 = some ("[1]", none) ∧
    downClient.GetAccountByAccAddr (some 3) = some ("", some "connection refused") ∧
    brokenJsonClient.GetAccountByAccAddr (some 3) = some ("", some "unsupported value") ∧
    downClient.GetOnroadAccountByAccAddr (some 3) = some ("", some "connection refused") ∧
    brokenJsonClient.GetOnroadAccountByAccAddr (some 3) =
      some ("", some "unsupported value") ∧
    (∀ (b : List Nat) (text : String), upClient.Marshal b = (text, none) → text ≠ "") ∧
    (upClient.GetBlocksByAccAddr (some 3) 0 10 = some ("", none) ↔
      ((upClient.Call "ledger_getBlocksByAccAddr" 3 [0, 10]).2 ≠ none ∨
        (upClient.Marshal (upClient.Call "ledger_getBlocksByAccAddr" 3 [0, 10]).1).2 ≠
          none)) :=
  have h1 := C38_GetBlocksByAccAddr_nil_error downClient 3 0 10
  have h2 := C38_GetBlocksByAccAddr_nil_error brokenJsonClient 3 0 10
  have h3 := C38_GetBlocksByAccAddr_nil_error upClient 3 0 10
  have hup : ∀ (b : List Nat) (text : String), upClient.Marshal b = (text, none) → text ≠ "" :=
    fun _ text h => by
      have h4 : "[1]" = text := congrArg Prod.fst h
      rw [← h4]
      decide
  ⟨h1.2.1 "connection refused" rfl, h2.2.2.1 "unsupported value" rfl rfl, rfl,
    h1.2.2.2.1 "connection refused" rfl, h2.2.2.2.2.1 "unsupported value" rfl rfl,
    h1.2.2.2.2.2.1 "connection refused" rfl, h2.2.2.2.2.2.2.1 "unsupported value" rfl rfl,
    hup, h3.2.2.2.2.2.2.2 hup⟩

end GoVite
